import Mathlib

/-!
# Seaurchin: judgment and scoring core

A shallow embedding of `Seaurchin/ScoreProcessor.cpp` and of the scene scheduler of
`Seaurchin/ScriptScene.cpp`.

Conventions of the embedding.

* A C++ `double` is the rational number (`ℚ`) it denotes, and every operation
  that the source makes on doubles is the exact operation followed by
  `roundDouble`: rounding to 53 significant bits, ties to even (`dadd`, `dsub`,
  `dmul`, `ddiv`; a decimal literal is `roundDouble` of the decimal; an integer
  counter that enters a `double` expression is converted by `toDouble`).
  Negation, `fabs` and the comparisons are exact.  The exponent of
  `roundDouble` is not bounded: infinities, NaN and the gradual underflow below
  `2^-1022` are outside the embedding, and a division by zero has the value `0`
  of `ℚ`, so a statement about a quotient by `AllNotes` carries the hypothesis
  `AllNotes > 0`.  `IsDouble` says that a rational is a finite `double`.
  `round` of `<cmath>` (halves away from zero) is `cround`.
* The header that declares `PlayStatus` is not among the sources; its counters
  are natural numbers and its two gauge fields are `double`s.
* Integer types that are written in the source are kept: the `uint32_t` result
  of `GetScore` and the `int` out-parameter of `GetGaugeValue` are reduced to
  their 32-bit range.
* A `std::bitset` indexed by an enumeration is a function from the enumeration
  to `Bool`; `test`, `set`, `reset` are application and point update.
* `shared_ptr<SusDrawableNoteData>` is a value: a function that writes through
  the pointer returns the note it leaves behind. The note list a processor works
  on is its field `data`.
* Calls on the `ScenePlayer` that only produce sound or graphics are recorded in
  the order they are made; the text sent to the debug console is not recorded.
-/

namespace Seaurchin

/-! ## Numbers -/

/-- C `round`: nearest integer, halves away from zero. -/
def cround (x : ℚ) : ℤ :=
  if 0 ≤ x then ⌊x + 1 / 2⌋ else -⌊-x + 1 / 2⌋

/-- Conversion of an integral `double` to `uint32_t`, reduced modulo `2^32`. -/
def toUInt32 (z : ℤ) : ℕ := (z % 2 ^ 32).toNat

/-- An `int` after an arithmetic step: two's complement, 32 bits. -/
def wrapInt32 (z : ℤ) : ℤ := (z + 2 ^ 31) % 2 ^ 32 - 2 ^ 31

/-! ## Double precision -/

/-- The position of the leading bit of `n` (`0` for `n ≤ 1`), by halving, sixteen
bits at a time while the number allows it; `fuel` bounds the number of steps. -/
def ilog2Aux : ℕ → ℕ → ℕ
  | 0, _ => 0
  | fuel + 1, n =>
    if 65536 ≤ n then ilog2Aux fuel (n / 65536) + 16
    else if 2 ≤ n then ilog2Aux fuel (n / 2) + 1
    else 0

/-- The position of the leading bit of `n`: `2 ^ ilog2 n ≤ n < 2 ^ (ilog2 n + 1)`
for `n > 0`. -/
def ilog2 (n : ℕ) : ℕ := ilog2Aux n n

/-- Rounding to the nearest integer, halves to the even neighbour. -/
def roundEven (y : ℚ) : ℤ :=
  if y - ⌊y⌋ < 1 / 2 then ⌊y⌋
  else if 1 / 2 < y - ⌊y⌋ then ⌊y⌋ + 1
  else if ⌊y⌋ % 2 = 0 then ⌊y⌋ else ⌊y⌋ + 1

/-- The binary exponent of `x ≠ 0`: `2 ^ binade x ≤ |x| < 2 ^ (binade x + 1)`. -/
def binade (x : ℚ) : ℤ :=
  if (2 : ℚ) ^ ((ilog2 x.num.natAbs : ℤ) - (ilog2 x.den : ℤ)) ≤ |x| then
    (ilog2 x.num.natAbs : ℤ) - (ilog2 x.den : ℤ)
  else (ilog2 x.num.natAbs : ℤ) - (ilog2 x.den : ℤ) - 1

/-- Rounding of `x ≥ 0` to 53 significant bits: to the nearest multiple of
`2 ^ (binade x - 52)`, halves to the even multiple. -/
def roundMag (x : ℚ) : ℚ :=
  if x = 0 then 0
  else (roundEven (x / 2 ^ (binade x - 52)) : ℚ) * 2 ^ (binade x - 52)

/-- The `double` nearest to `x`, ties to even: the result of an operation whose
exact value is `x`. -/
def roundDouble (x : ℚ) : ℚ :=
  if 0 ≤ x then roundMag x else -roundMag (-x)

/-- The number is a finite `double`: it has at most 53 significant bits, it is a
multiple of `2^-1074` and it is below `2^1024` in magnitude. -/
def IsDouble (x : ℚ) : Prop :=
  roundDouble x = x ∧ (x * 2 ^ 1074).den = 1 ∧ |x| < 2 ^ 1024

instance IsDouble.decidable (x : ℚ) : Decidable (IsDouble x) := by
  unfold IsDouble
  infer_instance

/-- Conversion of an integer counter to `double`. -/
def toDouble (n : ℕ) : ℚ := roundDouble n

/-- `x + y` on doubles. -/
def dadd (x y : ℚ) : ℚ := roundDouble (x + y)

/-- `x - y` on doubles. -/
def dsub (x y : ℚ) : ℚ := roundDouble (x - y)

/-- `x * y` on doubles. -/
def dmul (x y : ℚ) : ℚ := roundDouble (x * y)

/-- `x / y` on doubles. -/
def ddiv (x y : ℚ) : ℚ := roundDouble (x / y)

/-! ## PlayStatus -/

/-- The score counters of a play session. -/
structure PlayStatus where
  JusticeCritical : ℕ
  Justice : ℕ
  Attack : ℕ
  Miss : ℕ
  AllNotes : ℕ
  Combo : ℕ
  CurrentGauge : ℚ
  GaugeDefaultMax : ℚ
deriving DecidableEq

/-- The `while` loop of `PlayStatus::GetGaugeValue`; `fuel` bounds the number of
iterations, `none` means the bound was hit. The result is
`(fulfilled, calcv, currentMax)` at loop exit. -/
def gaugeLoop : ℕ → ℤ → ℚ → ℚ → Option (ℤ × ℚ × ℚ)
  | 0, _, _, _ => none
  | fuel + 1, fulfilled, calcv, currentMax =>
    if calcv ≥ currentMax then
      gaugeLoop fuel (wrapInt32 (fulfilled + 1)) (dsub calcv currentMax) (dadd currentMax 2000)
    else
      some (fulfilled, calcv, currentMax)

/-- `PlayStatus::GetGaugeValue`, returning the out-parameters `(fulfilled, rest)`. -/
def PlayStatus.GetGaugeValue (s : PlayStatus) (fuel : ℕ) : Option (ℤ × ℚ) :=
  let fulfilled : ℤ := 0
  let calcv : ℚ := cround s.CurrentGauge
  let currentMax : ℚ := 12000
  match gaugeLoop fuel fulfilled calcv currentMax with
  | none => none
  | some (fulfilled, calcv, currentMax) => some (fulfilled, ddiv calcv currentMax)

/-- The `double` named `result` at the end of `PlayStatus::GetScore`. The literals
`1000000.0`, `1.00` and `0.50` are doubles as they stand; `1.01` is rounded. -/
def PlayStatus.scoreResult (s : PlayStatus) : ℚ :=
  let result : ℚ := 0
  let base : ℚ := ddiv 1000000 (toDouble s.AllNotes)
  let result := dadd result (dmul (dmul (toDouble s.JusticeCritical) base) (roundDouble 1.01))
  let result := dadd result (dmul (dmul (toDouble s.Justice) base) 1)
  let result := dadd result (dmul (dmul (toDouble s.Attack) base) (1 / 2))
  result

/-- `PlayStatus::GetScore`: `(uint32_t)round(result)`. -/
def PlayStatus.GetScore (s : PlayStatus) : ℕ := toUInt32 (cround s.scoreResult)

/-! ## Notes -/

/-- A `std::bitset` whose positions are named by the enumeration `α`. -/
def Bitset (α : Type) : Type := α → Bool

/-- `bitset::test`. -/
def Bitset.test {α : Type} (b : Bitset α) (a : α) : Bool := b a

/-- `bitset::set` of one position. -/
def Bitset.set {α : Type} [DecidableEq α] (b : Bitset α) (a : α) : Bitset α :=
  fun x => if x = a then true else b x

/-- `bitset::reset` of one position. -/
def Bitset.reset {α : Type} [DecidableEq α] (b : Bitset α) (a : α) : Bitset α :=
  fun x => if x = a then false else b x

/-- The bitset with exactly the listed positions set. -/
def Bitset.ofList {α : Type} [DecidableEq α] (l : List α) : Bitset α :=
  fun x => decide (x ∈ l)

/-- The note type flags that `ScoreProcessor.cpp` tests. -/
inductive SusNoteType
  | Tap | ExTap | Flick | Air | Hold | Slide | AirAction | Step | Control | End
deriving DecidableEq, Repr

/-- The on-the-fly attributes that `ScoreProcessor.cpp` tests. -/
inductive NoteAttribute
  | Finished
deriving DecidableEq, Repr

/-- A note of the timeline; `ExtraData` holds its child events, which are records
of the same type. `NoteType` is the field `Type` of the source. -/
structure SusDrawableNoteData where
  NoteType : Bitset SusNoteType
  OnTheFlyData : Bitset NoteAttribute
  StartTime : ℚ
  StartLane : ℤ
  Length : ℤ
  ExtraData : List SusDrawableNoteData

/-! ## Collaborators -/

/-- The kinds of judgment effect. -/
inductive JudgeType
  | ShortNormal | ShortEx | SlideTap | Action
deriving DecidableEq, Repr

/-- A feedback request made to the `ScenePlayer`. -/
inductive PlayerCall
  | PlaySoundTap | PlaySoundExTap | PlaySoundFlick | PlaySoundAir | PlaySoundAirAction
  | PlaySoundHold | StopSoundHold | PlaySoundSlide | StopSoundSlide
  | SpawnJudgeEffect (note : SusDrawableNoteData) (type : JudgeType)
  | SpawnSlideLoopEffect (note : SusDrawableNoteData)
  | RemoveSlideEffect

/-- The part of `ScenePlayer` the processors use: the clocks, the note list, and
the feedback requests received so far (oldest first). -/
structure ScenePlayer where
  CurrentTime : ℚ
  CurrentSoundTime : ℚ
  SeenDuration : ℚ
  data : List SusDrawableNoteData
  calls : List PlayerCall

/-- Record one feedback request. -/
def ScenePlayer.call (pl : ScenePlayer) (c : PlayerCall) : ScenePlayer :=
  { pl with calls := pl.calls ++ [c] }

/-- The input source that `ScoreProcessor.cpp` queries. -/
inductive ControllerSource
  | IntegratedSliders
deriving DecidableEq, Repr

/-- The live input state: which lanes of a source were triggered this frame and
which are held. -/
structure ControlState where
  GetTriggerState : ControllerSource → ℤ → Bool
  GetCurrentState : ControllerSource → ℤ → Bool

/-! ## The two processors -/

/-- State of an `AutoPlayerProcessor`. -/
structure AutoPlayerProcessor where
  Player : ScenePlayer
  Status : PlayStatus
  data : List SusDrawableNoteData
  isInHold : Bool
  isInSlide : Bool
  wasInHold : Bool
  wasInSlide : Bool

/-- State of a `PlayableProcessor`. -/
structure PlayableProcessor where
  Player : ScenePlayer
  CurrentState : ControlState
  Status : PlayStatus
  data : List SusDrawableNoteData
  isInHold : Bool
  isInSlide : Bool
  wasInHold : Bool
  wasInSlide : Bool

/-- The statement `Status.JusticeCritical = ... = Status.CurrentGauge = 0`. -/
def PlayStatus.clearCounters (s : PlayStatus) : PlayStatus :=
  { s with JusticeCritical := 0, Justice := 0, Attack := 0, Miss := 0, Combo := 0,
           CurrentGauge := 0 }

/-- `note->OnTheFlyData.set(NoteAttribute::Finished)`. -/
def SusDrawableNoteData.setFinished (note : SusDrawableNoteData) : SusDrawableNoteData :=
  { note with OnTheFlyData := note.OnTheFlyData.set NoteAttribute.Finished }

/-- `note->OnTheFlyData.reset(NoteAttribute::Finished)`. -/
def SusDrawableNoteData.resetFinished (note : SusDrawableNoteData) : SusDrawableNoteData :=
  { note with OnTheFlyData := note.OnTheFlyData.reset NoteAttribute.Finished }

/-- One iteration of the inner loop `for (auto &extra : note->ExtraData)` of
`MovePosition`: the effect of the child event `extra` on `note`. -/
def seekExtra (newTime relative : ℚ) (note extra : SusDrawableNoteData) :
    SusDrawableNoteData :=
  if extra.NoteType.test SusNoteType.Tap then note
  else if extra.NoteType.test SusNoteType.ExTap then note
  else if extra.NoteType.test SusNoteType.Control then note
  else if relative ≥ 0 then
    if extra.StartTime ≤ newTime then note.setFinished else note
  else
    if extra.StartTime ≥ newTime then note.resetFinished else note

/-- One iteration of the loop `for (auto &note : data)` of `MovePosition`; the
body is the same in `AutoPlayerProcessor` (lines 95-115) and `PlayableProcessor`
(lines 451-471). -/
def seekNote (newTime relative : ℚ) (note : SusDrawableNoteData) : SusDrawableNoteData :=
  if note.NoteType.test SusNoteType.Hold || note.NoteType.test SusNoteType.Slide
      || note.NoteType.test SusNoteType.AirAction then
    let note := if note.StartTime ≤ newTime then note.setFinished else note
    note.ExtraData.foldl (seekExtra newTime relative) note
  else
    if relative ≥ 0 then
      if note.StartTime ≤ newTime then note.setFinished else note
    else
      if note.StartTime ≥ newTime then note.resetFinished else note

/-- `AutoPlayerProcessor::MovePosition`. -/
def AutoPlayerProcessor.MovePosition (p : AutoPlayerProcessor) (relative : ℚ) :
    AutoPlayerProcessor :=
  let newTime := dadd p.Player.CurrentSoundTime relative
  let Status := p.Status.clearCounters
  let Player := ((p.Player.call PlayerCall.StopSoundHold).call
    PlayerCall.StopSoundSlide).call PlayerCall.RemoveSlideEffect
  { p with
    Status := Status
    wasInHold := false, isInHold := false
    wasInSlide := false, isInSlide := false
    Player := Player
    data := p.data.map (seekNote newTime relative) }

/-- `PlayableProcessor::MovePosition`. -/
def PlayableProcessor.MovePosition (p : PlayableProcessor) (relative : ℚ) :
    PlayableProcessor :=
  let newTime := dadd p.Player.CurrentSoundTime relative
  let Status := p.Status.clearCounters
  let Player := ((p.Player.call PlayerCall.StopSoundHold).call
    PlayerCall.StopSoundSlide).call PlayerCall.RemoveSlideEffect
  { p with
    Status := Status
    wasInHold := false, isInHold := false
    wasInSlide := false, isInSlide := false
    Player := Player
    data := p.data.map (seekNote newTime relative) }

/-- The `double` constant `jthJC = 0.033` of `CheckJudgement`. -/
def jthJC : ℚ := roundDouble 0.033

/-- The `double` constant `jthJ = 0.048` of `CheckJudgement`. -/
def jthJ : ℚ := roundDouble 0.048

/-- The `double` constant `jthA = 0.072` of `CheckJudgement`. -/
def jthA : ℚ := roundDouble 0.072

/-- The `double` constant `judgeAdjust = 0.020` of `CheckJudgement`. -/
def judgeAdjust : ℚ := roundDouble 0.020

/-- The judgment made by `CheckJudgement` once a triggered lane is found: the
body of the lane loop after the trigger test. The text written to the debug
console is not part of the state. -/
def judgeHit (reltime : ℚ) (Status : PlayStatus) (note : SusDrawableNoteData) :
    SusDrawableNoteData × PlayStatus :=
  let reltime := |reltime|
  if reltime ≤ jthJC then
    (note.setFinished,
     { Status with
       JusticeCritical := Status.JusticeCritical + 1
       Combo := Status.Combo + 1
       CurrentGauge :=
         dadd Status.CurrentGauge (ddiv Status.GaugeDefaultMax (toDouble Status.AllNotes)) })
  else if reltime ≤ jthJ then
    (note.setFinished,
     { Status with
       Justice := Status.Justice + 1
       Combo := Status.Combo + 1
       CurrentGauge :=
         dadd Status.CurrentGauge
           (ddiv (ddiv Status.GaugeDefaultMax (toDouble Status.AllNotes)) (roundDouble 1.01)) })
  else
    (note.setFinished,
     { Status with
       Attack := Status.Attack + 1
       Combo := Status.Combo + 1
       CurrentGauge :=
         dadd Status.CurrentGauge
           (dmul (ddiv (ddiv Status.GaugeDefaultMax (toDouble Status.AllNotes))
             (roundDouble 1.01)) (1 / 2)) })

/-- The loop `for (int i = note->StartLane; i < note->StartLane + note->Length; i++)`
of `CheckJudgement`, with `n` lanes left to visit from lane `i` on. -/
def judgeLanes (trigger : ℤ → Bool) (reltime : ℚ) (Status : PlayStatus)
    (note : SusDrawableNoteData) : ℕ → ℤ → Bool × SusDrawableNoteData × PlayStatus
  | 0, _ => (false, note, Status)
  | n + 1, i =>
    if !trigger i then judgeLanes trigger reltime Status note n (i + 1)
    else
      let r := judgeHit reltime Status note
      (true, r.1, r.2)

/-- The local `reltime` of `CheckJudgement`:
`Player->CurrentTime - note->StartTime + judgeAdjust`, left to right. -/
def PlayableProcessor.reltime (p : PlayableProcessor) (note : SusDrawableNoteData) : ℚ :=
  dadd (dsub p.Player.CurrentTime note.StartTime) judgeAdjust

/-- `PlayableProcessor::CheckJudgement`: the returned flag, the note and the
processor after the call. -/
def PlayableProcessor.CheckJudgement (p : PlayableProcessor) (note : SusDrawableNoteData) :
    Bool × SusDrawableNoteData × PlayableProcessor :=
  let reltime := p.reltime note
  if note.OnTheFlyData.test NoteAttribute.Finished then (false, note, p)
  else if reltime < -jthA then (false, note, p)
  else if reltime > jthA then
    (false, note.setFinished,
     { p with Status := { p.Status with Miss := p.Status.Miss + 1, Combo := 0 } })
  else
    let r := judgeLanes (p.CurrentState.GetTriggerState ControllerSource.IntegratedSliders)
      reltime p.Status note note.Length.toNat note.StartLane
    (r.1, r.2.1, { p with Status := r.2.2 })

/-! ## Judging notes: the code shared by the two processors

The branches of `ProcessScore` for hold, slide, air-action and air notes, and
`IncrementCombo`, have the same text in `AutoPlayerProcessor` (lines 126-214) and
in `PlayableProcessor` (lines 237-329, after the test of `relpos` that opens each
branch there). They read and write the player, the status and the two flags
`isInHold`, `isInSlide`; `ScoreCore` is that part of a processor. -/

/-- The fields of a processor that judging a note reads and writes. -/
structure ScoreCore where
  Player : ScenePlayer
  Status : PlayStatus
  isInHold : Bool
  isInSlide : Bool

/-- A call `Player->...` made while judging. -/
def ScoreCore.call (c : ScoreCore) (x : PlayerCall) : ScoreCore :=
  { c with Player := c.Player.call x }

/-- The body of `IncrementCombo` (lines 128-130 and 239-241). -/
def ScoreCore.IncrementCombo (c : ScoreCore) : ScoreCore :=
  { c with Status :=
      { c.Status with
        Combo := c.Status.Combo + 1
        JusticeCritical := c.Status.JusticeCritical + 1
        CurrentGauge :=
          dadd c.Status.CurrentGauge
            (ddiv c.Status.GaugeDefaultMax (toDouble c.Status.AllNotes)) } }

/-- The value `(extra->StartTime - Player->CurrentSoundTime) / Player->SeenDuration`. -/
def ScoreCore.pos (c : ScoreCore) (extra : SusDrawableNoteData) : ℚ :=
  ddiv (dsub extra.StartTime c.Player.CurrentSoundTime) c.Player.SeenDuration

/-- The loop over `note->ExtraData` in the hold branch (lines 148-163, 260-275):
the state and the child events after the loop or after its `return`. -/
def holdExtras (note : SusDrawableNoteData) :
    List SusDrawableNoteData → ScoreCore → ScoreCore × List SusDrawableNoteData
  | [], c => (c, [])
  | extra :: rest, c =>
    if c.pos extra ≥ 0 then
      let r := holdExtras note rest c
      (r.1, extra :: r.2)
    else
      let c := if extra.NoteType.test SusNoteType.End then { c with isInHold := false } else c
      if extra.OnTheFlyData.test NoteAttribute.Finished then
        let r := holdExtras note rest c
        (r.1, extra :: r.2)
      else if extra.NoteType.test SusNoteType.ExTap then
        (c.IncrementCombo, extra.setFinished :: rest)
      else
        let c := if !extra.NoteType.test SusNoteType.Tap then c.call PlayerCall.PlaySoundTap
          else c
        let c := c.call (PlayerCall.SpawnJudgeEffect note JudgeType.ShortNormal)
        (c.IncrementCombo, extra.setFinished :: rest)

/-- The hold branch of `ProcessScore` (lines 140-163, 252-275). -/
def processHold (c : ScoreCore) (note : SusDrawableNoteData) :
    ScoreCore × SusDrawableNoteData :=
  let c := { c with isInHold := true }
  let cn : ScoreCore × SusDrawableNoteData :=
    if !note.OnTheFlyData.test NoteAttribute.Finished then
      let c := c.call PlayerCall.PlaySoundTap
      let c := c.call (PlayerCall.SpawnJudgeEffect note JudgeType.ShortNormal)
      (c.IncrementCombo, note.setFinished)
    else (c, note)
  let r := holdExtras cn.2 cn.2.ExtraData cn.1
  (r.1, { cn.2 with ExtraData := r.2 })

/-- The loop over `note->ExtraData` in the slide branch (lines 174-190, 287-303). -/
def slideExtras : List SusDrawableNoteData → ScoreCore → ScoreCore × List SusDrawableNoteData
  | [], c => (c, [])
  | extra :: rest, c =>
    if c.pos extra ≥ 0 then
      let r := slideExtras rest c
      (r.1, extra :: r.2)
    else
      let c := if extra.NoteType.test SusNoteType.End then { c with isInSlide := false } else c
      if extra.NoteType.test SusNoteType.Control then
        let r := slideExtras rest c
        (r.1, extra :: r.2)
      else if extra.OnTheFlyData.test NoteAttribute.Finished then
        let r := slideExtras rest c
        (r.1, extra :: r.2)
      else if extra.NoteType.test SusNoteType.ExTap then
        (c.IncrementCombo, extra.setFinished :: rest)
      else
        let c := if !extra.NoteType.test SusNoteType.Tap then c.call PlayerCall.PlaySoundTap
          else c
        let c := c.call (PlayerCall.SpawnJudgeEffect extra JudgeType.SlideTap)
        (c.IncrementCombo, extra.setFinished :: rest)

/-- The slide branch of `ProcessScore` (lines 165-190, 278-303). -/
def processSlide (c : ScoreCore) (note : SusDrawableNoteData) :
    ScoreCore × SusDrawableNoteData :=
  let c := { c with isInSlide := true }
  if !note.OnTheFlyData.test NoteAttribute.Finished then
    let c := c.call PlayerCall.PlaySoundTap
    let c := c.call (PlayerCall.SpawnSlideLoopEffect note)
    (c.IncrementCombo, note.setFinished)
  else
    let r := slideExtras note.ExtraData c
    (r.1, { note with ExtraData := r.2 })

/-- The loop over `note->ExtraData` in the air-action branch (lines 192-208,
306-322). -/
def airActionExtras :
    List SusDrawableNoteData → ScoreCore → ScoreCore × List SusDrawableNoteData
  | [], c => (c, [])
  | extra :: rest, c =>
    if c.pos extra ≥ 0 then
      let r := airActionExtras rest c
      (r.1, extra :: r.2)
    else if extra.NoteType.test SusNoteType.Control then
      let r := airActionExtras rest c
      (r.1, extra :: r.2)
    else if extra.NoteType.test SusNoteType.Tap then
      let r := airActionExtras rest c
      (r.1, extra :: r.2)
    else if extra.OnTheFlyData.test NoteAttribute.Finished then
      let r := airActionExtras rest c
      (r.1, extra :: r.2)
    else if extra.NoteType.test SusNoteType.ExTap then
      (c.IncrementCombo, extra.setFinished :: rest)
    else if c.pos extra ≥ 0 then
      let r := airActionExtras rest c
      (r.1, extra :: r.2)
    else
      let c := c.call PlayerCall.PlaySoundAirAction
      let c := c.call (PlayerCall.SpawnJudgeEffect extra JudgeType.Action)
      let c := c.IncrementCombo
      let r := airActionExtras rest c
      (r.1, extra.setFinished :: r.2)

/-- The air-action branch of `ProcessScore` (lines 192-208, 306-322). -/
def processAirAction (c : ScoreCore) (note : SusDrawableNoteData) :
    ScoreCore × SusDrawableNoteData :=
  let r := airActionExtras note.ExtraData c
  (r.1, { note with ExtraData := r.2 })

/-- The air branch of `ProcessScore` (lines 210-214, 325-329). -/
def processAir (c : ScoreCore) (note : SusDrawableNoteData) :
    ScoreCore × SusDrawableNoteData :=
  let c := c.call PlayerCall.PlaySoundAir
  let c := c.call (PlayerCall.SpawnJudgeEffect note JudgeType.ShortNormal)
  let c := c.call (PlayerCall.SpawnJudgeEffect note JudgeType.ShortEx)
  (c.IncrementCombo, note.setFinished)

/-! ## AutoPlayerProcessor -/

/-- The judging part of an `AutoPlayerProcessor`. -/
def AutoPlayerProcessor.core (p : AutoPlayerProcessor) : ScoreCore :=
  ⟨p.Player, p.Status, p.isInHold, p.isInSlide⟩

/-- Write the judging part back into an `AutoPlayerProcessor`. -/
def AutoPlayerProcessor.withCore (p : AutoPlayerProcessor) (c : ScoreCore) :
    AutoPlayerProcessor :=
  { p with Player := c.Player, Status := c.Status, isInHold := c.isInHold,
           isInSlide := c.isInSlide }

/-- `AutoPlayerProcessor::IncrementCombo`. -/
def AutoPlayerProcessor.IncrementCombo (p : AutoPlayerProcessor) : AutoPlayerProcessor :=
  p.withCore p.core.IncrementCombo

/-- `AutoPlayerProcessor::ProcessScore`: the processor and the note after the call. -/
def AutoPlayerProcessor.ProcessScore (p : AutoPlayerProcessor) (note : SusDrawableNoteData) :
    AutoPlayerProcessor × SusDrawableNoteData :=
  let relpos := ddiv (dsub note.StartTime p.Player.CurrentSoundTime) p.Player.SeenDuration
  if relpos ≥ 0 || (note.OnTheFlyData.test NoteAttribute.Finished
      && note.ExtraData.length == 0) then (p, note)
  else if note.NoteType.test SusNoteType.Hold then
    let r := processHold p.core note
    (p.withCore r.1, r.2)
  else if note.NoteType.test SusNoteType.Slide then
    let r := processSlide p.core note
    (p.withCore r.1, r.2)
  else if note.NoteType.test SusNoteType.AirAction then
    let r := processAirAction p.core note
    (p.withCore r.1, r.2)
  else if note.NoteType.test SusNoteType.Air then
    let r := processAir p.core note
    (p.withCore r.1, r.2)
  else if note.NoteType.test SusNoteType.Tap then
    let c := p.core.call PlayerCall.PlaySoundTap
    let c := c.call (PlayerCall.SpawnJudgeEffect note JudgeType.ShortNormal)
    (p.withCore c.IncrementCombo, note.setFinished)
  else if note.NoteType.test SusNoteType.ExTap then
    let c := p.core.call PlayerCall.PlaySoundExTap
    let c := c.call (PlayerCall.SpawnJudgeEffect note JudgeType.ShortNormal)
    let c := c.call (PlayerCall.SpawnJudgeEffect note JudgeType.ShortEx)
    (p.withCore c.IncrementCombo, note.setFinished)
  else if note.NoteType.test SusNoteType.Flick then
    let c := p.core.call PlayerCall.PlaySoundFlick
    let c := c.call (PlayerCall.SpawnJudgeEffect note JudgeType.ShortNormal)
    (p.withCore c.IncrementCombo, note.setFinished)
  else (p, note)

/-- The loop `for (auto& note : notes)` of `AutoPlayerProcessor::Update`: the
processor, `SlideCheck`, `HoldCheck` and the notes after the loop. -/
def AutoPlayerProcessor.updateLoop :
    List SusDrawableNoteData → AutoPlayerProcessor → Bool → Bool →
      AutoPlayerProcessor × Bool × Bool × List SusDrawableNoteData
  | [], p, SlideCheck, HoldCheck => (p, SlideCheck, HoldCheck, [])
  | note :: rest, p, SlideCheck, HoldCheck =>
    let r := p.ProcessScore note
    let p := r.1
    let SlideCheck := p.isInSlide || SlideCheck
    let HoldCheck := p.isInHold || HoldCheck
    let t := AutoPlayerProcessor.updateLoop rest p SlideCheck HoldCheck
    (t.1, t.2.1, t.2.2.1, r.2 :: t.2.2.2)

/-- `AutoPlayerProcessor::Update`: the processor and the notes after the call. -/
def AutoPlayerProcessor.Update (p : AutoPlayerProcessor) (notes : List SusDrawableNoteData) :
    AutoPlayerProcessor × List SusDrawableNoteData :=
  let t := AutoPlayerProcessor.updateLoop notes p false false
  let p := t.1
  let SlideCheck := t.2.1
  let HoldCheck := t.2.2.1
  let pl := p.Player
  let pl := if !p.wasInSlide && SlideCheck then pl.call PlayerCall.PlaySoundSlide else pl
  let pl := if p.wasInSlide && !SlideCheck then pl.call PlayerCall.StopSoundSlide else pl
  let pl := if !p.wasInHold && HoldCheck then pl.call PlayerCall.PlaySoundHold else pl
  let pl := if p.wasInHold && !HoldCheck then pl.call PlayerCall.StopSoundHold else pl
  ({ p with Player := pl, wasInHold := HoldCheck, wasInSlide := SlideCheck }, t.2.2.2)

/-! ## PlayableProcessor -/

/-- The judging part of a `PlayableProcessor`. -/
def PlayableProcessor.core (p : PlayableProcessor) : ScoreCore :=
  ⟨p.Player, p.Status, p.isInHold, p.isInSlide⟩

/-- Write the judging part back into a `PlayableProcessor`. -/
def PlayableProcessor.withCore (p : PlayableProcessor) (c : ScoreCore) : PlayableProcessor :=
  { p with Player := c.Player, Status := c.Status, isInHold := c.isInHold,
           isInSlide := c.isInSlide }

/-- `PlayableProcessor::IncrementCombo`. -/
def PlayableProcessor.IncrementCombo (p : PlayableProcessor) : PlayableProcessor :=
  p.withCore p.core.IncrementCombo

/-- `PlayableProcessor::ProcessScore`: the processor and the note after the call. -/
def PlayableProcessor.ProcessScore (p : PlayableProcessor) (note : SusDrawableNoteData) :
    PlayableProcessor × SusDrawableNoteData :=
  let relpos := ddiv (dsub note.StartTime p.Player.CurrentSoundTime) p.Player.SeenDuration
  if note.OnTheFlyData.test NoteAttribute.Finished && note.ExtraData.length == 0 then (p, note)
  else if note.NoteType.test SusNoteType.Hold then
    if relpos > 0 then (p, note)
    else
      let r := processHold p.core note
      (p.withCore r.1, r.2)
  else if note.NoteType.test SusNoteType.Slide then
    if relpos > 0 then (p, note)
    else
      let r := processSlide p.core note
      (p.withCore r.1, r.2)
  else if note.NoteType.test SusNoteType.AirAction then
    if relpos > 0 then (p, note)
    else
      let r := processAirAction p.core note
      (p.withCore r.1, r.2)
  else if note.NoteType.test SusNoteType.Air then
    if relpos > 0 then (p, note)
    else
      let r := processAir p.core note
      (p.withCore r.1, r.2)
  else if note.NoteType.test SusNoteType.Tap then
    let r := p.CheckJudgement note
    if !r.1 then (r.2.2, r.2.1)
    else
      let c := r.2.2.core.call PlayerCall.PlaySoundTap
      let c := c.call (PlayerCall.SpawnJudgeEffect r.2.1 JudgeType.ShortNormal)
      (r.2.2.withCore c, r.2.1)
  else if note.NoteType.test SusNoteType.ExTap then
    let r := p.CheckJudgement note
    if !r.1 then (r.2.2, r.2.1)
    else
      let c := r.2.2.core.call PlayerCall.PlaySoundExTap
      let c := c.call (PlayerCall.SpawnJudgeEffect r.2.1 JudgeType.ShortNormal)
      let c := c.call (PlayerCall.SpawnJudgeEffect r.2.1 JudgeType.ShortEx)
      (r.2.2.withCore c, r.2.1)
  else if note.NoteType.test SusNoteType.Flick then
    let r := p.CheckJudgement note
    if !r.1 then (r.2.2, r.2.1)
    else
      let c := r.2.2.core.call PlayerCall.PlaySoundFlick
      let c := c.call (PlayerCall.SpawnJudgeEffect r.2.1 JudgeType.ShortNormal)
      (r.2.2.withCore c, r.2.1)
  else (p, note)

/-- The loop `for (auto& note : notes)` of `PlayableProcessor::Update`. -/
def PlayableProcessor.updateLoop :
    List SusDrawableNoteData → PlayableProcessor → Bool → Bool →
      PlayableProcessor × Bool × Bool × List SusDrawableNoteData
  | [], p, SlideCheck, HoldCheck => (p, SlideCheck, HoldCheck, [])
  | note :: rest, p, SlideCheck, HoldCheck =>
    let r := p.ProcessScore note
    let p := r.1
    let SlideCheck := p.isInSlide || SlideCheck
    let HoldCheck := p.isInHold || HoldCheck
    let t := PlayableProcessor.updateLoop rest p SlideCheck HoldCheck
    (t.1, t.2.1, t.2.2.1, r.2 :: t.2.2.2)

/-- `PlayableProcessor::Update`: the processor and the notes after the call. -/
def PlayableProcessor.Update (p : PlayableProcessor) (notes : List SusDrawableNoteData) :
    PlayableProcessor × List SusDrawableNoteData :=
  let t := PlayableProcessor.updateLoop notes p false false
  let p := t.1
  let SlideCheck := t.2.1
  let HoldCheck := t.2.2.1
  let pl := p.Player
  let pl := if !p.wasInSlide && SlideCheck then pl.call PlayerCall.PlaySoundSlide else pl
  let pl := if p.wasInSlide && !SlideCheck then pl.call PlayerCall.StopSoundSlide else pl
  let pl := if !p.wasInHold && HoldCheck then pl.call PlayerCall.PlaySoundHold else pl
  let pl := if p.wasInHold && !HoldCheck then pl.call PlayerCall.StopSoundHold else pl
  ({ p with Player := pl, wasInHold := HoldCheck, wasInSlide := SlideCheck }, t.2.2.2)

/-! ## Reset -/

/-- The macros `SU_NOTE_LONG_MASK` and `SU_NOTE_SHORT_MASK` are defined in a header
that is not among the sources. `NoteMasks` carries the two tests
`type & SU_NOTE_LONG_MASK` and `type & SU_NOTE_SHORT_MASK` on the type bits of a
note. -/
structure NoteMasks where
  SU_NOTE_LONG_MASK : Bitset SusNoteType → Bool
  SU_NOTE_SHORT_MASK : Bitset SusNoteType → Bool

/-- The inner loop `for (auto &ex : note->ExtraData)` of `Reset`: `AllNotes` after
the loop. -/
def resetExtras : List SusDrawableNoteData → ℕ → ℕ
  | [], AllNotes => AllNotes
  | ex :: rest, AllNotes =>
    if ex.NoteType.test SusNoteType.End || ex.NoteType.test SusNoteType.Step
        || ex.NoteType.test SusNoteType.ExTap then
      resetExtras rest (AllNotes + 1)
    else resetExtras rest AllNotes

/-- The loop `for (auto &note : data)` of `Reset` (lines 47-60 and 401-414):
`AllNotes` after the loop. -/
def resetNotes (m : NoteMasks) : List SusDrawableNoteData → ℕ → ℕ
  | [], AllNotes => AllNotes
  | note :: rest, AllNotes =>
    if m.SU_NOTE_LONG_MASK note.NoteType then
      let AllNotes := if !note.NoteType.test SusNoteType.AirAction then AllNotes + 1
        else AllNotes
      resetNotes m rest (resetExtras note.ExtraData AllNotes)
    else if m.SU_NOTE_SHORT_MASK note.NoteType then
      resetNotes m rest (AllNotes + 1)
    else resetNotes m rest AllNotes

/-- `AutoPlayerProcessor::Reset`. -/
def AutoPlayerProcessor.Reset (p : AutoPlayerProcessor) (m : NoteMasks) : AutoPlayerProcessor :=
  let data := p.Player.data
  let Status := p.Status.clearCounters
  let Status := { Status with AllNotes := 0 }
  { p with data := data, Status := { Status with AllNotes := resetNotes m data Status.AllNotes } }

/-- `PlayableProcessor::Reset`; the image of the lane light, which only `Draw`
uses, is not part of the state. -/
def PlayableProcessor.Reset (p : PlayableProcessor) (m : NoteMasks) : PlayableProcessor :=
  let data := p.Player.data
  let Status := p.Status.clearCounters
  let Status := { Status with AllNotes := 0 }
  { p with data := data, Status := { Status with AllNotes := resetNotes m data Status.AllNotes } }

/-! ## ScriptScene.cpp: the scene scheduler

The script engine is a collaborator. A context, a script function, a script object
and an object type are handles (natural numbers); the calls made on them are
recorded in order. What the scripts do when they are resumed during one tick is
given to `Tick` as a `TickScript`. -/

/-- The wait descriptor: the tag `WaitType::Frame` with the frames remaining, or
the tag `WaitType::Time` with the time remaining. The header that declares it is not
among the sources; the frame count is an integer, the time a `double`. -/
inductive CoroutineWait
  | Frame (frames : ℤ)
  | Time (time : ℚ)
deriving DecidableEq

/-- An entry of `coroutines`. -/
structure Coroutine where
  context : ℕ
  function : ℕ
  object : ℕ
  type : ℕ
  wait : CoroutineWait
deriving DecidableEq

/-- The state in which `Execute` leaves a context. -/
inductive ExecutionResult
  | asEXECUTION_FINISHED | asEXECUTION_SUSPENDED | asEXECUTION_ABORTED
  | asEXECUTION_EXCEPTION
deriving DecidableEq, Repr

/-- A call made by the scheduler on a collaborator. -/
inductive SceneCall
  | spmanagerTick (delta : ℚ)
  | Execute (context : ℕ)
  | ReleaseContext (context : ℕ)
  | ReleaseFunction (function : ℕ)
  | ReleaseScriptObject (object : ℕ) (type : ℕ)
deriving DecidableEq

/-- What the scripts do when resumed during one tick. `coroutineResult ctx` is the
result of `Execute` on the sub-coroutine context `ctx`. For the main routine,
`mainResult` is the result of `Execute`, `mainWait` the descriptor it stored through
`ScriptSceneYieldTime` or `ScriptSceneYieldFrames` (the slot registered for
`runningContext` is the member `wait`), and `mainSpawned` the entries it appended
through `ScriptSceneRunCoroutine`. A sub-coroutine context carries no scene user
data, so `ScriptSceneRunCoroutine` appends nothing for it, and the slot registered
for it is the local `c.wait` of `ScriptSceneRunCoroutine`, not the list entry. -/
structure TickScript where
  coroutineResult : ℕ → ExecutionResult
  mainResult : ExecutionResult
  mainWait : Option CoroutineWait
  mainSpawned : List Coroutine

/-- State of a `ScriptScene`. -/
structure ScriptScene where
  sceneObject : ℕ
  sceneType : ℕ
  context : ℕ

/-- `ScriptScene::IsDead`. -/
def ScriptScene.IsDead (_s : ScriptScene) : Bool := false

/-- State of a `ScriptCoroutineScene`, with the calls made so far (oldest first). -/
structure ScriptCoroutineScene where
  runningContext : ℕ
  wait : CoroutineWait
  coroutines : List Coroutine
  finished : Bool
  calls : List SceneCall

/-- `pcw->type = WaitType::Time; pcw->time = time;` of `ScriptSceneYieldTime`. -/
def ScriptSceneYieldTime (time : ℚ) : CoroutineWait := CoroutineWait.Time time

/-- `pcw->type = WaitType::Frame; pcw->frames = frames;` of `ScriptSceneYieldFrames`. -/
def ScriptSceneYieldFrames (frames : ℤ) : CoroutineWait := CoroutineWait.Frame frames

/-- The `switch` on a wait descriptor in `Tick`: the descriptor after the
decrement, and whether the routine still waits. -/
def CoroutineWait.countDown (w : CoroutineWait) (delta : ℚ) : CoroutineWait × Bool :=
  match w with
  | CoroutineWait.Frame frames =>
    let frames := frames - 1
    (CoroutineWait.Frame frames, decide (frames > 0))
  | CoroutineWait.Time time =>
    let time := dsub time delta
    (CoroutineWait.Time time, decide (time > 0))

/-- The loop over `coroutines` of `ScriptCoroutineScene::Tick` (lines 88-124): the
list after the loop and the calls made. `auto c = *i` copies the entry, so the
decrement changes the copy `c` and the entry that stays in the list is `*i` as it
was. -/
def tickCoroutines (script : TickScript) (delta : ℚ) :
    List Coroutine → List Coroutine × List SceneCall
  | [] => ([], [])
  | entry :: rest =>
    let c := entry
    let w := c.wait.countDown delta
    let c := { c with wait := w.1 }
    if w.2 then
      let r := tickCoroutines script delta rest
      (entry :: r.1, r.2)
    else
      let result := script.coroutineResult c.context
      if result ≠ ExecutionResult.asEXECUTION_SUSPENDED then
        let r := tickCoroutines script delta rest
        (r.1, [SceneCall.Execute c.context, SceneCall.ReleaseContext c.context,
               SceneCall.ReleaseFunction c.function,
               SceneCall.ReleaseScriptObject c.object c.type] ++ r.2)
      else
        let r := tickCoroutines script delta rest
        (entry :: r.1, SceneCall.Execute c.context :: r.2)

/-- The part `//Run()` of `ScriptCoroutineScene::Tick` (lines 126-139). -/
def tickMain (script : TickScript) (delta : ℚ) (s : ScriptCoroutineScene) :
    ScriptCoroutineScene :=
  let w := s.wait.countDown delta
  let s := { s with wait := w.1 }
  if w.2 then s
  else
    let s := { s with
      calls := s.calls ++ [SceneCall.Execute s.runningContext]
      wait := script.mainWait.getD s.wait
      coroutines := s.coroutines ++ script.mainSpawned }
    if script.mainResult ≠ ExecutionResult.asEXECUTION_SUSPENDED then { s with finished := true }
    else s

/-- `ScriptCoroutineScene::Tick`. -/
def ScriptCoroutineScene.Tick (s : ScriptCoroutineScene) (delta : ℚ) (script : TickScript) :
    ScriptCoroutineScene :=
  let s := { s with calls := s.calls ++ [SceneCall.spmanagerTick delta] }
  let r := tickCoroutines script delta s.coroutines
  let s := { s with coroutines := r.1, calls := s.calls ++ r.2 }
  tickMain script delta s

/-- `ScriptCoroutineScene::IsDead`. -/
def ScriptCoroutineScene.IsDead (s : ScriptCoroutineScene) : Bool := s.finished

/-- Successive calls of `Tick`, one per element of the list (its `delta` and what
the scripts do in it). -/
def ScriptCoroutineScene.ticks (s : ScriptCoroutineScene) :
    List (ℚ × TickScript) → ScriptCoroutineScene
  | [] => s
  | t :: rest => (s.Tick t.1 t.2).ticks rest

/-! ## Sample inputs -/

/-- A control state in which slider lane 2 alone is triggered. -/
def sampleControl : ControlState :=
  ⟨fun src i => decide (src = ControllerSource.IntegratedSliders ∧ i = 2), fun _ _ => false⟩

/-- A control state without any trigger. -/
def idleControl : ControlState := ⟨fun _ _ => false, fun _ _ => false⟩

/-- An unfinished tap at time 1 on lanes 0 to 3. -/
def sampleTap : SusDrawableNoteData :=
  ⟨Bitset.ofList [SusNoteType.Tap], Bitset.ofList [], 1, 0, 4, []⟩

/-- A play status in the middle of a session of 20 notes. -/
def sampleStatus : PlayStatus := ⟨3, 2, 1, 1, 20, 5, 9000, 60000⟩

/-- A human-input processor whose clocks read `t`. -/
def samplePlayable (t : ℚ) (c : ControlState) : PlayableProcessor :=
  ⟨⟨t, t, 1, [], []⟩, c, sampleStatus, [], false, false, false, false⟩

/-- An unfinished hold starting at time 10 whose only child is an unfinished End
event at time 15. -/
def sampleHold : SusDrawableNoteData :=
  ⟨Bitset.ofList [SusNoteType.Hold], Bitset.ofList [], 10, 0, 4,
   [⟨Bitset.ofList [SusNoteType.End], Bitset.ofList [], 15, 0, 4, []⟩]⟩

/-- A finished hold starting at time 10 whose only child is a finished End event
at time 15. -/
def playedHold : SusDrawableNoteData :=
  ⟨Bitset.ofList [SusNoteType.Hold], Bitset.ofList [NoteAttribute.Finished], 10, 0, 4,
   [⟨Bitset.ofList [SusNoteType.End], Bitset.ofList [NoteAttribute.Finished], 15, 0, 4, []⟩]⟩

/-- A finished hold starting at time 10 without child events. -/
def bareHold : SusDrawableNoteData :=
  ⟨Bitset.ofList [SusNoteType.Hold], Bitset.ofList [NoteAttribute.Finished], 10, 0, 4, []⟩

/-- A finished tap child event at time 12. -/
def tapChild : SusDrawableNoteData :=
  ⟨Bitset.ofList [SusNoteType.Tap], Bitset.ofList [NoteAttribute.Finished], 12, 0, 4, []⟩

/-- A finished slide starting at time 10 whose children are a finished tap at
time 12 and a finished control point at time 13. -/
def tapSlide : SusDrawableNoteData :=
  ⟨Bitset.ofList [SusNoteType.Slide], Bitset.ofList [NoteAttribute.Finished], 10, 0, 4,
   [tapChild,
    ⟨Bitset.ofList [SusNoteType.Control], Bitset.ofList [NoteAttribute.Finished], 13, 0, 4, []⟩]⟩

/-- An autoplay processor over `data` whose sound clock reads `t`. -/
def sampleAuto (t : ℚ) (data : List SusDrawableNoteData) : AutoPlayerProcessor :=
  ⟨⟨t, t, 1, data, []⟩, sampleStatus, data, true, true, true, true⟩

/-- A human-input processor over `data` whose sound clock reads `t`. -/
def samplePlayableOn (t : ℚ) (data : List SusDrawableNoteData) : PlayableProcessor :=
  ⟨⟨t, t, 1, data, []⟩, idleControl, sampleStatus, data, true, true, true, true⟩

/-- A status whose raw gauge is `2^57 + 26016`. -/
def bigGauge : PlayStatus := ⟨0, 0, 0, 0, 1, 0, 2 ^ 57 + 26016, 60000⟩

/-- The Finished flags of the notes of a list. -/
def finishedFlags (data : List SusDrawableNoteData) : List Bool :=
  data.map (fun note => note.OnTheFlyData.test NoteAttribute.Finished)

/-- The Finished flags of the child events of the notes of a list. -/
def childFinishedFlags (data : List SusDrawableNoteData) : List (List Bool) :=
  data.map (fun note => finishedFlags note.ExtraData)

/-! ## The formulas of the specification -/

/-- The score formula of the specification before its rounding, over exact
rationals: `1,000,000 × (criticalExact×1.01 + critical×1.00 + near×0.50) / total`. -/
def scoreExact (s : PlayStatus) : ℚ :=
  (1000000 : ℚ) * (s.JusticeCritical * 1.01 + s.Justice * 1.00 + s.Attack * 0.50) / s.AllNotes

/-- The score formula as the specification writes it:
`round(1,000,000 × (criticalExact×1.01 + critical×1.00 + near×0.50) / total)`. -/
def scoreFormula (s : PlayStatus) : ℤ := round (scoreExact s)

/-- Total size of the first `k` gauge segments: `12000·k + 1000·k·(k−1)`. -/
def segmentTotal (k : ℤ) : ℤ := 12000 * k + 1000 * k * (k - 1)

/-- The first `n` iterations of the loop of `GetGaugeValue`, when the loop test
succeeds at each of them. -/
def gaugeRun : ℕ → ℤ × ℚ × ℚ → Option (ℤ × ℚ × ℚ)
  | 0, st => some st
  | n + 1, (fulfilled, calcv, currentMax) =>
    if calcv ≥ currentMax then
      gaugeRun n (wrapInt32 (fulfilled + 1), dsub calcv currentMax, dadd currentMax 2000)
    else none

/-- The value `v` approximates `E ≥ 0` with the relative error of at most `k`
roundings. -/
def near (k : ℕ) (v E : ℚ) : Prop :=
  0 ≤ E ∧ 0 ≤ v ∧ E * (1 - 2 ^ (-53 : ℤ)) ^ k ≤ v ∧ v * (1 - 2 ^ (-53 : ℤ)) ^ k ≤ E

/-- The judgable units of one note as the specification counts them: for a
long-type note, one (unless it is an air-action) plus the number of its child
events whose type includes end, step or exact-tap; for a note that is not
long-type but short-type, one; for any other note, none. -/
def noteUnits (m : NoteMasks) (note : SusDrawableNoteData) : ℕ :=
  if m.SU_NOTE_LONG_MASK note.NoteType then
    (if note.NoteType.test SusNoteType.AirAction then 0 else 1)
      + (note.ExtraData.filter (fun ex =>
          ex.NoteType.test SusNoteType.End || ex.NoteType.test SusNoteType.Step
            || ex.NoteType.test SusNoteType.ExTap)).length
  else if m.SU_NOTE_SHORT_MASK note.NoteType then 1
  else 0

/-- The total note count of a note list as the specification counts it. -/
def totalUnits (m : NoteMasks) (data : List SusDrawableNoteData) : ℕ :=
  (data.map (noteUnits m)).sum

/-- A Finished flag that is set before is set after. -/
def flagKept (before after : SusDrawableNoteData) : Prop :=
  before.OnTheFlyData.test NoteAttribute.Finished = true →
    after.OnTheFlyData.test NoteAttribute.Finished = true

/-- The note and each of its child events, position by position, keep a Finished
flag that was set. -/
def keepsFinished (before after : SusDrawableNoteData) : Prop :=
  flagKept before after ∧ List.Forall₂ flagKept before.ExtraData after.ExtraData

/-- Judging leaves Miss as it was and does not decrease Combo. -/
def comboGrows (before after : PlayStatus) : Prop :=
  after.Miss = before.Miss ∧ before.Combo ≤ after.Combo

/-- A wait descriptor is due in a tick of length `delta`: its count is at most 1,
or its time at most `delta`. -/
def CoroutineWait.due (w : CoroutineWait) (delta : ℚ) : Bool :=
  match w with
  | CoroutineWait.Frame frames => decide (frames ≤ 1)
  | CoroutineWait.Time time => decide (time ≤ delta)

/-- The time that a `Time` descriptor holds after ticks with the given deltas, none
of which resumed the routine: each delta is subtracted in turn, on doubles. -/
def storedTime (T : ℚ) : List ℚ → ℚ
  | [] => T
  | delta :: rest => storedTime (dsub T delta) rest

/-- The contexts resumed by a sequence of calls, in order. -/
def resumedContexts : List SceneCall → List ℕ
  | [] => []
  | SceneCall.Execute ctx :: rest => ctx :: resumedContexts rest
  | _ :: rest => resumedContexts rest

/-- The releases among a sequence of calls, in order. -/
def releaseCalls : List SceneCall → List SceneCall
  | [] => []
  | SceneCall.ReleaseContext ctx :: rest => SceneCall.ReleaseContext ctx :: releaseCalls rest
  | SceneCall.ReleaseFunction f :: rest => SceneCall.ReleaseFunction f :: releaseCalls rest
  | SceneCall.ReleaseScriptObject o t :: rest =>
    SceneCall.ReleaseScriptObject o t :: releaseCalls rest
  | _ :: rest => releaseCalls rest

/-- The three releases owed to an entry that leaves the active list. -/
def Coroutine.releases (c : Coroutine) : List SceneCall :=
  [SceneCall.ReleaseContext c.context, SceneCall.ReleaseFunction c.function,
   SceneCall.ReleaseScriptObject c.object c.type]

/-- An entry is resumed in this tick and its execution does not end suspended. -/
def Coroutine.completes (script : TickScript) (delta : ℚ) (c : Coroutine) : Bool :=
  c.wait.due delta
    && decide (script.coroutineResult c.context ≠ ExecutionResult.asEXECUTION_SUSPENDED)

/-- The calls of a tick up to the end of the loop over the sub-coroutines. -/
def ScriptCoroutineScene.callsBeforeMain (s : ScriptCoroutineScene) (delta : ℚ)
    (script : TickScript) : List SceneCall :=
  s.calls ++ [SceneCall.spmanagerTick delta] ++ (tickCoroutines script delta s.coroutines).2

/-- The tick resumes the main routine: after the loop over the sub-coroutines it
makes exactly one more call, `Execute` on `runningContext`. -/
def ScriptCoroutineScene.mainResumed (s : ScriptCoroutineScene) (delta : ℚ)
    (script : TickScript) : Prop :=
  (s.Tick delta script).calls
    = s.callsBeforeMain delta script ++ [SceneCall.Execute s.runningContext]

/-- The tick does not resume the main routine: it makes no call after the loop over
the sub-coroutines. -/
def ScriptCoroutineScene.mainSkipped (s : ScriptCoroutineScene) (delta : ℚ)
    (script : TickScript) : Prop :=
  (s.Tick delta script).calls = s.callsBeforeMain delta script

/-- A script in which every resumed routine suspends again and the main routine
asks for nothing. -/
def idleScript : TickScript :=
  ⟨fun _ => ExecutionResult.asEXECUTION_SUSPENDED, ExecutionResult.asEXECUTION_SUSPENDED,
   none, []⟩

/-- A script in which every resumed sub-coroutine finishes, and the main routine
suspends again for one frame. -/
def finishingScript : TickScript :=
  ⟨fun _ => ExecutionResult.asEXECUTION_FINISHED, ExecutionResult.asEXECUTION_SUSPENDED,
   some (ScriptSceneYieldFrames 1), []⟩

/-- A sub-coroutine entry on context 7 that waits, due at once. -/
def sampleCoroutine (w : CoroutineWait) : Coroutine := ⟨7, 70, 700, 7000, w⟩

/-- A script whose main routine starts the coroutine of context 7 and suspends. -/
def spawningScript : TickScript :=
  ⟨fun _ => ExecutionResult.asEXECUTION_SUSPENDED, ExecutionResult.asEXECUTION_SUSPENDED,
   some (ScriptSceneYieldFrames 1), [sampleCoroutine (CoroutineWait.Frame 0)]⟩

/-- A scene with main context 0, the given main wait descriptor and active list,
not finished, no call made yet. -/
def sampleScene (w : CoroutineWait) (l : List Coroutine) : ScriptCoroutineScene :=
  ⟨0, w, l, false, []⟩

/-- The ticks of `n` frames that each last the `double` 0.1, with scripts that
suspend again. -/
def tenthTicks (n : ℕ) : List (ℚ × TickScript) :=
  List.replicate n (roundDouble 0.1, idleScript)

/-- The number of judgments counted so far:
`JusticeCritical + Justice + Attack + Miss`. -/
def hitCount (s : PlayStatus) : ℕ := s.JusticeCritical + s.Justice + s.Attack + s.Miss

/-- 1 if the Finished flag is clear before and set after, else 0. -/
def newlySet (before after : SusDrawableNoteData) : ℕ :=
  if !before.OnTheFlyData.test NoteAttribute.Finished
      && after.OnTheFlyData.test NoteAttribute.Finished then 1 else 0

/-- The number of positions of two lists at which the Finished flag is clear before
and set after. -/
def newlySetCount : List SusDrawableNoteData → List SusDrawableNoteData → ℕ
  | b :: bs, a :: as => newlySet b a + newlySetCount bs as
  | _, _ => 0

/-- The number of Finished flags, of the note and of its child events, that are
clear before and set after. -/
def flagsSet (before after : SusDrawableNoteData) : ℕ :=
  newlySet before after + newlySetCount before.ExtraData after.ExtraData

/-- No counter decreases and `hitCount` grows by `n`. -/
def scoresBy (before after : PlayStatus) (n : ℕ) : Prop :=
  before.JusticeCritical ≤ after.JusticeCritical ∧ before.Justice ≤ after.Justice
  ∧ before.Attack ≤ after.Attack ∧ before.Miss ≤ after.Miss
  ∧ hitCount after = hitCount before + n

/-- A Finished hold starting at time 10 whose children are an unfinished Step event
at time 12 and an unfinished End event at time 15. -/
def steppedHold : SusDrawableNoteData :=
  ⟨Bitset.ofList [SusNoteType.Hold], Bitset.ofList [NoteAttribute.Finished], 10, 0, 4,
   [⟨Bitset.ofList [SusNoteType.Step], Bitset.ofList [], 12, 0, 4, []⟩,
    ⟨Bitset.ofList [SusNoteType.End], Bitset.ofList [], 15, 0, 4, []⟩]⟩

/-- An autoplay processor over `data` with sound clock `t`, lead time `seen`, and
all four hold/slide flags clear. -/
def restingAuto (t seen : ℚ) (data : List SusDrawableNoteData) : AutoPlayerProcessor :=
  ⟨⟨t, t, seen, data, []⟩, sampleStatus, data, false, false, false, false⟩

/-- A human-input processor over `data` with sound clock `t`, lead time `seen`, no
input, and all four hold/slide flags clear. -/
def restingPlayable (t seen : ℚ) (data : List SusDrawableNoteData) : PlayableProcessor :=
  ⟨⟨t, t, seen, data, []⟩, idleControl, sampleStatus, data, false, false, false, false⟩

/-- The child events of the note are sorted by non-decreasing `StartTime`. -/
def sortedChildren (note : SusDrawableNoteData) : Prop :=
  note.ExtraData.Pairwise (fun a b => a.StartTime ≤ b.StartTime)

instance sortedChildren.decidable (note : SusDrawableNoteData) :
    Decidable (sortedChildren note) :=
  inferInstanceAs (Decidable (note.ExtraData.Pairwise
    (fun a b : SusDrawableNoteData => a.StartTime ≤ b.StartTime)))

/-- Child events are finished in the order of the list: whenever the Finished flag at
a position `i` is clear in `before` and set in `after`, every child at an earlier
position `j` that is `judged` has its Finished flag set in `ref`. -/
def finishedInOrder (judged : SusDrawableNoteData → Bool)
    (before after ref : List SusDrawableNoteData) : Prop :=
  ∀ i j : ℕ, j < i → ∀ b a x y : SusDrawableNoteData,
    before[i]? = some b → after[i]? = some a → newlySet b a = 1 →
    before[j]? = some x → ref[j]? = some y → judged x = true →
    y.OnTheFlyData.test NoteAttribute.Finished = true

/-- The order in which one call finishes the child events of a note, by the type of
the note. Hold: every earlier child was Finished before the call, and at most one
child is newly Finished. Slide: every earlier child that is not a control point was
Finished before the call, and at most one child is newly Finished. Air-action: every
earlier child that is neither a control point nor a tap is Finished after the call
(the scan goes on after it has judged a child, so that one call may finish several
children, each after the ones before it). -/
def childrenInOrder (before after : SusDrawableNoteData) : Prop :=
  (before.NoteType.test SusNoteType.Hold = true →
    finishedInOrder (fun _ => true) before.ExtraData after.ExtraData before.ExtraData
    ∧ newlySetCount before.ExtraData after.ExtraData ≤ 1)
  ∧ (before.NoteType.test SusNoteType.Slide = true →
    finishedInOrder (fun x => !x.NoteType.test SusNoteType.Control)
      before.ExtraData after.ExtraData before.ExtraData
    ∧ newlySetCount before.ExtraData after.ExtraData ≤ 1)
  ∧ (before.NoteType.test SusNoteType.AirAction = true →
    finishedInOrder
      (fun x => !x.NoteType.test SusNoteType.Control && !x.NoteType.test SusNoteType.Tap)
      before.ExtraData after.ExtraData after.ExtraData)

/-- An unfinished Step child event at time 12. -/
def lateStep : SusDrawableNoteData :=
  ⟨Bitset.ofList [SusNoteType.Step], Bitset.ofList [], 12, 0, 4, []⟩

/-- An unfinished End child event at time 15. -/
def lateEnd : SusDrawableNoteData :=
  ⟨Bitset.ofList [SusNoteType.End], Bitset.ofList [], 15, 0, 4, []⟩

/-- A Finished hold with `StartTime` 20 whose children, sorted by time, are the
unfinished Step event at 12 and the unfinished End event at 15. -/
def lateHold : SusDrawableNoteData :=
  ⟨Bitset.ofList [SusNoteType.Hold], Bitset.ofList [NoteAttribute.Finished], 20, 0, 4,
   [lateStep, lateEnd]⟩

/-! ## Lemmas on double rounding -/

theorem ilog2Aux_spec (fuel : ℕ) :
    ∀ n : ℕ, 0 < n → n ≤ fuel →
      2 ^ ilog2Aux fuel n ≤ n ∧ n < 2 ^ (ilog2Aux fuel n + 1) := by
  induction fuel with
  | zero => intro n h0 h1; omega
  | succ fuel ih =>
    intro n h0 h1
    unfold ilog2Aux
    by_cases h16 : 65536 ≤ n
    · rw [if_pos h16]
      have hd : 0 < n / 65536 := Nat.div_pos h16 (by norm_num)
      have hle : n / 65536 ≤ fuel := by omega
      obtain ⟨ha, hb⟩ := ih (n / 65536) hd hle
      have e1 : 2 ^ (ilog2Aux fuel (n / 65536) + 16)
          = 65536 * 2 ^ ilog2Aux fuel (n / 65536) := by
        rw [pow_add]; norm_num; ring
      have e2 : 2 ^ (ilog2Aux fuel (n / 65536) + 16 + 1)
          = 65536 * 2 ^ (ilog2Aux fuel (n / 65536) + 1) := by
        rw [add_right_comm, pow_add]; norm_num; ring
      rw [e1, e2]
      constructor <;> omega
    · rw [if_neg h16]
      by_cases h2 : 2 ≤ n
      · rw [if_pos h2]
        have hd : 0 < n / 2 := Nat.div_pos h2 (by norm_num)
        have hle : n / 2 ≤ fuel := by omega
        obtain ⟨ha, hb⟩ := ih (n / 2) hd hle
        rw [pow_succ, pow_succ]
        constructor <;> omega
      · rw [if_neg h2]
        have : n = 1 := by omega
        subst this
        norm_num

theorem ilog2_spec (n : ℕ) (hn : 0 < n) : 2 ^ ilog2 n ≤ n ∧ n < 2 ^ (ilog2 n + 1) :=
  ilog2Aux_spec n n hn (le_refl n)

theorem binade_spec (x : ℚ) (hx : x ≠ 0) :
    (2 : ℚ) ^ binade x ≤ |x| ∧ |x| < (2 : ℚ) ^ (binade x + 1) := by
  have hnum : x.num ≠ 0 := Rat.num_ne_zero.mpr hx
  have hn0 : 0 < x.num.natAbs := Int.natAbs_pos.mpr hnum
  have hd0 : 0 < x.den := x.den_pos
  obtain ⟨na, nb⟩ := ilog2_spec _ hn0
  obtain ⟨da, db⟩ := ilog2_spec _ hd0
  have habs : |x| = (x.num.natAbs : ℚ) / (x.den : ℚ) := by
    conv_lhs => rw [← Rat.num_div_den x]
    rw [abs_div, Nat.abs_cast, Nat.cast_natAbs, Int.cast_abs]
  have hdq : (0 : ℚ) < (x.den : ℚ) := by exact_mod_cast hd0
  have na' : (2 : ℚ) ^ (ilog2 x.num.natAbs) ≤ (x.num.natAbs : ℚ) := by exact_mod_cast na
  have nb' : (x.num.natAbs : ℚ) < (2 : ℚ) ^ (ilog2 x.num.natAbs + 1) := by exact_mod_cast nb
  have da' : (2 : ℚ) ^ (ilog2 x.den) ≤ (x.den : ℚ) := by exact_mod_cast da
  have db' : (x.den : ℚ) < (2 : ℚ) ^ (ilog2 x.den + 1) := by exact_mod_cast db
  have h2 : (0 : ℚ) < 2 := by norm_num
  have hlow : (2 : ℚ) ^ ((ilog2 x.num.natAbs : ℤ) - (ilog2 x.den : ℤ) - 1) ≤ |x| := by
    rw [habs, le_div_iff₀ hdq]
    have e : (2 : ℚ) ^ ((ilog2 x.num.natAbs : ℤ) - (ilog2 x.den : ℤ) - 1)
        = (2 : ℚ) ^ (ilog2 x.num.natAbs) / (2 : ℚ) ^ (ilog2 x.den + 1) := by
      rw [← zpow_natCast, ← zpow_natCast, ← zpow_sub₀ (by norm_num)]
      congr 1
      push_cast
      ring
    rw [e, div_mul_eq_mul_div, div_le_iff₀ (by positivity)]
    have := mul_le_mul na' db'.le hdq.le (by positivity)
    linarith
  have hhigh : |x| < (2 : ℚ) ^ ((ilog2 x.num.natAbs : ℤ) - (ilog2 x.den : ℤ) + 1) := by
    rw [habs, div_lt_iff₀ hdq]
    have e : (2 : ℚ) ^ ((ilog2 x.num.natAbs : ℤ) - (ilog2 x.den : ℤ) + 1)
        = (2 : ℚ) ^ (ilog2 x.num.natAbs + 1) / (2 : ℚ) ^ (ilog2 x.den) := by
      rw [← zpow_natCast, ← zpow_natCast, ← zpow_sub₀ (by norm_num)]
      congr 1
      push_cast
      ring
    rw [e, div_mul_eq_mul_div, lt_div_iff₀ (by positivity)]
    have := mul_lt_mul nb' da' (by positivity) (by positivity)
    linarith
  unfold binade
  split_ifs with h
  · exact ⟨h, hhigh⟩
  · refine ⟨hlow, ?_⟩
    rw [sub_add_cancel]
    exact not_le.mp h

theorem roundEven_bounds (y : ℚ) : ⌊y⌋ ≤ roundEven y ∧ roundEven y ≤ ⌊y⌋ + 1 := by
  unfold roundEven
  split_ifs <;> constructor <;> omega

theorem roundEven_sub_le (y : ℚ) : |(roundEven y : ℚ) - y| ≤ 1 / 2 := by
  have h1 : (⌊y⌋ : ℚ) ≤ y := Int.floor_le y
  have h2 : y < (⌊y⌋ : ℚ) + 1 := Int.lt_floor_add_one y
  unfold roundEven
  rw [abs_le]
  split_ifs <;> constructor <;> push_cast <;> linarith

theorem roundEven_intCast (n : ℤ) : roundEven (n : ℚ) = n := by
  unfold roundEven
  rw [Int.floor_intCast, sub_self, if_pos (by norm_num)]

theorem roundEven_mono {y z : ℚ} (h : y ≤ z) : roundEven y ≤ roundEven z := by
  have hf : ⌊y⌋ ≤ ⌊z⌋ := Int.floor_mono h
  rcases hf.lt_or_eq with hlt | heq
  · have h1 := (roundEven_bounds y).2
    have h2 := (roundEven_bounds z).1
    omega
  · unfold roundEven
    rw [heq]
    have hyz : y - ⌊z⌋ ≤ z - ⌊z⌋ := by linarith
    split_ifs <;> first | omega | (exfalso; linarith)

theorem binade_le_of_le {x y : ℚ} (hx : 0 < x) (hxy : x ≤ y) : binade x ≤ binade y := by
  have hy : 0 < y := lt_of_lt_of_le hx hxy
  have h1 := (binade_spec x hx.ne').1
  have h2 := (binade_spec y hy.ne').2
  rw [abs_of_pos hx] at h1
  rw [abs_of_pos hy] at h2
  have h3 : (2 : ℚ) ^ binade x < (2 : ℚ) ^ (binade y + 1) := by linarith
  have h4 := (zpow_lt_zpow_iff_right₀ (by norm_num : (1 : ℚ) < 2)).mp h3
  omega

theorem roundMag_zero : roundMag 0 = 0 := by
  unfold roundMag
  rw [if_pos rfl]

theorem pow_le_roundMag {x : ℚ} (hx : 0 < x) : (2 : ℚ) ^ binade x ≤ roundMag x := by
  have h1 := (binade_spec x hx.ne').1
  rw [abs_of_pos hx] at h1
  have hq : (0 : ℚ) < 2 ^ (binade x - 52) := by positivity
  unfold roundMag
  rw [if_neg hx.ne']
  have e : (2 : ℚ) ^ binade x = ((2 ^ 52 : ℤ) : ℚ) * 2 ^ (binade x - 52) := by
    rw [zpow_sub₀ (by norm_num)]
    push_cast
    field_simp
    ring
  have h2 : ((2 ^ 52 : ℤ) : ℚ) ≤ x / 2 ^ (binade x - 52) := by
    rw [le_div_iff₀ hq, ← e]
    exact h1
  have h3 := roundEven_mono h2
  rw [roundEven_intCast] at h3
  rw [e]
  have h4 : ((2 ^ 52 : ℤ) : ℚ) ≤ (roundEven (x / 2 ^ (binade x - 52)) : ℚ) := by
    exact_mod_cast h3
  exact mul_le_mul_of_nonneg_right h4 hq.le

theorem roundMag_le_pow {x : ℚ} (hx : 0 < x) : roundMag x ≤ (2 : ℚ) ^ (binade x + 1) := by
  have h1 := (binade_spec x hx.ne').2
  rw [abs_of_pos hx] at h1
  have hq : (0 : ℚ) < 2 ^ (binade x - 52) := by positivity
  unfold roundMag
  rw [if_neg hx.ne']
  have e : (2 : ℚ) ^ (binade x + 1) = ((2 ^ 53 : ℤ) : ℚ) * 2 ^ (binade x - 52) := by
    rw [zpow_sub₀ (by norm_num), zpow_add₀ (by norm_num)]
    push_cast
    field_simp
    ring
  have h2 : x / 2 ^ (binade x - 52) ≤ ((2 ^ 53 : ℤ) : ℚ) := by
    rw [div_le_iff₀ hq, ← e]
    exact h1.le
  have h3 := roundEven_mono h2
  rw [roundEven_intCast] at h3
  rw [e]
  have h4 : (roundEven (x / 2 ^ (binade x - 52)) : ℚ) ≤ ((2 ^ 53 : ℤ) : ℚ) := by
    exact_mod_cast h3
  exact mul_le_mul_of_nonneg_right h4 hq.le

theorem roundMag_pos {x : ℚ} (hx : 0 < x) : 0 < roundMag x :=
  lt_of_lt_of_le (by positivity) (pow_le_roundMag hx)

theorem roundMag_nonneg {x : ℚ} (hx : 0 ≤ x) : 0 ≤ roundMag x := by
  rcases hx.lt_or_eq with h | h
  · exact (roundMag_pos h).le
  · rw [← h, roundMag_zero]

theorem roundMag_mono {x y : ℚ} (hx : 0 ≤ x) (hxy : x ≤ y) : roundMag x ≤ roundMag y := by
  rcases hx.lt_or_eq with hx0 | hx0
  · have hy0 : 0 < y := lt_of_lt_of_le hx0 hxy
    rcases (binade_le_of_le hx0 hxy).lt_or_eq with hb | hb
    · have h1 := roundMag_le_pow hx0
      have h2 := pow_le_roundMag hy0
      have h3 : (2 : ℚ) ^ (binade x + 1) ≤ (2 : ℚ) ^ binade y :=
        zpow_le_zpow_right₀ (by norm_num) (by omega)
      linarith
    · unfold roundMag
      rw [if_neg hx0.ne', if_neg hy0.ne', hb]
      have hq : (0 : ℚ) < 2 ^ (binade y - 52) := by positivity
      have h2 : x / 2 ^ (binade y - 52) ≤ y / 2 ^ (binade y - 52) :=
        div_le_div_of_nonneg_right hxy hq.le
      have h3 : (roundEven (x / 2 ^ (binade y - 52)) : ℚ)
          ≤ (roundEven (y / 2 ^ (binade y - 52)) : ℚ) := by
        exact_mod_cast roundEven_mono h2
      exact mul_le_mul_of_nonneg_right h3 hq.le
  · rw [← hx0, roundMag_zero]
    exact roundMag_nonneg (le_trans hx hxy)

theorem roundMag_err {x : ℚ} (hx : 0 ≤ x) : |roundMag x - x| ≤ x * 2 ^ (-53 : ℤ) := by
  rcases hx.lt_or_eq with hx0 | hx0
  · have h1 := (binade_spec x hx0.ne').1
    rw [abs_of_pos hx0] at h1
    have hq : (0 : ℚ) < 2 ^ (binade x - 52) := by positivity
    unfold roundMag
    rw [if_neg hx0.ne']
    have h2 := roundEven_sub_le (x / 2 ^ (binade x - 52))
    have e1 : (roundEven (x / 2 ^ (binade x - 52)) : ℚ) * 2 ^ (binade x - 52) - x
        = ((roundEven (x / 2 ^ (binade x - 52)) : ℚ) - x / 2 ^ (binade x - 52))
          * 2 ^ (binade x - 52) := by
      field_simp
    rw [e1, abs_mul, abs_of_pos hq]
    have e2 : (2 : ℚ) ^ (binade x - 52) = 2 ^ binade x * 2 ^ (-52 : ℤ) := by
      rw [← zpow_add₀ (by norm_num)]
      rfl
    have h3 : |(roundEven (x / 2 ^ (binade x - 52)) : ℚ) - x / 2 ^ (binade x - 52)|
        * 2 ^ (binade x - 52) ≤ 1 / 2 * 2 ^ (binade x - 52) :=
      mul_le_mul_of_nonneg_right h2 hq.le
    have h4 : (1 : ℚ) / 2 * 2 ^ (binade x - 52) = 2 ^ binade x * 2 ^ (-53 : ℤ) := by
      rw [e2]
      norm_num
      ring
    have h5 : (2 : ℚ) ^ binade x * 2 ^ (-53 : ℤ) ≤ x * 2 ^ (-53 : ℤ) :=
      mul_le_mul_of_nonneg_right h1 (by positivity)
    linarith
  · rw [← hx0, roundMag_zero]
    simp

theorem roundDouble_of_nonneg {x : ℚ} (hx : 0 ≤ x) : roundDouble x = roundMag x := by
  unfold roundDouble
  rw [if_pos hx]

theorem roundDouble_of_neg {x : ℚ} (hx : x < 0) : roundDouble x = -roundMag (-x) := by
  unfold roundDouble
  rw [if_neg (not_le.mpr hx)]

theorem roundDouble_zero : roundDouble 0 = 0 := by
  rw [roundDouble_of_nonneg (le_refl 0), roundMag_zero]

theorem roundDouble_neg (x : ℚ) : roundDouble (-x) = -roundDouble x := by
  rcases lt_trichotomy x 0 with h | h | h
  · rw [roundDouble_of_neg h, roundDouble_of_nonneg (by linarith), neg_neg]
  · rw [h, neg_zero, roundDouble_zero, neg_zero]
  · rw [roundDouble_of_neg (by linarith : -x < 0), roundDouble_of_nonneg h.le, neg_neg]

theorem roundDouble_nonneg {x : ℚ} (hx : 0 ≤ x) : 0 ≤ roundDouble x := by
  rw [roundDouble_of_nonneg hx]
  exact roundMag_nonneg hx

theorem roundDouble_pos {x : ℚ} (hx : 0 < x) : 0 < roundDouble x := by
  rw [roundDouble_of_nonneg hx.le]
  exact roundMag_pos hx

theorem roundDouble_neg_of_neg {x : ℚ} (hx : x < 0) : roundDouble x < 0 := by
  rw [roundDouble_of_neg hx]
  have := roundMag_pos (by linarith : 0 < -x)
  linarith

/-- Rounding keeps the sign. -/
theorem roundDouble_pos_iff (x : ℚ) : 0 < roundDouble x ↔ 0 < x := by
  constructor
  · intro h
    by_contra hx
    rcases (not_lt.mp hx).lt_or_eq with h1 | h1
    · linarith [roundDouble_neg_of_neg h1]
    · rw [h1, roundDouble_zero] at h
      exact lt_irrefl _ h
  · exact roundDouble_pos

theorem roundDouble_mono {x y : ℚ} (h : x ≤ y) : roundDouble x ≤ roundDouble y := by
  rcases le_or_lt 0 x with hx | hx
  · rw [roundDouble_of_nonneg hx, roundDouble_of_nonneg (le_trans hx h)]
    exact roundMag_mono hx h
  · rcases le_or_lt 0 y with hy | hy
    · have h1 := roundDouble_neg_of_neg hx
      have h2 := roundDouble_nonneg hy
      linarith
    · rw [roundDouble_of_neg hx, roundDouble_of_neg hy]
      have := roundMag_mono (by linarith : (0 : ℚ) ≤ -y) (by linarith : -y ≤ -x)
      linarith

/-- The relative error of rounding is at most `2^-53`. -/
theorem roundDouble_err (x : ℚ) : |roundDouble x - x| ≤ |x| * 2 ^ (-53 : ℤ) := by
  rcases le_or_lt 0 x with hx | hx
  · rw [roundDouble_of_nonneg hx, abs_of_nonneg hx]
    exact roundMag_err hx
  · rw [roundDouble_of_neg hx, abs_of_neg hx]
    have h := roundMag_err (by linarith : (0 : ℚ) ≤ -x)
    have e : -roundMag (-x) - x = -(roundMag (-x) - -x) := by ring
    rw [e, abs_neg]
    exact h

/-- A number `n · 2^k` with `0 < n < 2^53` is its own rounding. -/
theorem roundMag_exact (n : ℕ) (k : ℤ) (hn0 : 0 < n) (hn : n < 2 ^ 53) :
    roundMag ((n : ℚ) * 2 ^ k) = (n : ℚ) * 2 ^ k := by
  have hnq : (0 : ℚ) < (n : ℚ) := by exact_mod_cast hn0
  have hx : (0 : ℚ) < (n : ℚ) * 2 ^ k := by positivity
  have h1 := (binade_spec _ hx.ne').1
  rw [abs_of_pos hx] at h1
  have hlt : (n : ℚ) * 2 ^ k < 2 ^ (k + 53) := by
    rw [zpow_add₀ (by norm_num), mul_comm ((2 : ℚ) ^ k)]
    have : (n : ℚ) < 2 ^ (53 : ℤ) := by exact_mod_cast hn
    exact mul_lt_mul_of_pos_right this (by positivity)
  have hb : binade ((n : ℚ) * 2 ^ k) < k + 53 :=
    (zpow_lt_zpow_iff_right₀ (by norm_num : (1 : ℚ) < 2)).mp (lt_of_le_of_lt h1 hlt)
  obtain ⟨t, ht⟩ : ∃ t : ℕ, (t : ℤ) = k - (binade ((n : ℚ) * 2 ^ k) - 52) :=
    ⟨(k - (binade ((n : ℚ) * 2 ^ k) - 52)).toNat, Int.toNat_of_nonneg (by omega)⟩
  have hq : (0 : ℚ) < 2 ^ (binade ((n : ℚ) * 2 ^ k) - 52) := by positivity
  have hdiv : (n : ℚ) * 2 ^ k / 2 ^ (binade ((n : ℚ) * 2 ^ k) - 52)
      = (((n * 2 ^ t : ℕ) : ℤ) : ℚ) := by
    rw [mul_div_assoc, ← zpow_sub₀ (by norm_num), ← ht, zpow_natCast]
    push_cast
    ring
  unfold roundMag
  rw [if_neg hx.ne', hdiv, roundEven_intCast, ← hdiv]
  field_simp

theorem roundDouble_exact (z : ℤ) (k : ℤ) (hz : |z| < 2 ^ 53) :
    roundDouble ((z : ℚ) * 2 ^ k) = (z : ℚ) * 2 ^ k := by
  rcases lt_trichotomy z 0 with h | h | h
  · have hx : (z : ℚ) * 2 ^ k < 0 := by
      have : (z : ℚ) < 0 := by exact_mod_cast h
      exact mul_neg_of_neg_of_pos this (by positivity)
    rw [roundDouble_of_neg hx]
    have e : -((z : ℚ) * 2 ^ k) = ((z.natAbs : ℕ) : ℚ) * 2 ^ k := by
      have : ((z.natAbs : ℕ) : ℤ) = -z := by omega
      have h2 : ((z.natAbs : ℕ) : ℚ) = -(z : ℚ) := by
        rw [← Int.cast_natCast, this, Int.cast_neg]
      rw [h2]
      ring
    rw [e, roundMag_exact _ _ (by omega) (by
      have : ((z.natAbs : ℕ) : ℤ) < 2 ^ 53 := by rw [abs_of_neg h] at hz; omega
      exact_mod_cast this), ← e, neg_neg]
  · rw [h]
    simp [roundDouble_zero]
  · have hx : (0 : ℚ) ≤ (z : ℚ) * 2 ^ k := by
      have : (0 : ℚ) < (z : ℚ) := by exact_mod_cast h
      positivity
    rw [roundDouble_of_nonneg hx]
    have e : (z : ℚ) * 2 ^ k = ((z.natAbs : ℕ) : ℚ) * 2 ^ k := by
      have : ((z.natAbs : ℕ) : ℤ) = z := by omega
      have h2 : ((z.natAbs : ℕ) : ℚ) = (z : ℚ) := by
        rw [← Int.cast_natCast, this]
      rw [h2]
    rw [e, roundMag_exact _ _ (by omega) (by
      have : ((z.natAbs : ℕ) : ℤ) < 2 ^ 53 := by rw [abs_of_pos h] at hz; omega
      exact_mod_cast this)]

theorem roundDouble_intCast (z : ℤ) (hz : |z| < 2 ^ 53) : roundDouble (z : ℚ) = z := by
  have := roundDouble_exact z 0 hz
  simpa using this

theorem roundDouble_neg_iff (x : ℚ) : roundDouble x < 0 ↔ x < 0 := by
  constructor
  · intro h
    by_contra hx
    exact absurd (roundDouble_nonneg (not_lt.mp hx)) (not_le.mpr h)
  · exact roundDouble_neg_of_neg

theorem roundDouble_nonneg_iff (x : ℚ) : 0 ≤ roundDouble x ↔ 0 ≤ x := by
  rw [← not_lt, ← not_lt, roundDouble_neg_iff]

theorem roundDouble_nonpos_iff (x : ℚ) : roundDouble x ≤ 0 ↔ x ≤ 0 := by
  rw [← not_lt, ← not_lt, roundDouble_pos_iff]

theorem dsub_pos_iff (a b : ℚ) : 0 < dsub a b ↔ b < a := by
  unfold dsub
  rw [roundDouble_pos_iff, sub_pos]

/-- The sign of `(a - b) / c` computed on doubles is the sign of the exact
quotient. -/
theorem ddiv_dsub_nonneg_iff (a b c : ℚ) : ddiv (dsub a b) c ≥ 0 ↔ (a - b) / c ≥ 0 := by
  unfold ddiv dsub
  rw [ge_iff_le, ge_iff_le, roundDouble_nonneg_iff, div_nonneg_iff, div_nonneg_iff,
    roundDouble_nonneg_iff, roundDouble_nonpos_iff]

theorem cround_of_nonneg {x : ℚ} (hx : 0 ≤ x) : cround x = round x := by
  unfold cround
  rw [if_pos hx, round_eq]

theorem cround_nonneg {x : ℚ} (hx : 0 ≤ x) : 0 ≤ cround x := by
  unfold cround
  rw [if_pos hx]
  exact Int.floor_nonneg.mpr (by linarith)

theorem toUInt32_of_fits {z : ℤ} (h0 : 0 ≤ z) (h1 : z < 2 ^ 32) : (toUInt32 z : ℤ) = z := by
  unfold toUInt32
  rw [Int.emod_eq_of_lt h0 h1, Int.toNat_of_nonneg h0]

theorem toUInt32_lt (z : ℤ) : toUInt32 z < 2 ^ 32 := by
  unfold toUInt32
  have h1 : z % 2 ^ 32 < 2 ^ 32 := Int.emod_lt_of_pos z (by norm_num)
  have h0 : 0 ≤ z % 2 ^ 32 := Int.emod_nonneg z (by norm_num)
  omega

theorem wrapInt32_of_fits {z : ℤ} (h0 : -2 ^ 31 ≤ z) (h1 : z < 2 ^ 31) : wrapInt32 z = z := by
  unfold wrapInt32
  omega

theorem wrapInt32_wrap_succ (f : ℤ) : wrapInt32 (wrapInt32 f + 1) = wrapInt32 (f + 1) := by
  unfold wrapInt32
  omega

theorem segmentTotal_succ (k : ℤ) : segmentTotal (k + 1) = segmentTotal k + (12000 + 2000 * k) := by
  unfold segmentTotal
  ring

theorem segmentTotal_mono {a b : ℕ} (h : a ≤ b) : segmentTotal a ≤ segmentTotal b := by
  induction b with
  | zero =>
    have : a = 0 := Nat.le_zero.mp h
    subst this
    exact le_refl _
  | succ n ih =>
    rcases Nat.of_le_succ h with h1 | h1
    · have := ih h1
      push_cast
      rw [segmentTotal_succ]
      have hn : (0 : ℤ) ≤ (n : ℤ) := Int.ofNat_nonneg n
      linarith
    · subst h1
      exact le_refl _

theorem segmentTotal_lt_succ (k : ℕ) : segmentTotal k < segmentTotal (k + 1) := by
  rw [segmentTotal_succ]
  have hn : (0 : ℤ) ≤ (k : ℤ) := Int.ofNat_nonneg k
  linarith

/-- Every non-negative integer lies in exactly one segment. -/
theorem exists_segment (r : ℤ) (hr : 0 ≤ r) :
    ∃ k : ℕ, segmentTotal k ≤ r ∧ r < segmentTotal (k + 1) := by
  have hex : ∃ k : ℕ, r < segmentTotal ((k : ℤ) + 1) := by
    refine ⟨r.toNat, ?_⟩
    have h1 : ((r.toNat : ℕ) : ℤ) = r := Int.toNat_of_nonneg hr
    rw [h1]
    unfold segmentTotal
    nlinarith
  classical
  refine ⟨Nat.find hex, ?_, Nat.find_spec hex⟩
  rcases Nat.eq_zero_or_pos (Nat.find hex) with h0 | hpos
  · rw [h0]
    simpa [segmentTotal] using hr
  · have hmin := Nat.find_min hex (Nat.sub_lt hpos Nat.one_pos)
    have hcast : (((Nat.find hex - 1 : ℕ) : ℤ) + 1) = (Nat.find hex : ℤ) := by
      have : Nat.find hex - 1 + 1 = Nat.find hex := Nat.sub_add_cancel hpos
      exact_mod_cast this
    rw [hcast] at hmin
    exact not_lt.mp hmin

theorem segment_unique {r : ℤ} {k k2 : ℕ}
    (h : segmentTotal k ≤ r ∧ r < segmentTotal (k + 1))
    (h2 : segmentTotal k2 ≤ r ∧ r < segmentTotal (k2 + 1)) : k2 = k := by
  rcases Nat.lt_trichotomy k2 k with hlt | heq | hgt
  · have := segmentTotal_mono (Nat.succ_le_of_lt hlt)
    push_cast at this
    linarith [h.1, h2.2]
  · exact heq
  · have := segmentTotal_mono (Nat.succ_le_of_lt hgt)
    push_cast at this
    linarith [h.2, h2.1]

/-! ## Lemmas on rounding errors -/

theorem ulp_bounds : (0 : ℚ) < 1 - 2 ^ (-53 : ℤ) ∧ (1 : ℚ) - 2 ^ (-53 : ℤ) ≤ 1 := by
  constructor <;> norm_num

theorem near_refl {E : ℚ} (hE : 0 ≤ E) : near 0 E E :=
  ⟨hE, hE, by simp, by simp⟩

theorem near_round {k : ℕ} {v E : ℚ} (h : near k v E) : near (k + 1) (roundDouble v) E := by
  obtain ⟨hE, hv, h1, h2⟩ := h
  obtain ⟨ha0, ha1⟩ := ulp_bounds
  have herr := roundDouble_err v
  rw [abs_of_nonneg hv, abs_le] at herr
  have hak : (0 : ℚ) ≤ (1 - 2 ^ (-53 : ℤ)) ^ k := pow_nonneg ha0.le k
  refine ⟨hE, roundDouble_nonneg hv, ?_, ?_⟩
  · rw [pow_succ, ← mul_assoc]
    have h3 : E * (1 - 2 ^ (-53 : ℤ)) ^ k * (1 - 2 ^ (-53 : ℤ))
        ≤ v * (1 - 2 ^ (-53 : ℤ)) := mul_le_mul_of_nonneg_right h1 ha0.le
    linarith [herr.1]
  · rw [pow_succ, ← mul_assoc, mul_right_comm]
    have h3 : roundDouble v * (1 - 2 ^ (-53 : ℤ)) ≤ v := by
      have h4 : roundDouble v * (1 - 2 ^ (-53 : ℤ))
          ≤ (v + v * 2 ^ (-53 : ℤ)) * (1 - 2 ^ (-53 : ℤ)) :=
        mul_le_mul_of_nonneg_right (by linarith [herr.2]) ha0.le
      have h5 : (v + v * 2 ^ (-53 : ℤ)) * (1 - 2 ^ (-53 : ℤ))
          = v - v * (2 ^ (-53 : ℤ) * 2 ^ (-53 : ℤ)) := by ring
      have h6 : (0 : ℚ) ≤ v * (2 ^ (-53 : ℤ) * 2 ^ (-53 : ℤ)) := by positivity
      linarith
    have := mul_le_mul_of_nonneg_right h3 hak
    linarith

theorem near_weaken {k : ℕ} {v E : ℚ} (h : near k v E) : near (k + 1) v E := by
  obtain ⟨hE, hv, h1, h2⟩ := h
  obtain ⟨ha0, ha1⟩ := ulp_bounds
  have hak : (0 : ℚ) ≤ (1 - 2 ^ (-53 : ℤ)) ^ k := pow_nonneg ha0.le k
  refine ⟨hE, hv, ?_, ?_⟩
  · rw [pow_succ, ← mul_assoc]
    have : E * (1 - 2 ^ (-53 : ℤ)) ^ k * (1 - 2 ^ (-53 : ℤ)) ≤ E * (1 - 2 ^ (-53 : ℤ)) ^ k * 1 :=
      mul_le_mul_of_nonneg_left ha1 (mul_nonneg hE hak)
    linarith
  · rw [pow_succ, ← mul_assoc]
    have : v * (1 - 2 ^ (-53 : ℤ)) ^ k * (1 - 2 ^ (-53 : ℤ)) ≤ v * (1 - 2 ^ (-53 : ℤ)) ^ k * 1 :=
      mul_le_mul_of_nonneg_left ha1 (mul_nonneg hv hak)
    linarith

theorem near_mono {k m : ℕ} {v E : ℚ} (h : near k v E) (hkm : k ≤ m) : near m v E := by
  induction hkm with
  | refl => exact h
  | step _ ih => exact near_weaken ih

theorem near_mul {k m : ℕ} {v E w F : ℚ} (h1 : near k v E) (h2 : near m w F) :
    near (k + m) (v * w) (E * F) := by
  obtain ⟨hE, hv, a1, a2⟩ := h1
  obtain ⟨hF, hw, b1, b2⟩ := h2
  obtain ⟨ha0, ha1⟩ := ulp_bounds
  have hak : (0 : ℚ) ≤ (1 - 2 ^ (-53 : ℤ)) ^ k := pow_nonneg ha0.le k
  have ham : (0 : ℚ) ≤ (1 - 2 ^ (-53 : ℤ)) ^ m := pow_nonneg ha0.le m
  refine ⟨mul_nonneg hE hF, mul_nonneg hv hw, ?_, ?_⟩
  · have := mul_le_mul a1 b1 (mul_nonneg hF ham) hv
    rw [pow_add]
    linarith
  · have := mul_le_mul a2 b2 (mul_nonneg hw ham) hE
    rw [pow_add]
    linarith

theorem near_div {k m : ℕ} {v E w F : ℚ} (h1 : near k v E) (h2 : near m w F)
    (hF : 0 < F) (hw : 0 < w) : near (k + m) (v / w) (E / F) := by
  obtain ⟨hE, hv, a1, a2⟩ := h1
  obtain ⟨_, _, b1, b2⟩ := h2
  obtain ⟨ha0, ha1⟩ := ulp_bounds
  have hak : (0 : ℚ) ≤ (1 - 2 ^ (-53 : ℤ)) ^ k := pow_nonneg ha0.le k
  have ham : (0 : ℚ) ≤ (1 - 2 ^ (-53 : ℤ)) ^ m := pow_nonneg ha0.le m
  refine ⟨div_nonneg hE hF.le, div_nonneg hv hw.le, ?_, ?_⟩
  · rw [div_mul_eq_mul_div, div_le_div_iff₀ hF hw, pow_add]
    have := mul_le_mul a1 b2 (mul_nonneg hw.le ham) hv
    linarith
  · rw [div_mul_eq_mul_div, div_le_div_iff₀ hw hF, pow_add]
    have := mul_le_mul a2 b1 (mul_nonneg hF.le ham) hE
    linarith

theorem near_add {k : ℕ} {v E w F : ℚ} (h1 : near k v E) (h2 : near k w F) :
    near k (v + w) (E + F) := by
  obtain ⟨hE, hv, a1, a2⟩ := h1
  obtain ⟨hF, hw, b1, b2⟩ := h2
  exact ⟨add_nonneg hE hF, add_nonneg hv hw, by linarith, by linarith⟩

theorem near_toDouble (n : ℕ) : near 1 (toDouble n) n :=
  near_round (near_refl (Nat.cast_nonneg n))

theorem toDouble_pos {n : ℕ} (h : 0 < n) : 0 < toDouble n :=
  roundDouble_pos (by exact_mod_cast h)

/-- The three amounts that a judgment adds to the gauge are the exact amounts up to
the rounding of two, four and five operations. -/
theorem gaugeAmount_near (G : ℚ) (N : ℕ) (hG : 0 ≤ G) (hN : 0 < N) :
    near 2 (ddiv G (toDouble N)) (G / N)
    ∧ near 4 (ddiv (ddiv G (toDouble N)) (roundDouble 1.01)) (G / N * (1 / 1.01))
    ∧ near 5 (dmul (ddiv (ddiv G (toDouble N)) (roundDouble 1.01)) (1 / 2))
        (G / N * (1 / 1.01 * 0.5)) := by
  have hNq : (0 : ℚ) < (N : ℚ) := by exact_mod_cast hN
  have a1 : near 2 (ddiv G (toDouble N)) (G / N) :=
    near_round (near_div (near_refl hG) (near_toDouble N) hNq (toDouble_pos hN))
  have c : near 1 (roundDouble 1.01) 1.01 := near_round (near_refl (by norm_num))
  have a2 : near 4 (ddiv (ddiv G (toDouble N)) (roundDouble 1.01)) (G / N / 1.01) :=
    near_round (near_div a1 c (by norm_num) (roundDouble_pos (by norm_num)))
  have a3 : near 5 (dmul (ddiv (ddiv G (toDouble N)) (roundDouble 1.01)) (1 / 2))
      (G / N / 1.01 * (1 / 2)) :=
    near_round (near_mul a2 (near_refl (by norm_num)))
  have e2 : G / N * (1 / 1.01) = G / N / 1.01 := by ring
  have e3 : G / N * (1 / 1.01 * 0.5) = G / N / 1.01 * (1 / 2) := by norm_num; ring
  rw [e2, e3]
  exact ⟨a1, a2, a3⟩

/-! ## Lemmas on the gauge loop -/


/-- A subtraction of the loop is exact: both operands are multiples of `2^j` and
the minuend is below `2^(53+j)`. -/
theorem dsub_exact (C M : ℤ) (j : ℕ) (hC : (2 : ℤ) ^ j ∣ C) (hM : (2 : ℤ) ^ j ∣ M)
    (hM0 : 0 ≤ M) (hMC : M ≤ C) (hlt : C < 2 ^ (53 + j)) :
    dsub (C : ℚ) (M : ℚ) = ((C - M : ℤ) : ℚ) := by
  obtain ⟨z, hz⟩ := Dvd.dvd.sub hC hM
  have hp : (0 : ℤ) < 2 ^ j := by positivity
  have hz0 : 0 ≤ z := by
    by_contra hcon
    have : 2 ^ j * z < 0 := mul_neg_of_pos_of_neg hp (not_le.mp hcon)
    omega
  have hz1 : z < 2 ^ 53 := by
    by_contra hcon
    have h1 : (2 : ℤ) ^ j * 2 ^ 53 ≤ 2 ^ j * z := mul_le_mul_of_nonneg_left (not_lt.mp hcon) hp.le
    have h2 : (2 : ℤ) ^ (53 + j) = 2 ^ j * 2 ^ 53 := by rw [pow_add]; ring
    omega
  unfold dsub
  have e : (C : ℚ) - (M : ℚ) = (z : ℚ) * 2 ^ (j : ℤ) := by
    have : ((C - M : ℤ) : ℚ) = ((2 ^ j * z : ℤ) : ℚ) := by rw [hz]
    push_cast at this
    rw [this, zpow_natCast]
    ring
  rw [e, roundDouble_exact z j (by rw [abs_of_nonneg hz0]; exact hz1), ← e]
  push_cast
  ring

theorem dadd_2000_exact (M : ℤ) (hM0 : 0 ≤ M) (hM : M + 2000 < 2 ^ 53) :
    dadd (M : ℚ) 2000 = ((M + 2000 : ℤ) : ℚ) := by
  unfold dadd
  have e : (M : ℚ) + 2000 = ((M + 2000 : ℤ) : ℚ) := by push_cast; ring
  rw [e, roundDouble_intCast _ (by rw [abs_of_nonneg (by omega)]; exact hM)]

theorem gaugeLoop_fuel_mono (fuel : ℕ) :
    ∀ (d : ℕ) (f : ℤ) (c m : ℚ) (x : ℤ × ℚ × ℚ),
      gaugeLoop fuel f c m = some x → gaugeLoop (fuel + d) f c m = some x := by
  induction fuel with
  | zero => intro d f c m x h; simp [gaugeLoop] at h
  | succ n ih =>
    intro d f c m x h
    have e : n + 1 + d = (n + d) + 1 := by omega
    rw [e]
    unfold gaugeLoop at h ⊢
    by_cases hc : c ≥ m
    · rw [if_pos hc] at h ⊢
      exact ih d _ _ _ _ h
    · rw [if_neg hc] at h ⊢
      exact h

/-- Running `n` iterations whose loop tests all succeed and whose subtractions are
exact. -/
theorem gaugeLoop_steps (n : ℕ) :
    ∀ (fuel : ℕ) (f : ℤ) (C M : ℤ) (j : ℕ), j ≤ 4 → (2 : ℤ) ^ j ∣ C → (16 : ℤ) ∣ M →
      0 ≤ M → C < 2 ^ (53 + j) → M + 2000 * n < 2 ^ 53 →
      (n : ℤ) * M + 1000 * n * (n - 1) ≤ C →
      gaugeLoop (fuel + n) (wrapInt32 f) (C : ℚ) (M : ℚ)
        = gaugeLoop fuel (wrapInt32 (f + n))
            ((C - ((n : ℤ) * M + 1000 * n * (n - 1)) : ℤ) : ℚ) ((M + 2000 * n : ℤ) : ℚ) := by
  induction n with
  | zero => intro fuel f C M j _ _ _ _ _ _ _; simp
  | succ n ih =>
    intro fuel f C M j hj hC hM hM0 hlt hMn hc
    have hn : (0 : ℤ) ≤ (n : ℤ) := Int.ofNat_nonneg n
    push_cast at hc hMn
    have hcm : M ≤ C := by nlinarith
    have hcmq : (C : ℚ) ≥ (M : ℚ) := by exact_mod_cast hcm
    have h16 : (2 : ℤ) ^ j ∣ 16 := by
      have : (16 : ℤ) = 2 ^ 4 := by norm_num
      rw [this]
      exact pow_dvd_pow 2 hj
    have hMj : (2 : ℤ) ^ j ∣ M := dvd_trans h16 hM
    have e : fuel + (n + 1) = (fuel + n) + 1 := by omega
    rw [e]
    conv_lhs => unfold gaugeLoop
    rw [if_pos hcmq, wrapInt32_wrap_succ, dsub_exact C M j hC hMj hM0 hcm hlt,
      dadd_2000_exact M hM0 (by omega)]
    rw [ih fuel (f + 1) (C - M) (M + 2000) j hj (Dvd.dvd.sub hC hMj)
      (Dvd.dvd.add hM (by norm_num)) (by omega) (by omega) (by omega) (by nlinarith)]
    congr 1
    · push_cast; ring_nf
    · push_cast; ring
    · push_cast; ring

theorem gaugeLoop_exit (fuel : ℕ) (f : ℤ) (c m : ℚ) (h : c < m) :
    gaugeLoop (fuel + 1) f c m = some (f, c, m) := by
  unfold gaugeLoop
  rw [if_neg (not_le.mpr h)]

theorem gaugeLoop_run (n : ℕ) :
    ∀ (fuel : ℕ) (st st2 : ℤ × ℚ × ℚ), gaugeRun n st = some st2 →
      gaugeLoop (fuel + n) st.1 st.2.1 st.2.2 = gaugeLoop fuel st2.1 st2.2.1 st2.2.2 := by
  induction n with
  | zero =>
    intro fuel st st2 h
    simp only [gaugeRun, Option.some.injEq] at h
    rw [h]
    rfl
  | succ n ih =>
    intro fuel st st2 h
    obtain ⟨f, c, m⟩ := st
    unfold gaugeRun at h
    by_cases hc : c ≥ m
    · rw [if_pos hc] at h
      have e : fuel + (n + 1) = (fuel + n) + 1 := by omega
      rw [e]
      conv_lhs => unfold gaugeLoop
      simp only []
      rw [if_pos hc]
      exact ih fuel _ st2 h
    · rw [if_neg hc] at h
      exact absurd h (by simp)

theorem cround_intCast (z : ℤ) : cround (z : ℚ) = z := by
  unfold cround
  split_ifs with h
  · rw [Int.floor_eq_iff]
    constructor <;> linarith
  · have e : -(z : ℚ) + 1 / 2 = ((-z : ℤ) : ℚ) + 1 / 2 := by push_cast; ring
    rw [e]
    have : ⌊((-z : ℤ) : ℚ) + 1 / 2⌋ = -z := by
      rw [Int.floor_eq_iff]
      constructor <;> push_cast <;> linarith
    rw [this, neg_neg]

/-- The rounded value of a `double` gauge below `2^57` is a multiple of `2^j` below
`2^(53+j)`, for some `j ≤ 4`. -/
theorem cround_grid (g : ℚ) (hg : 0 ≤ g) (hd : roundDouble g = g)
    (hfit : cround g < 2 ^ 57) :
    ∃ j : ℕ, j ≤ 4 ∧ (2 : ℤ) ^ j ∣ cround g ∧ cround g < 2 ^ (53 + j) := by
  by_cases h53 : cround g < 2 ^ 53
  · exact ⟨0, by norm_num, by simp, by simpa using h53⟩
  · have hc : cround g = ⌊g + 1 / 2⌋ := by unfold cround; rw [if_pos hg]
    have h1 : (2 : ℤ) ^ 53 ≤ ⌊g + 1 / 2⌋ := by rw [← hc]; exact not_lt.mp h53
    have h2 : ((2 ^ 53 : ℤ) : ℚ) ≤ g + 1 / 2 := Int.le_floor.mp h1
    have h3 : g + 1 / 2 < ((2 ^ 57 : ℤ) : ℚ) := by
      rw [← Int.floor_lt, ← hc]
      exact hfit
    push_cast at h2 h3
    have hg0 : 0 < g := by linarith
    obtain ⟨b1, b2⟩ := binade_spec g hg0.ne'
    rw [abs_of_pos hg0] at b1 b2
    have hb52 : 52 ≤ binade g := by
      have : (2 : ℚ) ^ (52 : ℤ) < 2 ^ (binade g + 1) := by
        have : (2 : ℚ) ^ (52 : ℤ) ≤ g := by norm_num; linarith
        linarith
      have := (zpow_lt_zpow_iff_right₀ (by norm_num : (1 : ℚ) < 2)).mp this
      omega
    have hb56 : binade g ≤ 56 := by
      have : (2 : ℚ) ^ binade g < 2 ^ (57 : ℤ) := by
        have : g < (2 : ℚ) ^ (57 : ℤ) := by norm_num; linarith
        linarith
      have := (zpow_lt_zpow_iff_right₀ (by norm_num : (1 : ℚ) < 2)).mp this
      omega
    obtain ⟨j, hj⟩ : ∃ j : ℕ, (j : ℤ) = binade g - 52 :=
      ⟨(binade g - 52).toNat, Int.toNat_of_nonneg (by omega)⟩
    have hrep : g = ((roundEven (g / 2 ^ (binade g - 52)) * 2 ^ j : ℤ) : ℚ) := by
      conv_lhs => rw [← hd, roundDouble_of_nonneg hg]
      unfold roundMag
      rw [if_neg hg0.ne', ← hj, zpow_natCast]
      push_cast
      ring
    have hcg : cround g = roundEven (g / 2 ^ (binade g - 52)) * 2 ^ j := by
      conv_lhs => rw [hrep]
      exact cround_intCast _
    refine ⟨j, by omega, ⟨roundEven (g / 2 ^ (binade g - 52)), by rw [hcg]; ring⟩, ?_⟩
    have hlt : ((cround g : ℤ) : ℚ) < ((2 ^ (53 + j) : ℤ) : ℚ) := by
      rw [hcg, ← hrep]
      have e : (((2 : ℤ) ^ (53 + j) : ℤ) : ℚ) = (2 : ℚ) ^ (binade g + 1) := by
        push_cast
        rw [← zpow_natCast]
        congr 1
        push_cast
        omega
      rw [e]
      exact b2
    exact_mod_cast hlt

theorem segment_index_lt (r : ℤ) (k : ℕ) (h : segmentTotal k ≤ r) (hr : r < 2 ^ 57) :
    k < 2 ^ 26 := by
  by_contra hcon
  have h26 : segmentTotal (2 ^ 26) ≤ segmentTotal k := by
    have := segmentTotal_mono (not_lt.mp hcon)
    exact_mod_cast this
  have : segmentTotal (2 ^ 26) > 2 ^ 57 := by decide
  omega

/-- The result of `GetGaugeValue` for a `double` gauge whose rounded value is below
`2^57` and lies in segment `k`. -/
theorem GetGaugeValue_eq (s : PlayStatus) (k : ℕ) (hg : 0 ≤ s.CurrentGauge)
    (hd : roundDouble s.CurrentGauge = s.CurrentGauge)
    (hfit : cround s.CurrentGauge < 2 ^ 57)
    (hlo : segmentTotal k ≤ cround s.CurrentGauge)
    (hhi : cround s.CurrentGauge < segmentTotal (k + 1)) (fuel : ℕ) (hfuel : k < fuel) :
    s.GetGaugeValue fuel
      = some ((k : ℤ),
          ddiv ((cround s.CurrentGauge - segmentTotal k : ℤ) : ℚ) (12000 + 2000 * (k : ℚ))) := by
  obtain ⟨d, rfl⟩ : ∃ d, fuel = (d + 1) + k := ⟨fuel - k - 1, by omega⟩
  obtain ⟨j, hj, hdiv, hlt⟩ := cround_grid _ hg hd hfit
  have hk26 := segment_index_lt _ k hlo hfit
  have hk : (0 : ℤ) ≤ (k : ℤ) := Int.ofNat_nonneg k
  have hkz : (k : ℤ) < 2 ^ 26 := by exact_mod_cast hk26
  have h0 : (0 : ℤ) = wrapInt32 0 := by decide
  have hS : (k : ℤ) * 12000 + 1000 * k * (k - 1) = segmentTotal k := by
    unfold segmentTotal; ring
  rw [segmentTotal_succ] at hhi
  unfold PlayStatus.GetGaugeValue
  simp only []
  have e12 : (12000 : ℚ) = ((12000 : ℤ) : ℚ) := by norm_num
  rw [h0, e12, gaugeLoop_steps k (d + 1) 0 _ 12000 j hj hdiv (by norm_num) (by norm_num) hlt
    (by omega) (by rw [hS]; exact hlo)]
  rw [gaugeLoop_exit _ _ _ _ (by
    have : cround s.CurrentGauge - ((k : ℤ) * 12000 + 1000 * k * (k - 1)) < 12000 + 2000 * k := by
      rw [hS]; omega
    exact_mod_cast this)]
  simp only [zero_add]
  rw [wrapInt32_of_fits (by omega) (by omega), hS]
  congr 3
  push_cast
  ring

theorem ddiv_lt_one (c m : ℤ) (hc0 : 0 ≤ c) (hcm : c < m) (hm : m < 2 ^ 53) :
    0 ≤ ddiv (c : ℚ) (m : ℚ) ∧ ddiv (c : ℚ) (m : ℚ) < 1 := by
  have hmq : (0 : ℚ) < (m : ℚ) := by exact_mod_cast (by omega : (0 : ℤ) < m)
  have hcq : (0 : ℚ) ≤ (c : ℚ) := by exact_mod_cast hc0
  have hcm1 : (c : ℚ) ≤ (m : ℚ) - 1 := by exact_mod_cast (by omega : c ≤ m - 1)
  have hmb : (m : ℚ) ≤ 2 ^ 53 := by exact_mod_cast hm.le
  unfold ddiv
  refine ⟨roundDouble_nonneg (div_nonneg hcq hmq.le), ?_⟩
  have h1 : (c : ℚ) / m ≤ 1 - 2 ^ (-53 : ℤ) := by
    rw [div_le_iff₀ hmq]
    have e : (2 : ℚ) ^ (-53 : ℤ) = 1 / 2 ^ 53 := by norm_num
    rw [e]
    have : (m : ℚ) * (1 / 2 ^ 53) ≤ 1 := by
      rw [mul_one_div, div_le_one (by positivity)]
      exact hmb
    linarith
  have h2 := roundDouble_mono h1
  have e : (1 : ℚ) - 2 ^ (-53 : ℤ) = ((2 ^ 53 - 1 : ℤ) : ℚ) * 2 ^ (-53 : ℤ) := by norm_num
  rw [e, roundDouble_exact _ _ (by norm_num), ← e] at h2
  have : (0 : ℚ) < 2 ^ (-53 : ℤ) := by positivity
  linarith


/-- The result of `GetGaugeValue` when the first `a` iterations of the loop are
known and the iterations after them are exact. -/
theorem GetGaugeValue_of_run (s : PlayStatus) (a n : ℕ) (f C M : ℤ) (j : ℕ)
    (hrun : gaugeRun a ((0 : ℤ), ((cround s.CurrentGauge : ℤ) : ℚ), (12000 : ℚ))
      = some (wrapInt32 f, (C : ℚ), (M : ℚ)))
    (hj : j ≤ 4) (hC : (2 : ℤ) ^ j ∣ C) (hM : (16 : ℤ) ∣ M) (hM0 : 0 ≤ M)
    (hlt : C < 2 ^ (53 + j)) (hMn : M + 2000 * n < 2 ^ 53)
    (hc : (n : ℤ) * M + 1000 * n * (n - 1) ≤ C)
    (hexit : C - ((n : ℤ) * M + 1000 * n * (n - 1)) < M + 2000 * n)
    (fuel : ℕ) (hfuel : a + n < fuel) :
    s.GetGaugeValue fuel
      = some (wrapInt32 (f + n),
          ddiv ((C - ((n : ℤ) * M + 1000 * n * (n - 1)) : ℤ) : ℚ) ((M + 2000 * n : ℤ) : ℚ)) := by
  obtain ⟨d, rfl⟩ : ∃ d, fuel = ((d + 1) + n) + a := ⟨fuel - a - n - 1, by omega⟩
  unfold PlayStatus.GetGaugeValue
  simp only []
  have h1 := gaugeLoop_run a ((d + 1) + n) _ _ hrun
  simp only [] at h1
  rw [h1, gaugeLoop_steps n (d + 1) f C M j hj hC hM hM0 hlt hMn hc]
  rw [gaugeLoop_exit _ _ _ _ (by exact_mod_cast hexit)]

theorem GetGaugeValue_fuel_mono (s : PlayStatus) (fuel d : ℕ) (x : ℤ × ℚ)
    (h : s.GetGaugeValue fuel = some x) : s.GetGaugeValue (fuel + d) = some x := by
  unfold PlayStatus.GetGaugeValue at h ⊢
  simp only [] at h ⊢
  cases hg : gaugeLoop fuel 0 (↑(cround s.CurrentGauge)) 12000 with
  | none => rw [hg] at h; simp at h
  | some y =>
    rw [hg] at h
    rw [gaugeLoop_fuel_mono fuel d _ _ _ y hg]
    exact h

/-! ## Lemmas on the score -/

theorem scoreResult_near (s : PlayStatus) (hN : 0 < s.AllNotes) :
    near 9 s.scoreResult (scoreExact s) := by
  have hNq : (0 : ℚ) < (s.AllNotes : ℚ) := by exact_mod_cast hN
  have hbase : near 2 (ddiv 1000000 (toDouble s.AllNotes)) (1000000 / (s.AllNotes : ℚ)) :=
    near_round (near_div (near_refl (by norm_num)) (near_toDouble _) hNq (toDouble_pos hN))
  have hc : near 1 (roundDouble 1.01) 1.01 := near_round (near_refl (by norm_num))
  have hone : near 1 (1 : ℚ) 1 := near_weaken (near_refl (by norm_num))
  have hhalf : near 1 (1 / 2 : ℚ) (1 / 2) := near_weaken (near_refl (by norm_num))
  have t1 : near 6 (dmul (dmul (toDouble s.JusticeCritical)
      (ddiv 1000000 (toDouble s.AllNotes))) (roundDouble 1.01))
      ((s.JusticeCritical : ℚ) * (1000000 / (s.AllNotes : ℚ)) * 1.01) :=
    near_round (near_mul (near_round (near_mul (near_toDouble _) hbase)) hc)
  have t2 : near 6 (dmul (dmul (toDouble s.Justice)
      (ddiv 1000000 (toDouble s.AllNotes))) 1)
      ((s.Justice : ℚ) * (1000000 / (s.AllNotes : ℚ)) * 1) :=
    near_round (near_mul (near_round (near_mul (near_toDouble _) hbase)) hone)
  have t3 : near 6 (dmul (dmul (toDouble s.Attack)
      (ddiv 1000000 (toDouble s.AllNotes))) (1 / 2))
      ((s.Attack : ℚ) * (1000000 / (s.AllNotes : ℚ)) * (1 / 2)) :=
    near_round (near_mul (near_round (near_mul (near_toDouble _) hbase)) hhalf)
  have r1 : near 7 (dadd 0 (dmul (dmul (toDouble s.JusticeCritical)
      (ddiv 1000000 (toDouble s.AllNotes))) (roundDouble 1.01)))
      (0 + (s.JusticeCritical : ℚ) * (1000000 / (s.AllNotes : ℚ)) * 1.01) :=
    near_round (near_add (near_mono (near_refl (le_refl (0 : ℚ))) (Nat.zero_le 6)) t1)
  have r2 := near_round (near_add r1 (near_weaken t2))
  have r3 := near_round (near_add r2 (near_mono t3 (by norm_num : 6 ≤ 8)))
  have e : (0 + (s.JusticeCritical : ℚ) * (1000000 / (s.AllNotes : ℚ)) * 1.01
      + (s.Justice : ℚ) * (1000000 / (s.AllNotes : ℚ)) * 1
      + (s.Attack : ℚ) * (1000000 / (s.AllNotes : ℚ)) * (1 / 2)) = scoreExact s := by
    unfold scoreExact
    field_simp
    ring
  rw [← e]
  exact r3

/-- The value that `GetScore` rounds, against the exact value of the formula. -/
theorem scoreResult_bounds (s : PlayStatus) (hN : 0 < s.AllNotes) :
    0 ≤ s.scoreResult
    ∧ scoreExact s * (1 - 2 ^ (-49 : ℤ)) ≤ s.scoreResult
    ∧ s.scoreResult * (1 - 2 ^ (-49 : ℤ)) ≤ scoreExact s := by
  obtain ⟨hE, hv, h1, h2⟩ := scoreResult_near s hN
  have hnum : (1 : ℚ) - 2 ^ (-49 : ℤ) ≤ (1 - 2 ^ (-53 : ℤ)) ^ 9 := by norm_num
  refine ⟨hv, ?_, ?_⟩
  · have := mul_le_mul_of_nonneg_left hnum hE
    linarith
  · have := mul_le_mul_of_nonneg_left hnum hv
    linarith

theorem scoreExact_nonneg (s : PlayStatus) : 0 ≤ scoreExact s := by
  unfold scoreExact
  have h1 : (0 : ℚ) ≤ s.JusticeCritical := Nat.cast_nonneg _
  have h2 : (0 : ℚ) ≤ s.Justice := Nat.cast_nonneg _
  have h3 : (0 : ℚ) ≤ s.Attack := Nat.cast_nonneg _
  have h4 : (0 : ℚ) ≤ s.AllNotes := Nat.cast_nonneg _
  apply div_nonneg _ h4
  norm_num
  positivity

theorem scoreResult_mono (s t : PlayStatus) (hN : s.AllNotes = t.AllNotes)
    (h1 : s.JusticeCritical ≤ t.JusticeCritical) (h2 : s.Justice ≤ t.Justice)
    (h3 : s.Attack ≤ t.Attack) : s.scoreResult ≤ t.scoreResult := by
  have hb : 0 ≤ ddiv 1000000 (toDouble t.AllNotes) :=
    roundDouble_nonneg (div_nonneg (by norm_num) (roundDouble_nonneg (Nat.cast_nonneg _)))
  have hc : (0 : ℚ) ≤ roundDouble 1.01 := roundDouble_nonneg (by norm_num)
  have q1 : toDouble s.JusticeCritical ≤ toDouble t.JusticeCritical :=
    roundDouble_mono (by exact_mod_cast h1)
  have q2 : toDouble s.Justice ≤ toDouble t.Justice := roundDouble_mono (by exact_mod_cast h2)
  have q3 : toDouble s.Attack ≤ toDouble t.Attack := roundDouble_mono (by exact_mod_cast h3)
  unfold PlayStatus.scoreResult
  simp only [hN]
  unfold dadd dmul
  apply roundDouble_mono
  apply add_le_add
  · apply roundDouble_mono
    apply add_le_add
    · apply roundDouble_mono
      apply add_le_add (le_refl _)
      apply roundDouble_mono
      apply mul_le_mul_of_nonneg_right _ hc
      apply roundDouble_mono
      exact mul_le_mul_of_nonneg_right q1 hb
    · apply roundDouble_mono
      apply mul_le_mul_of_nonneg_right _ (by norm_num)
      apply roundDouble_mono
      exact mul_le_mul_of_nonneg_right q2 hb
  · apply roundDouble_mono
    apply mul_le_mul_of_nonneg_right _ (by norm_num)
    apply roundDouble_mono
    exact mul_le_mul_of_nonneg_right q3 hb

theorem cround_mono {x y : ℚ} (hx : 0 ≤ x) (h : x ≤ y) : cround x ≤ cround y := by
  unfold cround
  rw [if_pos hx, if_pos (le_trans hx h)]
  exact Int.floor_le_floor (by linarith)

/-- The distance between the value `GetScore` rounds and the exact value. -/
theorem scoreResult_close (s : PlayStatus) (hN : 0 < s.AllNotes)
    (hE : scoreExact s < 2 ^ 32) :
    |s.scoreResult - scoreExact s| < 2 ^ (-16 : ℤ) := by
  obtain ⟨h0, h1, h2⟩ := scoreResult_bounds s hN
  have hE0 := scoreExact_nonneg s
  have hd0 : (0 : ℚ) < 2 ^ (-49 : ℤ) := by positivity
  have hd1 : (2 : ℚ) ^ (-49 : ℤ) ≤ 1 / 2 := by norm_num
  have hd2 : (2 : ℚ) ^ 33 * 2 ^ (-49 : ℤ) = 2 ^ (-16 : ℤ) := by norm_num
  rw [← hd2]
  generalize (2 : ℚ) ^ (-49 : ℤ) = d at *
  have hS : s.scoreResult ≤ 2 * scoreExact s := by nlinarith
  have hS2 : s.scoreResult < 2 ^ 33 := by linarith
  rw [abs_lt]
  constructor <;> nlinarith

theorem GetScore_eq_cround (s : PlayStatus) (h : cround s.scoreResult < 2 ^ 32)
    (h0 : 0 ≤ s.scoreResult) : (s.GetScore : ℤ) = cround s.scoreResult := by
  unfold PlayStatus.GetScore
  exact toUInt32_of_fits (cround_nonneg h0) h

/-- The number that `GetScore` converts is within 1 of the score formula, when the
formula is below `2^32 − 1`. -/
theorem scoreResult_floor_near (s : PlayStatus) (hN : 0 < s.AllNotes)
    (hfit : scoreFormula s + 1 < 2 ^ 32) :
    0 ≤ s.scoreResult ∧ |s.scoreResult - scoreExact s| < 2 ^ (-16 : ℤ)
    ∧ scoreFormula s - 1 ≤ cround s.scoreResult
    ∧ cround s.scoreResult ≤ scoreFormula s + 1 := by
  obtain ⟨h0, _, _⟩ := scoreResult_bounds s hN
  have hf : scoreFormula s = ⌊scoreExact s + 1 / 2⌋ := by
    unfold scoreFormula
    rw [round_eq]
  have hc : cround s.scoreResult = ⌊s.scoreResult + 1 / 2⌋ := by
    unfold cround
    rw [if_pos h0]
  have hElt : scoreExact s < 2 ^ 32 := by
    have h1 : (⌊scoreExact s + 1 / 2⌋ : ℤ) < 2 ^ 32 - 1 := by rw [← hf]; omega
    have h2 := Int.lt_floor_add_one (scoreExact s + 1 / 2)
    have h3 : ((⌊scoreExact s + 1 / 2⌋ : ℤ) : ℚ) ≤ 2 ^ 32 - 2 := by
      have : (⌊scoreExact s + 1 / 2⌋ : ℤ) ≤ 2 ^ 32 - 2 := by omega
      exact_mod_cast this
    linarith
  have hclose := scoreResult_close s hN hElt
  refine ⟨h0, hclose, ?_, ?_⟩
  · rw [abs_lt] at hclose
    have hsmall : (2 : ℚ) ^ (-16 : ℤ) < 1 := by norm_num
    rw [hc, hf, ← Int.floor_sub_one]
    exact Int.floor_le_floor (by linarith)
  · rw [abs_lt] at hclose
    have hsmall : (2 : ℚ) ^ (-16 : ℤ) < 1 := by norm_num
    rw [hc, hf, ← Int.floor_add_one]
    exact Int.floor_le_floor (by linarith)

/-! ## Lemmas on the lane loop of `CheckJudgement` -/

theorem judgeLanes_none (trigger : ℤ → Bool) (reltime : ℚ) (Status : PlayStatus)
    (note : SusDrawableNoteData) (n : ℕ) :
    ∀ i : ℤ, (∀ j, i ≤ j → j < i + n → trigger j = false) →
      judgeLanes trigger reltime Status note n i = (false, note, Status) := by
  induction n with
  | zero => intro i _; rfl
  | succ n ih =>
    intro i h
    unfold judgeLanes
    have hi : trigger i = false := h i (le_refl i) (by push_cast; omega)
    rw [hi]
    simp only [Bool.not_false, if_true]
    exact ih (i + 1) (fun j h1 h2 => h j (by omega) (by push_cast; omega))

theorem judgeLanes_cases (trigger : ℤ → Bool) (reltime : ℚ) (Status : PlayStatus)
    (note : SusDrawableNoteData) (n : ℕ) :
    ∀ i : ℤ, judgeLanes trigger reltime Status note n i = (false, note, Status)
      ∨ judgeLanes trigger reltime Status note n i
        = (true, (judgeHit reltime Status note).1, (judgeHit reltime Status note).2) := by
  induction n with
  | zero => intro i; exact Or.inl rfl
  | succ n ih =>
    intro i
    unfold judgeLanes
    cases hi : trigger i with
    | true => right; simp
    | false => simpa using ih (i + 1)

theorem test_setFinished (note : SusDrawableNoteData) :
    note.setFinished.OnTheFlyData.test NoteAttribute.Finished = true := by
  simp [SusDrawableNoteData.setFinished, Bitset.set, Bitset.test]

theorem test_resetFinished (note : SusDrawableNoteData) :
    note.resetFinished.OnTheFlyData.test NoteAttribute.Finished = false := by
  simp [SusDrawableNoteData.resetFinished, Bitset.reset, Bitset.test]

theorem jthJC_le_jthJ : jthJC ≤ jthJ :=
  roundDouble_mono (by norm_num)

/-- What a judgment does to the note and the counters, by tier. -/
theorem judgeHit_spec (reltime : ℚ) (Status : PlayStatus) (note : SusDrawableNoteData) :
    (judgeHit reltime Status note).1 = note.setFinished
    ∧ (judgeHit reltime Status note).2.Combo = Status.Combo + 1
    ∧ (judgeHit reltime Status note).2.Miss = Status.Miss
    ∧ (judgeHit reltime Status note).2.AllNotes = Status.AllNotes
    ∧ (|reltime| ≤ jthJC →
        (judgeHit reltime Status note).2.JusticeCritical = Status.JusticeCritical + 1
        ∧ (judgeHit reltime Status note).2.Justice = Status.Justice
        ∧ (judgeHit reltime Status note).2.Attack = Status.Attack
        ∧ (judgeHit reltime Status note).2.CurrentGauge
            = dadd Status.CurrentGauge (ddiv Status.GaugeDefaultMax (toDouble Status.AllNotes)))
    ∧ (jthJC < |reltime| → |reltime| ≤ jthJ →
        (judgeHit reltime Status note).2.JusticeCritical = Status.JusticeCritical
        ∧ (judgeHit reltime Status note).2.Justice = Status.Justice + 1
        ∧ (judgeHit reltime Status note).2.Attack = Status.Attack
        ∧ (judgeHit reltime Status note).2.CurrentGauge
            = dadd Status.CurrentGauge
                (ddiv (ddiv Status.GaugeDefaultMax (toDouble Status.AllNotes))
                  (roundDouble 1.01)))
    ∧ (jthJ < |reltime| →
        (judgeHit reltime Status note).2.JusticeCritical = Status.JusticeCritical
        ∧ (judgeHit reltime Status note).2.Justice = Status.Justice
        ∧ (judgeHit reltime Status note).2.Attack = Status.Attack + 1
        ∧ (judgeHit reltime Status note).2.CurrentGauge
            = dadd Status.CurrentGauge
                (dmul (ddiv (ddiv Status.GaugeDefaultMax (toDouble Status.AllNotes))
                  (roundDouble 1.01)) (1 / 2))) := by
  unfold judgeHit
  simp only []
  by_cases h1 : |reltime| ≤ jthJC
  · rw [if_pos h1]
    refine ⟨rfl, rfl, rfl, rfl, fun _ => ⟨rfl, rfl, rfl, rfl⟩, ?_, ?_⟩
    · intro h; exact absurd h1 (not_le.mpr h)
    · intro h
      exact absurd (lt_of_lt_of_le h h1) (not_lt.mpr jthJC_le_jthJ)
  · rw [if_neg h1]
    by_cases h2 : |reltime| ≤ jthJ
    · rw [if_pos h2]
      refine ⟨rfl, rfl, rfl, rfl, fun h => absurd h h1, fun _ _ => ⟨rfl, rfl, rfl, rfl⟩, ?_⟩
      intro h; exact absurd h2 (not_le.mpr h)
    · rw [if_neg h2]
      exact ⟨rfl, rfl, rfl, rfl, fun h => absurd h h1, fun _ h => absurd h h2,
        fun _ => ⟨rfl, rfl, rfl, rfl⟩⟩

/-- `CheckJudgement` in the cases without judgment. -/
theorem CheckJudgement_eq_noop (p : PlayableProcessor) (note : SusDrawableNoteData)
    (h : note.OnTheFlyData.test NoteAttribute.Finished = true
      ∨ p.reltime note < -jthA
      ∨ (p.reltime note ≤ jthA
          ∧ ∀ i, note.StartLane ≤ i → i < note.StartLane + note.Length →
              p.CurrentState.GetTriggerState ControllerSource.IntegratedSliders i = false)) :
    p.CheckJudgement note = (false, note, p) := by
  unfold PlayableProcessor.CheckJudgement
  simp only []
  by_cases hfin : note.OnTheFlyData.test NoteAttribute.Finished = true
  · rw [if_pos hfin]
  · rw [if_neg hfin]
    by_cases hearly : p.reltime note < -jthA
    · rw [if_pos hearly]
    · rw [if_neg hearly]
      rcases h with h | h | ⟨hhi, hno⟩
      · exact absurd h hfin
      · exact absurd h hearly
      · rw [if_neg (not_lt.mpr hhi)]
        rw [judgeLanes_none _ _ _ _ _ _ (fun j h1 h2 => hno j h1 (by
          have := Int.self_le_toNat note.Length
          omega))]

/-- The three outcomes of `CheckJudgement`. -/
theorem CheckJudgement_cases (p : PlayableProcessor) (note : SusDrawableNoteData) :
    p.CheckJudgement note = (false, note, p)
    ∨ p.CheckJudgement note
        = (false, note.setFinished,
           { p with Status := { p.Status with Miss := p.Status.Miss + 1, Combo := 0 } })
    ∨ p.CheckJudgement note
        = (true,
           (judgeHit (p.reltime note) p.Status note).1,
           { p with Status :=
              (judgeHit (p.reltime note) p.Status note).2 }) := by
  unfold PlayableProcessor.CheckJudgement
  simp only []
  by_cases hfin : note.OnTheFlyData.test NoteAttribute.Finished = true
  · rw [if_pos hfin]; exact Or.inl rfl
  · rw [if_neg hfin]
    by_cases hearly : p.reltime note < -jthA
    · rw [if_pos hearly]; exact Or.inl rfl
    · rw [if_neg hearly]
      by_cases hlate : p.reltime note > jthA
      · rw [if_pos hlate]; exact Or.inr (Or.inl rfl)
      · rw [if_neg hlate]
        rcases judgeLanes_cases
          (p.CurrentState.GetTriggerState ControllerSource.IntegratedSliders)
          (p.reltime note) p.Status note
          note.Length.toNat note.StartLane with h | h
        · rw [h]; exact Or.inl rfl
        · rw [h]; exact Or.inr (Or.inr rfl)

theorem seekExtra_ExtraData (newTime relative : ℚ) (note extra : SusDrawableNoteData) :
    (seekExtra newTime relative note extra).ExtraData = note.ExtraData := by
  unfold seekExtra
  repeat' split
  all_goals rfl

theorem foldl_seekExtra_ExtraData (newTime relative : ℚ) (l : List SusDrawableNoteData) :
    ∀ note : SusDrawableNoteData,
      (l.foldl (seekExtra newTime relative) note).ExtraData = note.ExtraData := by
  induction l with
  | nil => intro note; rfl
  | cons e l ih =>
    intro note
    rw [List.foldl_cons, ih, seekExtra_ExtraData]

/-- The seek never touches a child event: the list of child events of every note
is the same before and after. -/
theorem seekNote_ExtraData (newTime relative : ℚ) (note : SusDrawableNoteData) :
    (seekNote newTime relative note).ExtraData = note.ExtraData := by
  unfold seekNote
  split
  · simp only []
    rw [foldl_seekExtra_ExtraData]
    split <;> rfl
  · repeat' split
    all_goals rfl

theorem getElem?_map_seekNote (newTime relative : ℚ) (data : List SusDrawableNoteData)
    (i : ℕ) (note : SusDrawableNoteData) (h : data[i]? = some note) :
    (data.map (seekNote newTime relative))[i]? = some (seekNote newTime relative note) := by
  rw [List.getElem?_map, h]
  rfl

/-! ## Lemmas on `Reset` -/

theorem resetExtras_eq (l : List SusDrawableNoteData) :
    ∀ n : ℕ, resetExtras l n
      = n + (l.filter (fun ex =>
          ex.NoteType.test SusNoteType.End || ex.NoteType.test SusNoteType.Step
            || ex.NoteType.test SusNoteType.ExTap)).length := by
  induction l with
  | nil => intro n; rfl
  | cons ex rest ih =>
    intro n
    unfold resetExtras
    by_cases h : (ex.NoteType.test SusNoteType.End || ex.NoteType.test SusNoteType.Step
            || ex.NoteType.test SusNoteType.ExTap) = true
    · rw [if_pos h, ih]
      simp only [List.filter_cons, h, if_true, List.length_cons]
      omega
    · rw [if_neg h, ih]
      simp only [List.filter_cons, h, if_false]
      rfl

theorem totalUnits_cons (m : NoteMasks) (note : SusDrawableNoteData)
    (rest : List SusDrawableNoteData) :
    totalUnits m (note :: rest) = noteUnits m note + totalUnits m rest := by
  simp [totalUnits]

theorem resetNotes_eq (m : NoteMasks) (l : List SusDrawableNoteData) :
    ∀ n : ℕ, resetNotes m l n = n + totalUnits m l := by
  induction l with
  | nil => intro n; rfl
  | cons note rest ih =>
    intro n
    rw [totalUnits_cons]
    unfold resetNotes noteUnits
    by_cases hl : m.SU_NOTE_LONG_MASK note.NoteType = true
    · rw [if_pos hl, if_pos hl]
      simp only []
      rw [ih, resetExtras_eq]
      by_cases ha : note.NoteType.test SusNoteType.AirAction = true
      · simp only [ha, Bool.not_true, if_true]
        simp
        omega
      · simp only [ha, Bool.not_false, if_true, if_false]
        simp
        omega
    · rw [if_neg hl, if_neg hl]
      by_cases hs : m.SU_NOTE_SHORT_MASK note.NoteType = true
      · rw [if_pos hs, if_pos hs, ih]
        omega
      · rw [if_neg hs, if_neg hs, ih]
        omega

/-! ## Lemmas on judging: Finished flags -/

theorem flagKept_refl (e : SusDrawableNoteData) : flagKept e e := fun h => h

theorem flagKept_setFinished (e : SusDrawableNoteData) : flagKept e e.setFinished :=
  fun _ => test_setFinished e

theorem flagKept_trans {a b c : SusDrawableNoteData} (h1 : flagKept a b) (h2 : flagKept b c) :
    flagKept a c := fun h => h2 (h1 h)

theorem forall₂_flagKept_refl (l : List SusDrawableNoteData) : List.Forall₂ flagKept l l := by
  induction l with
  | nil => exact List.Forall₂.nil
  | cons e l ih => exact List.Forall₂.cons (flagKept_refl e) ih

theorem keepsFinished_refl (n : SusDrawableNoteData) : keepsFinished n n :=
  ⟨flagKept_refl n, forall₂_flagKept_refl _⟩

theorem keepsFinished_setFinished (n : SusDrawableNoteData) : keepsFinished n n.setFinished :=
  ⟨flagKept_setFinished n, forall₂_flagKept_refl _⟩

theorem forall₂_keepsFinished_refl (l : List SusDrawableNoteData) :
    List.Forall₂ keepsFinished l l := by
  induction l with
  | nil => exact List.Forall₂.nil
  | cons e l ih => exact List.Forall₂.cons (keepsFinished_refl e) ih

theorem holdExtras_flagKept (note : SusDrawableNoteData) (l : List SusDrawableNoteData) :
    ∀ c : ScoreCore, List.Forall₂ flagKept l (holdExtras note l c).2 := by
  induction l with
  | nil => intro c; exact List.Forall₂.nil
  | cons e l ih =>
    intro c
    unfold holdExtras
    simp only []
    split_ifs
    all_goals first
      | exact List.Forall₂.cons (flagKept_refl e) (ih _)
      | exact List.Forall₂.cons (flagKept_setFinished e) (forall₂_flagKept_refl l)

theorem slideExtras_flagKept (l : List SusDrawableNoteData) :
    ∀ c : ScoreCore, List.Forall₂ flagKept l (slideExtras l c).2 := by
  induction l with
  | nil => intro c; exact List.Forall₂.nil
  | cons e l ih =>
    intro c
    unfold slideExtras
    simp only []
    split_ifs
    all_goals first
      | exact List.Forall₂.cons (flagKept_refl e) (ih _)
      | exact List.Forall₂.cons (flagKept_setFinished e) (forall₂_flagKept_refl l)

theorem airActionExtras_flagKept (l : List SusDrawableNoteData) :
    ∀ c : ScoreCore, List.Forall₂ flagKept l (airActionExtras l c).2 := by
  induction l with
  | nil => intro c; exact List.Forall₂.nil
  | cons e l ih =>
    intro c
    unfold airActionExtras
    simp only []
    split_ifs
    all_goals first
      | exact List.Forall₂.cons (flagKept_refl e) (ih _)
      | exact List.Forall₂.cons (flagKept_setFinished e) (forall₂_flagKept_refl l)
      | exact List.Forall₂.cons (flagKept_setFinished e) (ih _)

theorem processHold_keepsFinished (c : ScoreCore) (note : SusDrawableNoteData) :
    keepsFinished note (processHold c note).2 := by
  unfold processHold
  simp only []
  split_ifs
  · exact ⟨flagKept_setFinished note, holdExtras_flagKept _ _ _⟩
  · exact ⟨flagKept_refl note, holdExtras_flagKept _ _ _⟩

theorem processSlide_keepsFinished (c : ScoreCore) (note : SusDrawableNoteData) :
    keepsFinished note (processSlide c note).2 := by
  unfold processSlide
  simp only []
  split_ifs
  · exact keepsFinished_setFinished note
  · exact ⟨flagKept_refl note, slideExtras_flagKept _ _⟩

theorem processAirAction_keepsFinished (c : ScoreCore) (note : SusDrawableNoteData) :
    keepsFinished note (processAirAction c note).2 :=
  ⟨flagKept_refl note, airActionExtras_flagKept _ _⟩

theorem processAir_keepsFinished (c : ScoreCore) (note : SusDrawableNoteData) :
    keepsFinished note (processAir c note).2 :=
  keepsFinished_setFinished note

theorem CheckJudgement_keepsFinished (p : PlayableProcessor) (note : SusDrawableNoteData) :
    keepsFinished note (p.CheckJudgement note).2.1 := by
  rcases CheckJudgement_cases p note with h | h | h
  · rw [h]; exact keepsFinished_refl note
  · rw [h]; exact keepsFinished_setFinished note
  · rw [h]
    show keepsFinished note (judgeHit _ p.Status note).1
    rw [(judgeHit_spec _ p.Status note).1]
    exact keepsFinished_setFinished note

theorem autoProcessScore_keepsFinished (p : AutoPlayerProcessor)
    (note : SusDrawableNoteData) : keepsFinished note (p.ProcessScore note).2 := by
  unfold AutoPlayerProcessor.ProcessScore
  simp only []
  split_ifs
  all_goals first
    | exact keepsFinished_refl note
    | exact keepsFinished_setFinished note
    | exact processHold_keepsFinished _ note
    | exact processSlide_keepsFinished _ note
    | exact processAirAction_keepsFinished _ note

theorem playableProcessScore_keepsFinished (p : PlayableProcessor)
    (note : SusDrawableNoteData) : keepsFinished note (p.ProcessScore note).2 := by
  unfold PlayableProcessor.ProcessScore
  simp only []
  split_ifs
  all_goals first
    | exact keepsFinished_refl note
    | exact processHold_keepsFinished _ note
    | exact processSlide_keepsFinished _ note
    | exact processAirAction_keepsFinished _ note
    | exact processAir_keepsFinished p.core note
    | exact CheckJudgement_keepsFinished p note

theorem autoUpdateLoop_keepsFinished (notes : List SusDrawableNoteData) :
    ∀ (p : AutoPlayerProcessor) (a b : Bool),
      List.Forall₂ keepsFinished notes (AutoPlayerProcessor.updateLoop notes p a b).2.2.2 := by
  induction notes with
  | nil => intro p a b; exact List.Forall₂.nil
  | cons n rest ih =>
    intro p a b
    unfold AutoPlayerProcessor.updateLoop
    exact List.Forall₂.cons (autoProcessScore_keepsFinished p n) (ih _ _ _)

theorem playableUpdateLoop_keepsFinished (notes : List SusDrawableNoteData) :
    ∀ (p : PlayableProcessor) (a b : Bool),
      List.Forall₂ keepsFinished notes (PlayableProcessor.updateLoop notes p a b).2.2.2 := by
  induction notes with
  | nil => intro p a b; exact List.Forall₂.nil
  | cons n rest ih =>
    intro p a b
    unfold PlayableProcessor.updateLoop
    exact List.Forall₂.cons (playableProcessScore_keepsFinished p n) (ih _ _ _)

theorem seekExtra_forward_flagKept (newTime relative : ℚ) (hrel : relative ≥ 0)
    (note extra : SusDrawableNoteData) : flagKept note (seekExtra newTime relative note extra) := by
  unfold seekExtra
  split_ifs
  all_goals first
    | exact flagKept_refl note
    | exact flagKept_setFinished note

theorem foldl_seekExtra_forward_flagKept (newTime relative : ℚ) (hrel : relative ≥ 0)
    (l : List SusDrawableNoteData) :
    ∀ note : SusDrawableNoteData,
      flagKept note (l.foldl (seekExtra newTime relative) note) := by
  induction l with
  | nil => intro note; exact flagKept_refl note
  | cons e l ih =>
    intro note
    rw [List.foldl_cons]
    exact flagKept_trans (seekExtra_forward_flagKept newTime relative hrel note e) (ih _)

theorem seekNote_forward_keepsFinished (newTime relative : ℚ) (hrel : relative ≥ 0)
    (note : SusDrawableNoteData) : keepsFinished note (seekNote newTime relative note) := by
  refine ⟨?_, ?_⟩
  · unfold seekNote
    simp only []
    split_ifs
    all_goals first
      | exact flagKept_refl note
      | exact flagKept_setFinished note
      | exact foldl_seekExtra_forward_flagKept newTime relative hrel _ note
      | exact flagKept_trans (flagKept_setFinished note)
          (foldl_seekExtra_forward_flagKept newTime relative hrel _ _)
  · rw [seekNote_ExtraData]
    exact forall₂_flagKept_refl _

theorem map_seekNote_forward_keepsFinished (newTime relative : ℚ) (hrel : relative ≥ 0)
    (data : List SusDrawableNoteData) :
    List.Forall₂ keepsFinished data (data.map (seekNote newTime relative)) := by
  induction data with
  | nil => exact List.Forall₂.nil
  | cons n rest ih =>
    exact List.Forall₂.cons (seekNote_forward_keepsFinished newTime relative hrel n) ih

/-! ## Lemmas on judging: Miss and Combo -/

theorem comboGrows_refl (s : PlayStatus) : comboGrows s s := ⟨rfl, le_refl _⟩

theorem comboGrows_trans {a b c : PlayStatus} (h1 : comboGrows a b) (h2 : comboGrows b c) :
    comboGrows a c := ⟨h2.1.trans h1.1, le_trans h1.2 h2.2⟩

theorem comboGrows_incr (c : ScoreCore) : comboGrows c.Status c.IncrementCombo.Status :=
  ⟨rfl, Nat.le_succ _⟩

theorem holdExtras_comboGrows (note : SusDrawableNoteData) (l : List SusDrawableNoteData) :
    ∀ c : ScoreCore, comboGrows c.Status (holdExtras note l c).1.Status := by
  induction l with
  | nil => intro c; exact comboGrows_refl _
  | cons e l ih =>
    intro c
    unfold holdExtras
    simp only []
    split_ifs
    all_goals first
      | exact ih c
      | exact ih { c with isInHold := false }
      | exact comboGrows_incr c

theorem slideExtras_comboGrows (l : List SusDrawableNoteData) :
    ∀ c : ScoreCore, comboGrows c.Status (slideExtras l c).1.Status := by
  induction l with
  | nil => intro c; exact comboGrows_refl _
  | cons e l ih =>
    intro c
    unfold slideExtras
    simp only []
    split_ifs
    all_goals first
      | exact ih c
      | exact ih { c with isInSlide := false }
      | exact comboGrows_incr c

theorem airActionExtras_comboGrows (l : List SusDrawableNoteData) :
    ∀ c : ScoreCore, comboGrows c.Status (airActionExtras l c).1.Status := by
  induction l with
  | nil => intro c; exact comboGrows_refl _
  | cons e l ih =>
    intro c
    unfold airActionExtras
    simp only []
    split_ifs
    all_goals first
      | exact ih c
      | exact comboGrows_incr c
      | exact comboGrows_trans (comboGrows_incr c) (ih _)

theorem processHold_comboGrows (c : ScoreCore) (note : SusDrawableNoteData) :
    comboGrows c.Status (processHold c note).1.Status := by
  unfold processHold
  simp only []
  split_ifs
  · exact comboGrows_trans (comboGrows_incr c) (holdExtras_comboGrows _ _ _)
  · exact holdExtras_comboGrows _ _ { c with isInHold := true }

theorem processSlide_comboGrows (c : ScoreCore) (note : SusDrawableNoteData) :
    comboGrows c.Status (processSlide c note).1.Status := by
  unfold processSlide
  simp only []
  split_ifs
  · exact comboGrows_incr c
  · exact slideExtras_comboGrows _ { c with isInSlide := true }

theorem processAirAction_comboGrows (c : ScoreCore) (note : SusDrawableNoteData) :
    comboGrows c.Status (processAirAction c note).1.Status :=
  airActionExtras_comboGrows _ c

theorem processAir_comboGrows (c : ScoreCore) (note : SusDrawableNoteData) :
    comboGrows c.Status (processAir c note).1.Status :=
  comboGrows_incr c

theorem AutoPlayerProcessor.ProcessScore_comboGrows (p : AutoPlayerProcessor)
    (note : SusDrawableNoteData) : comboGrows p.Status (p.ProcessScore note).1.Status := by
  unfold AutoPlayerProcessor.ProcessScore
  simp only []
  split_ifs
  all_goals first
    | exact comboGrows_refl _
    | exact processHold_comboGrows p.core note
    | exact processSlide_comboGrows p.core note
    | exact processAirAction_comboGrows p.core note
    | exact comboGrows_incr p.core

theorem AutoPlayerProcessor.updateLoop_comboGrows (notes : List SusDrawableNoteData) :
    ∀ (p : AutoPlayerProcessor) (a b : Bool),
      comboGrows p.Status (AutoPlayerProcessor.updateLoop notes p a b).1.Status := by
  induction notes with
  | nil => intro p a b; exact comboGrows_refl _
  | cons n rest ih =>
    intro p a b
    unfold AutoPlayerProcessor.updateLoop
    exact comboGrows_trans (AutoPlayerProcessor.ProcessScore_comboGrows p n) (ih _ _ _)

/-- On a note whose type includes hold, slide, air-action or air the human-input
`ProcessScore` runs one of the shared branches or returns at once. -/
theorem PlayableProcessor.ProcessScore_long_comboGrows (p : PlayableProcessor)
    (note : SusDrawableNoteData)
    (hlong : note.NoteType.test SusNoteType.Hold = true
      ∨ note.NoteType.test SusNoteType.Slide = true
      ∨ note.NoteType.test SusNoteType.AirAction = true
      ∨ note.NoteType.test SusNoteType.Air = true) :
    comboGrows p.Status (p.ProcessScore note).1.Status := by
  unfold PlayableProcessor.ProcessScore
  simp only []
  split_ifs
  all_goals first
    | exact comboGrows_refl _
    | exact processHold_comboGrows p.core note
    | exact processSlide_comboGrows p.core note
    | exact processAirAction_comboGrows p.core note
    | exact comboGrows_incr p.core
    | (exfalso; rcases hlong with h | h | h | h <;> contradiction)

theorem CheckJudgement_miss_le (p : PlayableProcessor) (note : SusDrawableNoteData) :
    p.Status.Miss ≤ (p.CheckJudgement note).2.2.Status.Miss
    ∧ (p.CheckJudgement note).2.2.Status.Miss ≤ p.Status.Miss + 1 := by
  rcases CheckJudgement_cases p note with h | h | h
  · rw [h]; exact ⟨le_refl _, Nat.le_succ _⟩
  · rw [h]; exact ⟨Nat.le_succ _, le_refl _⟩
  · rw [h]
    show _ ≤ (judgeHit _ p.Status note).2.Miss ∧ (judgeHit _ p.Status note).2.Miss ≤ _
    rw [(judgeHit_spec _ p.Status note).2.2.1]
    exact ⟨le_refl _, Nat.le_succ _⟩

theorem PlayableProcessor.ProcessScore_miss_le (p : PlayableProcessor)
    (note : SusDrawableNoteData) :
    p.Status.Miss ≤ (p.ProcessScore note).1.Status.Miss
    ∧ (p.ProcessScore note).1.Status.Miss ≤ p.Status.Miss + 1 := by
  have hc : ∀ c : ScoreCore, comboGrows p.Status c.Status →
      p.Status.Miss ≤ c.Status.Miss ∧ c.Status.Miss ≤ p.Status.Miss + 1 := by
    intro c h
    rw [h.1]
    exact ⟨le_refl _, Nat.le_succ _⟩
  unfold PlayableProcessor.ProcessScore
  simp only []
  split_ifs
  all_goals first
    | exact ⟨le_refl _, Nat.le_succ _⟩
    | exact hc _ (processHold_comboGrows p.core note)
    | exact hc _ (processSlide_comboGrows p.core note)
    | exact hc _ (processAirAction_comboGrows p.core note)
    | exact hc _ (comboGrows_incr p.core)
    | exact CheckJudgement_miss_le p note

/-! ## Lemmas on the scheduler -/

theorem countDown_waiting (w : CoroutineWait) (delta : ℚ) :
    (w.countDown delta).2 = !w.due delta := by
  cases w with
  | Frame frames =>
    simp only [CoroutineWait.countDown, CoroutineWait.due]
    by_cases h : frames ≤ 1
    · have : ¬ frames - 1 > 0 := by omega
      simp [h, this]
    · have : frames - 1 > 0 := by omega
      simp [h, this]
  | Time time =>
    simp only [CoroutineWait.countDown, CoroutineWait.due]
    by_cases h : time ≤ delta
    · have : ¬ dsub time delta > 0 := by
        rw [gt_iff_lt, dsub_pos_iff]
        exact not_lt.mpr h
      simp [h, this]
    · have : dsub time delta > 0 := by
        rw [gt_iff_lt, dsub_pos_iff]
        exact not_le.mp h
      simp [h, this]

theorem resumedContexts_append (a b : List SceneCall) :
    resumedContexts (a ++ b) = resumedContexts a ++ resumedContexts b := by
  induction a with
  | nil => rfl
  | cons x a ih =>
    cases x <;> simp [resumedContexts, ih]

theorem releaseCalls_append (a b : List SceneCall) :
    releaseCalls (a ++ b) = releaseCalls a ++ releaseCalls b := by
  induction a with
  | nil => rfl
  | cons x a ih =>
    cases x <;> simp [releaseCalls, ih]

/-- The loop over the sub-coroutines, entry by entry. -/
theorem tickCoroutines_cons (script : TickScript) (delta : ℚ) (c : Coroutine)
    (rest : List Coroutine) :
    tickCoroutines script delta (c :: rest)
      = if c.wait.due delta then
          if script.coroutineResult c.context ≠ ExecutionResult.asEXECUTION_SUSPENDED then
            ((tickCoroutines script delta rest).1,
              [SceneCall.Execute c.context] ++ c.releases
                ++ (tickCoroutines script delta rest).2)
          else
            (c :: (tickCoroutines script delta rest).1,
              SceneCall.Execute c.context :: (tickCoroutines script delta rest).2)
        else (c :: (tickCoroutines script delta rest).1, (tickCoroutines script delta rest).2) := by
  conv_lhs => unfold tickCoroutines
  simp only [countDown_waiting]
  cases hd : c.wait.due delta
  · simp
  · by_cases hr : script.coroutineResult c.context = ExecutionResult.asEXECUTION_SUSPENDED
    · simp [hr]
    · simp [hr, Coroutine.releases]

theorem tickCoroutines_kept (script : TickScript) (delta : ℚ) (l : List Coroutine) :
    (tickCoroutines script delta l).1 = l.filter (fun c => !c.completes script delta) := by
  induction l with
  | nil => rfl
  | cons c rest ih =>
    rw [tickCoroutines_cons]
    cases hd : c.wait.due delta
    · simp [Coroutine.completes, hd, ih]
    · by_cases hr : script.coroutineResult c.context = ExecutionResult.asEXECUTION_SUSPENDED
      · simp [Coroutine.completes, hd, hr, ih]
      · simp [Coroutine.completes, hd, hr, ih]

theorem tickCoroutines_resumed (script : TickScript) (delta : ℚ) (l : List Coroutine) :
    resumedContexts (tickCoroutines script delta l).2
      = (l.filter (fun c => c.wait.due delta)).map (fun c => c.context) := by
  induction l with
  | nil => rfl
  | cons c rest ih =>
    rw [tickCoroutines_cons]
    cases hd : c.wait.due delta
    · simp [ih, List.filter_cons, hd]
    · by_cases hr : script.coroutineResult c.context = ExecutionResult.asEXECUTION_SUSPENDED
      · simp [hr, ih, resumedContexts, List.filter_cons, hd]
      · simp [hr, ih, resumedContexts, Coroutine.releases, resumedContexts_append,
          List.filter_cons, hd]

theorem tickCoroutines_releases (script : TickScript) (delta : ℚ) (l : List Coroutine) :
    releaseCalls (tickCoroutines script delta l).2
      = ((l.filter (fun c => c.completes script delta)).map Coroutine.releases).flatten := by
  induction l with
  | nil => rfl
  | cons c rest ih =>
    rw [tickCoroutines_cons]
    cases hd : c.wait.due delta
    · simp [Coroutine.completes, hd, ih]
    · by_cases hr : script.coroutineResult c.context = ExecutionResult.asEXECUTION_SUSPENDED
      · simp [Coroutine.completes, hd, hr, ih, releaseCalls]
      · simp [Coroutine.completes, hd, hr, ih, releaseCalls, Coroutine.releases,
          releaseCalls_append]

/-- `Tick` when the main routine is due. -/
theorem Tick_of_due (s : ScriptCoroutineScene) (delta : ℚ) (script : TickScript)
    (h : s.wait.due delta = true) :
    s.Tick delta script
      = { runningContext := s.runningContext
          wait := script.mainWait.getD (s.wait.countDown delta).1
          coroutines := (tickCoroutines script delta s.coroutines).1 ++ script.mainSpawned
          finished := if script.mainResult ≠ ExecutionResult.asEXECUTION_SUSPENDED then true
            else s.finished
          calls := s.callsBeforeMain delta script ++ [SceneCall.Execute s.runningContext] } := by
  unfold ScriptCoroutineScene.Tick tickMain ScriptCoroutineScene.callsBeforeMain
  simp only [countDown_waiting, h, Bool.not_true, Bool.false_eq_true, if_false]
  split_ifs <;> simp

/-- `Tick` when the main routine still waits. -/
theorem Tick_of_not_due (s : ScriptCoroutineScene) (delta : ℚ) (script : TickScript)
    (h : s.wait.due delta = false) :
    s.Tick delta script
      = { runningContext := s.runningContext
          wait := (s.wait.countDown delta).1
          coroutines := (tickCoroutines script delta s.coroutines).1
          finished := s.finished
          calls := s.callsBeforeMain delta script } := by
  unfold ScriptCoroutineScene.Tick tickMain ScriptCoroutineScene.callsBeforeMain
  simp only [countDown_waiting, h, Bool.not_false, if_true]

theorem mainResumed_iff (s : ScriptCoroutineScene) (delta : ℚ) (script : TickScript) :
    s.mainResumed delta script ↔ s.wait.due delta = true := by
  unfold ScriptCoroutineScene.mainResumed
  cases h : s.wait.due delta
  · rw [Tick_of_not_due s delta script h]
    simp
  · rw [Tick_of_due s delta script h]
    simp

theorem mainSkipped_iff (s : ScriptCoroutineScene) (delta : ℚ) (script : TickScript) :
    s.mainSkipped delta script ↔ s.wait.due delta = false := by
  unfold ScriptCoroutineScene.mainSkipped
  cases h : s.wait.due delta
  · rw [Tick_of_not_due s delta script h]
    simp
  · rw [Tick_of_due s delta script h]
    simp

theorem ticks_wait_frames (ts : List (ℚ × TickScript)) :
    ∀ (s : ScriptCoroutineScene) (N : ℤ), s.wait = CoroutineWait.Frame N →
      (ts.length : ℤ) < N → (s.ticks ts).wait = CoroutineWait.Frame (N - ts.length) := by
  induction ts with
  | nil =>
    intro s N hw _
    simp [ScriptCoroutineScene.ticks, hw]
  | cons t rest ih =>
    intro s N hw hlen
    rw [List.length_cons] at hlen
    push_cast at hlen
    have hd : s.wait.due t.1 = false := by
      rw [hw]
      simp only [CoroutineWait.due, decide_eq_false_iff_not]
      omega
    have hstep : (s.Tick t.1 t.2).wait = CoroutineWait.Frame (N - 1) := by
      rw [Tick_of_not_due _ _ _ hd, hw]
      rfl
    unfold ScriptCoroutineScene.ticks
    rw [ih (s.Tick t.1 t.2) (N - 1) hstep (by omega), List.length_cons]
    push_cast
    congr 1
    ring

theorem ticks_wait_time (ts : List (ℚ × TickScript)) :
    ∀ (s : ScriptCoroutineScene) (T : ℚ), s.wait = CoroutineWait.Time T →
      (∀ k, 0 < k → k ≤ ts.length → 0 < storedTime T ((ts.take k).map Prod.fst)) →
      (s.ticks ts).wait = CoroutineWait.Time (storedTime T (ts.map Prod.fst)) := by
  induction ts with
  | nil =>
    intro s T hw _
    simp [ScriptCoroutineScene.ticks, storedTime, hw]
  | cons t rest ih =>
    intro s T hw hpos
    have h1 : t.1 < T := by
      have := hpos 1 Nat.one_pos (by simp)
      simp only [List.take_succ_cons, List.take_zero, List.map_cons, List.map_nil,
        storedTime] at this
      exact (dsub_pos_iff _ _).mp this
    have hd : s.wait.due t.1 = false := by
      rw [hw]
      simp only [CoroutineWait.due, decide_eq_false_iff_not]
      exact not_le.mpr h1
    have hstep : (s.Tick t.1 t.2).wait = CoroutineWait.Time (dsub T t.1) := by
      rw [Tick_of_not_due _ _ _ hd, hw]
      rfl
    unfold ScriptCoroutineScene.ticks
    rw [ih (s.Tick t.1 t.2) (dsub T t.1) hstep ?_]
    · simp only [List.map_cons, storedTime]
    · intro k hk hle
      have := hpos (k + 1) (Nat.succ_pos k) (by simp; omega)
      simp only [List.take_succ_cons, List.map_cons, storedTime] at this
      exact this

theorem ticks_finished (ts : List (ℚ × TickScript)) :
    ∀ s : ScriptCoroutineScene, s.finished = true → (s.ticks ts).finished = true := by
  induction ts with
  | nil => intro s h; exact h
  | cons t rest ih =>
    intro s h
    unfold ScriptCoroutineScene.ticks
    apply ih
    cases hd : s.wait.due t.1
    · rw [Tick_of_not_due _ _ _ hd]
      exact h
    · rw [Tick_of_due _ _ _ hd]
      simp only [h]
      split_ifs <;> rfl

/-! ## Lemmas on the score bound -/

theorem scoreExact_le_perfect (s : PlayStatus) (hN : 0 < s.AllNotes)
    (hsum : s.JusticeCritical + s.Justice + s.Attack ≤ s.AllNotes) :
    scoreExact s ≤ 1010000 := by
  unfold scoreExact
  have qN : (0 : ℚ) < s.AllNotes := by exact_mod_cast hN
  have qs : (s.JusticeCritical : ℚ) + s.Justice + s.Attack ≤ s.AllNotes := by
    exact_mod_cast hsum
  have q1 : (0 : ℚ) ≤ s.JusticeCritical := Nat.cast_nonneg _
  have q2 : (0 : ℚ) ≤ s.Justice := Nat.cast_nonneg _
  have q3 : (0 : ℚ) ≤ s.Attack := Nat.cast_nonneg _
  rw [div_le_iff₀ qN]
  norm_num
  nlinarith

theorem scoreExact_perfect (s : PlayStatus) (hN : 0 < s.AllNotes)
    (hsum : s.JusticeCritical + s.Justice + s.Attack ≤ s.AllNotes)
    (hall : s.JusticeCritical = s.AllNotes) : scoreExact s = 1010000 := by
  have hJ : s.Justice = 0 := by omega
  have hA : s.Attack = 0 := by omega
  unfold scoreExact
  rw [hJ, hA, hall]
  have qN : (s.AllNotes : ℚ) ≠ 0 := by
    have : 0 < (s.AllNotes : ℚ) := by exact_mod_cast hN
    exact ne_of_gt this
  field_simp
  norm_num
  ring

theorem cround_scoreResult_le (s : PlayStatus) (hN : 0 < s.AllNotes)
    (hsum : s.JusticeCritical + s.Justice + s.Attack ≤ s.AllNotes) :
    cround s.scoreResult ≤ 1010000 := by
  obtain ⟨h0, _, h2⟩ := scoreResult_bounds s hN
  have hE := scoreExact_le_perfect s hN hsum
  have hd0 : (0 : ℚ) < 2 ^ (-49 : ℤ) := by positivity
  have hd1 : (2 : ℚ) ^ (-49 : ℤ) ≤ 1 / 2 := by norm_num
  have hd2 : (2 : ℚ) * 1010000 * 2 ^ (-49 : ℤ) < 1 / 2 := by norm_num
  have hlt : s.scoreResult < 1010000 + 1 / 2 := by
    generalize (2 : ℚ) ^ (-49 : ℤ) = d at *
    have hS : s.scoreResult ≤ 2 * scoreExact s := by nlinarith
    nlinarith
  unfold cround
  rw [if_pos h0]
  have : ⌊s.scoreResult + 1 / 2⌋ < 1010000 + 1 := by
    rw [Int.floor_lt]
    push_cast
    linarith
  omega

theorem scoreFormula_le_perfect (s : PlayStatus) (hN : 0 < s.AllNotes)
    (hsum : s.JusticeCritical + s.Justice + s.Attack ≤ s.AllNotes) :
    scoreFormula s ≤ 1010000 := by
  have hx := scoreExact_le_perfect s hN hsum
  unfold scoreFormula
  rw [round_eq]
  have hfl : ⌊scoreExact s + 1 / 2⌋ < 1010000 + 1 := by
    rw [Int.floor_lt]
    push_cast
    linarith
  omega

/-! ## Lemmas on judging: counters and Finished flags -/

theorem scoresBy_refl (s : PlayStatus) : scoresBy s s 0 :=
  ⟨le_refl _, le_refl _, le_refl _, le_refl _, rfl⟩

theorem scoresBy_trans {a b c : PlayStatus} {n m : ℕ} (h1 : scoresBy a b n)
    (h2 : scoresBy b c m) : scoresBy a c (n + m) := by
  obtain ⟨a1, a2, a3, a4, a5⟩ := h1
  obtain ⟨b1, b2, b3, b4, b5⟩ := h2
  exact ⟨le_trans a1 b1, le_trans a2 b2, le_trans a3 b3, le_trans a4 b4, by omega⟩

theorem scoresBy_incr (c : ScoreCore) : scoresBy c.Status c.IncrementCombo.Status 1 := by
  refine ⟨Nat.le_succ _, le_refl _, le_refl _, le_refl _, ?_⟩
  simp only [hitCount, ScoreCore.IncrementCombo]
  omega

theorem scoresBy_congr {a b : PlayStatus} {n m : ℕ} (h : scoresBy a b n) (e : n = m) :
    scoresBy a b m := e ▸ h

theorem newlySet_self (e : SusDrawableNoteData) : newlySet e e = 0 := by
  unfold newlySet
  cases e.OnTheFlyData.test NoteAttribute.Finished <;> rfl

theorem newlySetCount_self (l : List SusDrawableNoteData) : newlySetCount l l = 0 := by
  induction l with
  | nil => rfl
  | cons e l ih => simp [newlySetCount, newlySet_self, ih]

theorem newlySet_setFinished (e : SusDrawableNoteData)
    (h : e.OnTheFlyData.test NoteAttribute.Finished = false) : newlySet e e.setFinished = 1 := by
  unfold newlySet
  rw [h, test_setFinished]
  rfl

theorem newlySet_of_finished (b a : SusDrawableNoteData)
    (h : b.OnTheFlyData.test NoteAttribute.Finished = true) : newlySet b a = 0 := by
  unfold newlySet
  rw [h]
  rfl

theorem newlySetCount_of_finished (bs : List SusDrawableNoteData) :
    ∀ as : List SusDrawableNoteData,
      (∀ e ∈ bs, e.OnTheFlyData.test NoteAttribute.Finished = true) →
      newlySetCount bs as = 0 := by
  induction bs with
  | nil => intro as _; rfl
  | cons b bs ih =>
    intro as h
    cases as with
    | nil => rfl
    | cons a as =>
      simp only [newlySetCount]
      rw [newlySet_of_finished b a (h b (List.mem_cons_self _ _)),
        ih as (fun e he => h e (List.mem_cons_of_mem _ he))]

theorem holdExtras_scoresBy (note : SusDrawableNoteData) (l : List SusDrawableNoteData) :
    ∀ c : ScoreCore,
      scoresBy c.Status (holdExtras note l c).1.Status
        (newlySetCount l (holdExtras note l c).2) := by
  induction l with
  | nil => intro c; exact scoresBy_refl _
  | cons e l ih =>
    intro c
    unfold holdExtras
    simp only []
    split_ifs
    all_goals first
      | exact scoresBy_congr (ih c) (by simp [newlySetCount, newlySet_self])
      | exact scoresBy_congr (ih { c with isInHold := false })
          (by simp [newlySetCount, newlySet_self])
      | exact scoresBy_congr (scoresBy_incr c)
          (by simp [newlySetCount, newlySetCount_self, newlySet, test_setFinished, *])

theorem slideExtras_scoresBy (l : List SusDrawableNoteData) :
    ∀ c : ScoreCore,
      scoresBy c.Status (slideExtras l c).1.Status
        (newlySetCount l (slideExtras l c).2) := by
  induction l with
  | nil => intro c; exact scoresBy_refl _
  | cons e l ih =>
    intro c
    unfold slideExtras
    simp only []
    split_ifs
    all_goals first
      | exact scoresBy_congr (ih c) (by simp [newlySetCount, newlySet_self])
      | exact scoresBy_congr (ih { c with isInSlide := false })
          (by simp [newlySetCount, newlySet_self])
      | exact scoresBy_congr (scoresBy_incr c)
          (by simp [newlySetCount, newlySetCount_self, newlySet, test_setFinished, *])

theorem airActionExtras_scoresBy (l : List SusDrawableNoteData) :
    ∀ c : ScoreCore,
      scoresBy c.Status (airActionExtras l c).1.Status
        (newlySetCount l (airActionExtras l c).2) := by
  induction l with
  | nil => intro c; exact scoresBy_refl _
  | cons e l ih =>
    intro c
    unfold airActionExtras
    simp only []
    split_ifs
    all_goals first
      | exact scoresBy_congr (ih c) (by simp [newlySetCount, newlySet_self])
      | exact scoresBy_congr (scoresBy_incr c)
          (by simp [newlySetCount, newlySetCount_self, newlySet, test_setFinished, *])
      | exact scoresBy_congr
          (scoresBy_trans (scoresBy_incr c)
            (ih ((c.call PlayerCall.PlaySoundAirAction).call
              (PlayerCall.SpawnJudgeEffect e JudgeType.Action)).IncrementCombo))
          (by simp [newlySetCount, newlySet, test_setFinished, *])

theorem flagsSet_self (n : SusDrawableNoteData) : flagsSet n n = 0 := by
  simp [flagsSet, newlySet_self, newlySetCount_self]

theorem flagsSet_setFinished (n : SusDrawableNoteData)
    (h : n.OnTheFlyData.test NoteAttribute.Finished = false) : flagsSet n n.setFinished = 1 := by
  unfold flagsSet
  rw [newlySet_setFinished n h]
  show 1 + newlySetCount n.ExtraData n.ExtraData = 1
  rw [newlySetCount_self]

theorem flagsSet_of_finished (b a : SusDrawableNoteData)
    (h : b.OnTheFlyData.test NoteAttribute.Finished = true)
    (hc : ∀ e ∈ b.ExtraData, e.OnTheFlyData.test NoteAttribute.Finished = true) :
    flagsSet b a = 0 := by
  unfold flagsSet
  rw [newlySet_of_finished b a h, newlySetCount_of_finished _ _ hc]

theorem processHold_scoresBy (c : ScoreCore) (note : SusDrawableNoteData) :
    scoresBy c.Status (processHold c note).1.Status (flagsSet note (processHold c note).2) := by
  unfold processHold flagsSet
  simp only []
  cases hf : note.OnTheFlyData.test NoteAttribute.Finished
  · simp only [Bool.not_false, if_true]
    refine scoresBy_congr
      (scoresBy_trans (scoresBy_incr c)
        (holdExtras_scoresBy note.setFinished note.ExtraData
          ((({ c with isInHold := true } : ScoreCore).call PlayerCall.PlaySoundTap).call
            (PlayerCall.SpawnJudgeEffect note JudgeType.ShortNormal)).IncrementCombo))
      ?_
    congr 1
    exact (newlySet_setFinished note hf).symm
  · simp only [Bool.not_true, Bool.false_eq_true, if_false]
    refine scoresBy_congr (holdExtras_scoresBy note note.ExtraData { c with isInHold := true }) ?_
    have : newlySet note
        { note with ExtraData := (holdExtras note note.ExtraData { c with isInHold := true }).2 }
        = 0 := newlySet_of_finished _ _ hf
    rw [this, Nat.zero_add]

theorem processSlide_scoresBy (c : ScoreCore) (note : SusDrawableNoteData) :
    scoresBy c.Status (processSlide c note).1.Status
      (flagsSet note (processSlide c note).2) := by
  unfold processSlide
  simp only []
  cases hf : note.OnTheFlyData.test NoteAttribute.Finished
  · simp only [Bool.not_false, if_true]
    exact scoresBy_congr (scoresBy_incr c) (flagsSet_setFinished note hf).symm
  · simp only [Bool.not_true, Bool.false_eq_true, if_false]
    refine scoresBy_congr (slideExtras_scoresBy note.ExtraData { c with isInSlide := true }) ?_
    unfold flagsSet
    have : newlySet note
        { note with ExtraData := (slideExtras note.ExtraData { c with isInSlide := true }).2 }
        = 0 := newlySet_of_finished _ _ hf
    rw [this, Nat.zero_add]

theorem processAirAction_scoresBy (c : ScoreCore) (note : SusDrawableNoteData) :
    scoresBy c.Status (processAirAction c note).1.Status
      (flagsSet note (processAirAction c note).2) := by
  unfold processAirAction
  refine scoresBy_congr (airActionExtras_scoresBy note.ExtraData c) ?_
  unfold flagsSet
  have : newlySet note { note with ExtraData := (airActionExtras note.ExtraData c).2 } = 0 := by
    unfold newlySet
    cases note.OnTheFlyData.test NoteAttribute.Finished <;> rfl
  rw [this, Nat.zero_add]

theorem judgeHit_scoresBy (reltime : ℚ) (Status : PlayStatus) (note : SusDrawableNoteData) :
    scoresBy Status (judgeHit reltime Status note).2 1 := by
  unfold judgeHit
  simp only []
  split_ifs
  all_goals
    refine ⟨?_, ?_, ?_, ?_, ?_⟩
    all_goals simp only [hitCount]
    all_goals omega

theorem CheckJudgement_scoresBy (p : PlayableProcessor) (note : SusDrawableNoteData) :
    scoresBy p.Status (p.CheckJudgement note).2.2.Status
      (flagsSet note (p.CheckJudgement note).2.1) := by
  cases hf : note.OnTheFlyData.test NoteAttribute.Finished
  · rcases CheckJudgement_cases p note with h | h | h
    · rw [h]
      exact scoresBy_congr (scoresBy_refl _) (flagsSet_self note).symm
    · rw [h]
      refine scoresBy_congr ⟨le_refl _, le_refl _, le_refl _, Nat.le_succ _, ?_⟩
        (flagsSet_setFinished note hf).symm
      simp only [hitCount]
      omega
    · rw [h]
      refine scoresBy_congr (judgeHit_scoresBy _ p.Status note) ?_
      show 1 = flagsSet note (judgeHit _ p.Status note).1
      rw [(judgeHit_spec _ p.Status note).1]
      exact (flagsSet_setFinished note hf).symm
  · rw [CheckJudgement_eq_noop p note (Or.inl hf)]
    exact scoresBy_congr (scoresBy_refl _) (flagsSet_self note).symm

theorem autoProcessScore_scoresBy (p : AutoPlayerProcessor) (note : SusDrawableNoteData)
    (hk : note.ExtraData = [] ∨ note.NoteType.test SusNoteType.Hold = true
      ∨ note.NoteType.test SusNoteType.Slide = true
      ∨ note.NoteType.test SusNoteType.AirAction = true) :
    scoresBy p.Status (p.ProcessScore note).1.Status (flagsSet note (p.ProcessScore note).2) := by
  unfold AutoPlayerProcessor.ProcessScore
  simp only []
  by_cases hg : (decide (ddiv (dsub note.StartTime p.Player.CurrentSoundTime)
        p.Player.SeenDuration ≥ 0)
      || (note.OnTheFlyData.test NoteAttribute.Finished && note.ExtraData.length == 0)) = true
  · rw [if_pos hg]
    exact scoresBy_congr (scoresBy_refl _) (flagsSet_self note).symm
  · rw [if_neg hg]
    by_cases hH : note.NoteType.test SusNoteType.Hold = true
    · rw [if_pos hH]
      exact processHold_scoresBy p.core note
    · rw [if_neg hH]
      by_cases hS : note.NoteType.test SusNoteType.Slide = true
      · rw [if_pos hS]
        exact processSlide_scoresBy p.core note
      · rw [if_neg hS]
        by_cases hA : note.NoteType.test SusNoteType.AirAction = true
        · rw [if_pos hA]
          exact processAirAction_scoresBy p.core note
        · rw [if_neg hA]
          have hchild : note.ExtraData = [] := by
            rcases hk with h | h | h | h
            · exact h
            · exact absurd h hH
            · exact absurd h hS
            · exact absurd h hA
          have hf : note.OnTheFlyData.test NoteAttribute.Finished = false := by
            cases hfin : note.OnTheFlyData.test NoteAttribute.Finished
            · rfl
            · exfalso
              apply hg
              simp [hfin, hchild]
          split_ifs
          all_goals first
            | exact scoresBy_congr (scoresBy_incr p.core) (flagsSet_setFinished note hf).symm
            | exact scoresBy_congr (scoresBy_refl _) (flagsSet_self note).symm

theorem playableProcessScore_scoresBy (p : PlayableProcessor) (note : SusDrawableNoteData)
    (hk : note.ExtraData = [] ∨ note.NoteType.test SusNoteType.Hold = true
      ∨ note.NoteType.test SusNoteType.Slide = true
      ∨ note.NoteType.test SusNoteType.AirAction = true) :
    scoresBy p.Status (p.ProcessScore note).1.Status (flagsSet note (p.ProcessScore note).2) := by
  unfold PlayableProcessor.ProcessScore
  simp only []
  by_cases hg : (note.OnTheFlyData.test NoteAttribute.Finished
      && note.ExtraData.length == 0) = true
  · rw [if_pos hg]
    exact scoresBy_congr (scoresBy_refl _) (flagsSet_self note).symm
  · rw [if_neg hg]
    by_cases hH : note.NoteType.test SusNoteType.Hold = true
    · rw [if_pos hH]
      split_ifs
      · exact scoresBy_congr (scoresBy_refl _) (flagsSet_self note).symm
      · exact processHold_scoresBy p.core note
    · rw [if_neg hH]
      by_cases hS : note.NoteType.test SusNoteType.Slide = true
      · rw [if_pos hS]
        split_ifs
        · exact scoresBy_congr (scoresBy_refl _) (flagsSet_self note).symm
        · exact processSlide_scoresBy p.core note
      · rw [if_neg hS]
        by_cases hA : note.NoteType.test SusNoteType.AirAction = true
        · rw [if_pos hA]
          split_ifs
          · exact scoresBy_congr (scoresBy_refl _) (flagsSet_self note).symm
          · exact processAirAction_scoresBy p.core note
        · rw [if_neg hA]
          have hchild : note.ExtraData = [] := by
            rcases hk with h | h | h | h
            · exact h
            · exact absurd h hH
            · exact absurd h hS
            · exact absurd h hA
          have hf : note.OnTheFlyData.test NoteAttribute.Finished = false := by
            cases hfin : note.OnTheFlyData.test NoteAttribute.Finished
            · rfl
            · exfalso
              apply hg
              simp [hfin, hchild]
          by_cases hAir : note.NoteType.test SusNoteType.Air = true
          · rw [if_pos hAir]
            split_ifs
            · exact scoresBy_congr (scoresBy_refl _) (flagsSet_self note).symm
            · exact scoresBy_congr (scoresBy_incr p.core) (flagsSet_setFinished note hf).symm
          · rw [if_neg hAir]
            have hcj := CheckJudgement_scoresBy p note
            split_ifs
            all_goals first
              | exact hcj
              | exact scoresBy_congr (scoresBy_refl _) (flagsSet_self note).symm

/-! ## Lemmas on judging: the flags `isInHold` and `isInSlide` -/

theorem pos_neg_of_passed (c : ScoreCore) (x : SusDrawableNoteData)
    (hseen : 0 < c.Player.SeenDuration) (h : x.StartTime < c.Player.CurrentSoundTime) :
    ¬ c.pos x ≥ 0 := by
  unfold ScoreCore.pos
  rw [ddiv_dsub_nonneg_iff, not_le]
  exact div_neg_of_neg_of_pos (by linarith) hseen

theorem finishedInOrder_self (judged : SusDrawableNoteData → Bool)
    (l ref : List SusDrawableNoteData) : finishedInOrder judged l l ref := by
  intro i j _ b a _ _ hb ha hn _ _ _
  rw [hb] at ha
  cases ha
  rw [newlySet_self] at hn
  exact absurd hn (by decide)

theorem finishedInOrder_tail_same (judged : SusDrawableNoteData → Bool)
    (b0 a0 : SusDrawableNoteData) (l ref : List SusDrawableNoteData) :
    finishedInOrder judged (b0 :: l) (a0 :: l) ref := by
  intro i j hji b a _ _ hb ha hn _ _ _
  cases i with
  | zero => exact absurd hji (Nat.not_lt_zero _)
  | succ i =>
    rw [List.getElem?_cons_succ] at hb ha
    rw [hb] at ha
    cases ha
    rw [newlySet_self] at hn
    exact absurd hn (by decide)

theorem finishedInOrder_cons (judged : SusDrawableNoteData → Bool)
    (b0 a0 y0 : SusDrawableNoteData) (bs as refs : List SusDrawableNoteData)
    (h0 : judged b0 = true → y0.OnTheFlyData.test NoteAttribute.Finished = true)
    (h : finishedInOrder judged bs as refs) :
    finishedInOrder judged (b0 :: bs) (a0 :: as) (y0 :: refs) := by
  intro i j hji b a x y hb ha hn hx hy hj
  cases i with
  | zero => exact absurd hji (Nat.not_lt_zero _)
  | succ i =>
    rw [List.getElem?_cons_succ] at hb ha
    cases j with
    | zero =>
      rw [List.getElem?_cons_zero] at hx hy
      cases hx
      cases hy
      exact h0 hj
    | succ j =>
      rw [List.getElem?_cons_succ] at hx hy
      exact h i j (Nat.lt_of_succ_lt_succ hji) b a x y hb ha hn hx hy hj

theorem finishedInOrder_mono {judged1 judged2 : SusDrawableNoteData → Bool}
    (hsub : ∀ x, judged2 x = true → judged1 x = true)
    {before after ref : List SusDrawableNoteData}
    (h : finishedInOrder judged1 before after ref) :
    finishedInOrder judged2 before after ref :=
  fun i j hji b a x y hb ha hn hx hy hj => h i j hji b a x y hb ha hn hx hy (hsub x hj)

theorem forall₂_flagKept_getElem {l1 l2 : List SusDrawableNoteData}
    (h : List.Forall₂ flagKept l1 l2) :
    ∀ (j : ℕ) (x y : SusDrawableNoteData), l1[j]? = some x → l2[j]? = some y →
      flagKept x y := by
  induction h with
  | nil =>
    intro j x y hx _
    simp at hx
  | cons hab _ ih =>
    intro j x y hx hy
    cases j with
    | zero =>
      rw [List.getElem?_cons_zero] at hx hy
      cases hx
      cases hy
      exact hab
    | succ j =>
      rw [List.getElem?_cons_succ] at hx hy
      exact ih j x y hx hy

theorem finishedInOrder_after {judged : SusDrawableNoteData → Bool}
    {before after : List SusDrawableNoteData} (hk : List.Forall₂ flagKept before after)
    (h : finishedInOrder judged before after before) :
    finishedInOrder judged before after after :=
  fun i j hji b a x y hb ha hn hx hy hj =>
    forall₂_flagKept_getElem hk j x y hx hy (h i j hji b a x x hb ha hn hx hx hj)

theorem newlySet_le_one (b a : SusDrawableNoteData) : newlySet b a ≤ 1 := by
  unfold newlySet
  split_ifs <;> omega

theorem newlySetCount_head_only (b a : SusDrawableNoteData) (l : List SusDrawableNoteData) :
    newlySetCount (b :: l) (a :: l) ≤ 1 := by
  have := newlySet_le_one b a
  simp only [newlySetCount, newlySetCount_self]
  omega

theorem newlySetCount_cons_self {bs as : List SusDrawableNoteData}
    (e : SusDrawableNoteData) (h : newlySetCount bs as ≤ 1) :
    newlySetCount (e :: bs) (e :: as) ≤ 1 := by
  simp only [newlySetCount, newlySet_self]
  omega

theorem pos_nonneg_of_sorted (c : ScoreCore) (e : SusDrawableNoteData)
    (rest : List SusDrawableNoteData) (hseen : 0 < c.Player.SeenDuration)
    (hs : (e :: rest).Pairwise (fun a b => a.StartTime ≤ b.StartTime))
    (hp : c.pos e ≥ 0) : ∀ x ∈ e :: rest, c.pos x ≥ 0 := by
  intro x hx
  rcases List.mem_cons.1 hx with hxe | hxr
  · rw [hxe]
    exact hp
  · have hle := (List.pairwise_cons.1 hs).1 x hxr
    have he : c.Player.CurrentSoundTime ≤ e.StartTime := by
      by_contra hcon
      exact pos_neg_of_passed c e hseen (not_le.1 hcon) hp
    unfold ScoreCore.pos
    rw [ddiv_dsub_nonneg_iff]
    exact div_nonneg (by linarith) hseen.le

theorem holdExtras_noop (note : SusDrawableNoteData) (l : List SusDrawableNoteData) :
    ∀ c : ScoreCore, (∀ x ∈ l, c.pos x ≥ 0) → holdExtras note l c = (c, l) := by
  induction l with
  | nil => intro c _; rfl
  | cons e l ih =>
    intro c h
    unfold holdExtras
    rw [if_pos (h e (List.mem_cons_self _ _))]
    simp only [ih c (fun x hx => h x (List.mem_cons_of_mem _ hx))]

theorem slideExtras_noop (l : List SusDrawableNoteData) :
    ∀ c : ScoreCore, (∀ x ∈ l, c.pos x ≥ 0) → slideExtras l c = (c, l) := by
  induction l with
  | nil => intro c _; rfl
  | cons e l ih =>
    intro c h
    unfold slideExtras
    rw [if_pos (h e (List.mem_cons_self _ _))]
    simp only [ih c (fun x hx => h x (List.mem_cons_of_mem _ hx))]

theorem airActionExtras_noop (l : List SusDrawableNoteData) :
    ∀ c : ScoreCore, (∀ x ∈ l, c.pos x ≥ 0) → airActionExtras l c = (c, l) := by
  induction l with
  | nil => intro c _; rfl
  | cons e l ih =>
    intro c h
    unfold airActionExtras
    rw [if_pos (h e (List.mem_cons_self _ _))]
    simp only [ih c (fun x hx => h x (List.mem_cons_of_mem _ hx))]

theorem holdExtras_inOrder (note : SusDrawableNoteData) (l : List SusDrawableNoteData) :
    ∀ c : ScoreCore, 0 < c.Player.SeenDuration →
      l.Pairwise (fun a b => a.StartTime ≤ b.StartTime) →
      finishedInOrder (fun _ => true) l (holdExtras note l c).2 l
      ∧ newlySetCount l (holdExtras note l c).2 ≤ 1 := by
  induction l with
  | nil =>
    intro c _ _
    exact ⟨finishedInOrder_self _ _ _, Nat.zero_le 1⟩
  | cons e l ih =>
    intro c hseen hs
    have hl := (List.pairwise_cons.1 hs).2
    by_cases hp : c.pos e ≥ 0
    · rw [holdExtras_noop note (e :: l) c (pos_nonneg_of_sorted c e l hseen hs hp)]
      exact ⟨finishedInOrder_self _ _ _, by rw [newlySetCount_self]; exact Nat.zero_le 1⟩
    · unfold holdExtras
      simp only []
      split_ifs
      all_goals first
        | exact ⟨finishedInOrder_cons _ e e e _ _ _
            (fun _ => ‹e.OnTheFlyData.test NoteAttribute.Finished = true›) (ih c hseen hl).1,
            newlySetCount_cons_self e (ih c hseen hl).2⟩
        | exact ⟨finishedInOrder_cons _ e e e _ _ _
            (fun _ => ‹e.OnTheFlyData.test NoteAttribute.Finished = true›)
            (ih { c with isInHold := false } hseen hl).1,
            newlySetCount_cons_self e (ih { c with isInHold := false } hseen hl).2⟩
        | exact ⟨finishedInOrder_tail_same _ _ _ _ _, newlySetCount_head_only _ _ _⟩

theorem slideExtras_inOrder (l : List SusDrawableNoteData) :
    ∀ c : ScoreCore, 0 < c.Player.SeenDuration →
      l.Pairwise (fun a b => a.StartTime ≤ b.StartTime) →
      finishedInOrder (fun x => !x.NoteType.test SusNoteType.Control) l (slideExtras l c).2 l
      ∧ newlySetCount l (slideExtras l c).2 ≤ 1 := by
  induction l with
  | nil =>
    intro c _ _
    exact ⟨finishedInOrder_self _ _ _, Nat.zero_le 1⟩
  | cons e l ih =>
    intro c hseen hs
    have hl := (List.pairwise_cons.1 hs).2
    by_cases hp : c.pos e ≥ 0
    · rw [slideExtras_noop (e :: l) c (pos_nonneg_of_sorted c e l hseen hs hp)]
      exact ⟨finishedInOrder_self _ _ _, by rw [newlySetCount_self]; exact Nat.zero_le 1⟩
    · unfold slideExtras
      simp only []
      split_ifs
      all_goals first
        | exact ⟨finishedInOrder_cons _ e e e _ _ _
            (fun _ => ‹e.OnTheFlyData.test NoteAttribute.Finished = true›) (ih c hseen hl).1,
            newlySetCount_cons_self e (ih c hseen hl).2⟩
        | exact ⟨finishedInOrder_cons _ e e e _ _ _
            (fun _ => ‹e.OnTheFlyData.test NoteAttribute.Finished = true›)
            (ih { c with isInSlide := false } hseen hl).1,
            newlySetCount_cons_self e (ih { c with isInSlide := false } hseen hl).2⟩
        | exact ⟨finishedInOrder_cons _ e e e _ _ _
            (fun hj => absurd hj (by simp [‹e.NoteType.test SusNoteType.Control = true›]))
            (ih c hseen hl).1,
            newlySetCount_cons_self e (ih c hseen hl).2⟩
        | exact ⟨finishedInOrder_cons _ e e e _ _ _
            (fun hj => absurd hj (by simp [‹e.NoteType.test SusNoteType.Control = true›]))
            (ih { c with isInSlide := false } hseen hl).1,
            newlySetCount_cons_self e (ih { c with isInSlide := false } hseen hl).2⟩
        | exact ⟨finishedInOrder_tail_same _ _ _ _ _, newlySetCount_head_only _ _ _⟩

theorem airActionExtras_inOrder (l : List SusDrawableNoteData) :
    ∀ c : ScoreCore, 0 < c.Player.SeenDuration →
      l.Pairwise (fun a b => a.StartTime ≤ b.StartTime) →
      finishedInOrder
        (fun x => !x.NoteType.test SusNoteType.Control && !x.NoteType.test SusNoteType.Tap)
        l (airActionExtras l c).2 (airActionExtras l c).2 := by
  induction l with
  | nil =>
    intro c _ _
    exact finishedInOrder_self _ _ _
  | cons e l ih =>
    intro c hseen hs
    have hl := (List.pairwise_cons.1 hs).2
    by_cases hp : c.pos e ≥ 0
    · rw [airActionExtras_noop (e :: l) c (pos_nonneg_of_sorted c e l hseen hs hp)]
      exact finishedInOrder_self _ _ _
    · unfold airActionExtras
      rw [if_neg hp]
      by_cases hC : e.NoteType.test SusNoteType.Control = true
      · rw [if_pos hC]
        exact finishedInOrder_cons _ e e e _ _ _
          (fun hj => absurd hj (by simp [hC])) (ih c hseen hl)
      · rw [if_neg hC]
        by_cases hT : e.NoteType.test SusNoteType.Tap = true
        · rw [if_pos hT]
          exact finishedInOrder_cons _ e e e _ _ _
            (fun hj => absurd hj (by simp [hT])) (ih c hseen hl)
        · rw [if_neg hT]
          by_cases hF : e.OnTheFlyData.test NoteAttribute.Finished = true
          · rw [if_pos hF]
            exact finishedInOrder_cons _ e e e _ _ _ (fun _ => hF) (ih c hseen hl)
          · rw [if_neg hF]
            by_cases hX : e.NoteType.test SusNoteType.ExTap = true
            · rw [if_pos hX]
              exact finishedInOrder_tail_same _ _ _ _ _
            · rw [if_neg hX, if_neg hp]
              exact finishedInOrder_cons _ e e.setFinished e.setFinished _ _ _
                (fun _ => test_setFinished e)
                (ih ((c.call PlayerCall.PlaySoundAirAction).call
                  (PlayerCall.SpawnJudgeEffect e JudgeType.Action)).IncrementCombo hseen hl)

theorem processHold_inOrder (c : ScoreCore) (note : SusDrawableNoteData)
    (hseen : 0 < c.Player.SeenDuration) (hs : sortedChildren note) :
    finishedInOrder (fun _ => true) note.ExtraData (processHold c note).2.ExtraData
      note.ExtraData
    ∧ newlySetCount note.ExtraData (processHold c note).2.ExtraData ≤ 1 := by
  unfold processHold
  simp only []
  split_ifs
  · refine holdExtras_inOrder _ _ _ ?_ ?_
    · exact hseen
    · exact hs
  · refine holdExtras_inOrder _ _ _ ?_ ?_
    · exact hseen
    · exact hs

theorem processSlide_inOrder (c : ScoreCore) (note : SusDrawableNoteData)
    (hseen : 0 < c.Player.SeenDuration) (hs : sortedChildren note) :
    finishedInOrder (fun x => !x.NoteType.test SusNoteType.Control) note.ExtraData
      (processSlide c note).2.ExtraData note.ExtraData
    ∧ newlySetCount note.ExtraData (processSlide c note).2.ExtraData ≤ 1 := by
  unfold processSlide
  simp only []
  split_ifs
  · refine ⟨finishedInOrder_self _ _ _, ?_⟩
    exact le_of_eq_of_le (newlySetCount_self note.ExtraData) (Nat.zero_le 1)
  · refine slideExtras_inOrder _ _ ?_ ?_
    · exact hseen
    · exact hs

theorem processAirAction_inOrder (c : ScoreCore) (note : SusDrawableNoteData)
    (hseen : 0 < c.Player.SeenDuration) (hs : sortedChildren note) :
    finishedInOrder
      (fun x => !x.NoteType.test SusNoteType.Control && !x.NoteType.test SusNoteType.Tap)
      note.ExtraData (processAirAction c note).2.ExtraData
      (processAirAction c note).2.ExtraData :=
  airActionExtras_inOrder note.ExtraData c hseen hs

theorem childrenInOrder_self (note : SusDrawableNoteData) : childrenInOrder note note :=
  ⟨fun _ => ⟨finishedInOrder_self _ _ _,
      le_of_eq_of_le (newlySetCount_self note.ExtraData) (Nat.zero_le 1)⟩,
   fun _ => ⟨finishedInOrder_self _ _ _,
      le_of_eq_of_le (newlySetCount_self note.ExtraData) (Nat.zero_le 1)⟩,
   fun _ => finishedInOrder_self _ _ _⟩

theorem childrenInOrder_of_short (before after : SusDrawableNoteData)
    (hH : ¬ before.NoteType.test SusNoteType.Hold = true)
    (hS : ¬ before.NoteType.test SusNoteType.Slide = true)
    (hA : ¬ before.NoteType.test SusNoteType.AirAction = true) :
    childrenInOrder before after :=
  ⟨fun h => absurd h hH, fun h => absurd h hS, fun h => absurd h hA⟩

theorem childrenInOrder_of_hold (before after : SusDrawableNoteData)
    (hfo : finishedInOrder (fun _ => true) before.ExtraData after.ExtraData before.ExtraData)
    (hc : newlySetCount before.ExtraData after.ExtraData ≤ 1)
    (hk : List.Forall₂ flagKept before.ExtraData after.ExtraData) :
    childrenInOrder before after :=
  ⟨fun _ => ⟨hfo, hc⟩,
   fun _ => ⟨finishedInOrder_mono (fun _ _ => rfl) hfo, hc⟩,
   fun _ => finishedInOrder_after hk (finishedInOrder_mono (fun _ _ => rfl) hfo)⟩

theorem childrenInOrder_of_slide (before after : SusDrawableNoteData)
    (hH : ¬ before.NoteType.test SusNoteType.Hold = true)
    (hfo : finishedInOrder (fun x => !x.NoteType.test SusNoteType.Control)
      before.ExtraData after.ExtraData before.ExtraData)
    (hc : newlySetCount before.ExtraData after.ExtraData ≤ 1)
    (hk : List.Forall₂ flagKept before.ExtraData after.ExtraData) :
    childrenInOrder before after :=
  ⟨fun h => absurd h hH,
   fun _ => ⟨hfo, hc⟩,
   fun _ => finishedInOrder_after hk
     (finishedInOrder_mono (fun x hx => by
       simp only [Bool.and_eq_true] at hx
       exact hx.1) hfo)⟩

theorem childrenInOrder_of_airAction (before after : SusDrawableNoteData)
    (hH : ¬ before.NoteType.test SusNoteType.Hold = true)
    (hS : ¬ before.NoteType.test SusNoteType.Slide = true)
    (hfo : finishedInOrder
      (fun x => !x.NoteType.test SusNoteType.Control && !x.NoteType.test SusNoteType.Tap)
      before.ExtraData after.ExtraData after.ExtraData) :
    childrenInOrder before after :=
  ⟨fun h => absurd h hH, fun h => absurd h hS, fun _ => hfo⟩

theorem autoProcessScore_childrenInOrder (p : AutoPlayerProcessor)
    (note : SusDrawableNoteData) (hseen : 0 < p.Player.SeenDuration)
    (hs : sortedChildren note) : childrenInOrder note (p.ProcessScore note).2 := by
  unfold AutoPlayerProcessor.ProcessScore
  simp only []
  by_cases hg : (decide (ddiv (dsub note.StartTime p.Player.CurrentSoundTime)
        p.Player.SeenDuration ≥ 0)
      || (note.OnTheFlyData.test NoteAttribute.Finished && note.ExtraData.length == 0)) = true
  · rw [if_pos hg]
    exact childrenInOrder_self note
  · rw [if_neg hg]
    by_cases hH : note.NoteType.test SusNoteType.Hold = true
    · rw [if_pos hH]
      exact childrenInOrder_of_hold note _ (processHold_inOrder p.core note hseen hs).1
        (processHold_inOrder p.core note hseen hs).2 (processHold_keepsFinished p.core note).2
    · rw [if_neg hH]
      by_cases hS : note.NoteType.test SusNoteType.Slide = true
      · rw [if_pos hS]
        exact childrenInOrder_of_slide note _ hH (processSlide_inOrder p.core note hseen hs).1
          (processSlide_inOrder p.core note hseen hs).2
          (processSlide_keepsFinished p.core note).2
      · rw [if_neg hS]
        by_cases hA : note.NoteType.test SusNoteType.AirAction = true
        · rw [if_pos hA]
          exact childrenInOrder_of_airAction note _ hH hS
            (processAirAction_inOrder p.core note hseen hs)
        · exact childrenInOrder_of_short note _ hH hS hA

theorem playableProcessScore_childrenInOrder (p : PlayableProcessor)
    (note : SusDrawableNoteData) (hseen : 0 < p.Player.SeenDuration)
    (hs : sortedChildren note) : childrenInOrder note (p.ProcessScore note).2 := by
  unfold PlayableProcessor.ProcessScore
  simp only []
  by_cases hg : (note.OnTheFlyData.test NoteAttribute.Finished
      && note.ExtraData.length == 0) = true
  · rw [if_pos hg]
    exact childrenInOrder_self note
  · rw [if_neg hg]
    by_cases hH : note.NoteType.test SusNoteType.Hold = true
    · rw [if_pos hH]
      split_ifs
      · exact childrenInOrder_self note
      · exact childrenInOrder_of_hold note _ (processHold_inOrder p.core note hseen hs).1
          (processHold_inOrder p.core note hseen hs).2
          (processHold_keepsFinished p.core note).2
    · rw [if_neg hH]
      by_cases hS : note.NoteType.test SusNoteType.Slide = true
      · rw [if_pos hS]
        split_ifs
        · exact childrenInOrder_self note
        · exact childrenInOrder_of_slide note _ hH
            (processSlide_inOrder p.core note hseen hs).1
            (processSlide_inOrder p.core note hseen hs).2
            (processSlide_keepsFinished p.core note).2
      · rw [if_neg hS]
        by_cases hA : note.NoteType.test SusNoteType.AirAction = true
        · rw [if_pos hA]
          split_ifs
          · exact childrenInOrder_self note
          · exact childrenInOrder_of_airAction note _ hH hS
              (processAirAction_inOrder p.core note hseen hs)
        · exact childrenInOrder_of_short note _ hH hS hA

theorem holdExtras_SeenDuration (note : SusDrawableNoteData)
    (l : List SusDrawableNoteData) :
    ∀ c : ScoreCore, (holdExtras note l c).1.Player.SeenDuration = c.Player.SeenDuration := by
  induction l with
  | nil => intro c; rfl
  | cons e l ih =>
    intro c
    unfold holdExtras
    simp only []
    split_ifs
    all_goals first
      | exact ih c
      | exact ih { c with isInHold := false }
      | rfl

theorem slideExtras_SeenDuration (l : List SusDrawableNoteData) :
    ∀ c : ScoreCore, (slideExtras l c).1.Player.SeenDuration = c.Player.SeenDuration := by
  induction l with
  | nil => intro c; rfl
  | cons e l ih =>
    intro c
    unfold slideExtras
    simp only []
    split_ifs
    all_goals first
      | exact ih c
      | exact ih { c with isInSlide := false }
      | rfl

theorem airActionExtras_SeenDuration (l : List SusDrawableNoteData) :
    ∀ c : ScoreCore, (airActionExtras l c).1.Player.SeenDuration = c.Player.SeenDuration := by
  induction l with
  | nil => intro c; rfl
  | cons e l ih =>
    intro c
    unfold airActionExtras
    simp only []
    split_ifs
    all_goals first
      | exact ih c
      | rfl
      | exact (ih ((c.call PlayerCall.PlaySoundAirAction).call
          (PlayerCall.SpawnJudgeEffect e JudgeType.Action)).IncrementCombo).trans rfl

theorem processHold_SeenDuration (c : ScoreCore) (note : SusDrawableNoteData) :
    (processHold c note).1.Player.SeenDuration = c.Player.SeenDuration := by
  unfold processHold
  simp only []
  split_ifs
  · exact (holdExtras_SeenDuration _ _ _).trans rfl
  · exact (holdExtras_SeenDuration _ _ _).trans rfl

theorem processSlide_SeenDuration (c : ScoreCore) (note : SusDrawableNoteData) :
    (processSlide c note).1.Player.SeenDuration = c.Player.SeenDuration := by
  unfold processSlide
  simp only []
  split_ifs
  · rfl
  · exact (slideExtras_SeenDuration _ _).trans rfl

theorem processAirAction_SeenDuration (c : ScoreCore) (note : SusDrawableNoteData) :
    (processAirAction c note).1.Player.SeenDuration = c.Player.SeenDuration :=
  airActionExtras_SeenDuration note.ExtraData c

theorem CheckJudgement_Player (p : PlayableProcessor) (note : SusDrawableNoteData) :
    (p.CheckJudgement note).2.2.Player = p.Player := by
  rcases CheckJudgement_cases p note with h | h | h <;> rw [h]

theorem autoProcessScore_SeenDuration (p : AutoPlayerProcessor) (note : SusDrawableNoteData) :
    (p.ProcessScore note).1.Player.SeenDuration = p.Player.SeenDuration := by
  unfold AutoPlayerProcessor.ProcessScore
  simp only []
  split_ifs
  all_goals first
    | rfl
    | exact processHold_SeenDuration p.core note
    | exact processSlide_SeenDuration p.core note
    | exact processAirAction_SeenDuration p.core note

theorem playableProcessScore_SeenDuration (p : PlayableProcessor)
    (note : SusDrawableNoteData) :
    (p.ProcessScore note).1.Player.SeenDuration = p.Player.SeenDuration := by
  unfold PlayableProcessor.ProcessScore
  simp only []
  split_ifs
  all_goals first
    | rfl
    | exact processHold_SeenDuration p.core note
    | exact processSlide_SeenDuration p.core note
    | exact processAirAction_SeenDuration p.core note
    | (show (p.CheckJudgement note).2.2.Player.SeenDuration = p.Player.SeenDuration
       rw [CheckJudgement_Player])

theorem autoUpdateLoop_childrenInOrder (notes : List SusDrawableNoteData) :
    ∀ (p : AutoPlayerProcessor) (SlideCheck HoldCheck : Bool),
      0 < p.Player.SeenDuration → (∀ n ∈ notes, sortedChildren n) →
      List.Forall₂ childrenInOrder notes
        (AutoPlayerProcessor.updateLoop notes p SlideCheck HoldCheck).2.2.2 := by
  induction notes with
  | nil =>
    intro p SlideCheck HoldCheck _ _
    exact List.Forall₂.nil
  | cons note rest ih =>
    intro p SlideCheck HoldCheck hseen hs
    unfold AutoPlayerProcessor.updateLoop
    simp only []
    refine List.Forall₂.cons
      (autoProcessScore_childrenInOrder p note hseen (hs note (List.mem_cons_self _ _)))
      (ih _ _ _ ?_ (fun n hn => hs n (List.mem_cons_of_mem _ hn)))
    rw [autoProcessScore_SeenDuration]
    exact hseen

theorem playableUpdateLoop_childrenInOrder (notes : List SusDrawableNoteData) :
    ∀ (p : PlayableProcessor) (SlideCheck HoldCheck : Bool),
      0 < p.Player.SeenDuration → (∀ n ∈ notes, sortedChildren n) →
      List.Forall₂ childrenInOrder notes
        (PlayableProcessor.updateLoop notes p SlideCheck HoldCheck).2.2.2 := by
  induction notes with
  | nil =>
    intro p SlideCheck HoldCheck _ _
    exact List.Forall₂.nil
  | cons note rest ih =>
    intro p SlideCheck HoldCheck hseen hs
    unfold PlayableProcessor.updateLoop
    simp only []
    refine List.Forall₂.cons
      (playableProcessScore_childrenInOrder p note hseen (hs note (List.mem_cons_self _ _)))
      (ih _ _ _ ?_ (fun n hn => hs n (List.mem_cons_of_mem _ hn)))
    rw [playableProcessScore_SeenDuration]
    exact hseen

theorem not_finishedInOrder_of_flags (judged : SusDrawableNoteData → Bool)
    (b0 b1 : SusDrawableNoteData) (after : List SusDrawableNoteData)
    (hj : judged b0 = true)
    (h0 : b0.OnTheFlyData.test NoteAttribute.Finished = false)
    (h1 : b1.OnTheFlyData.test NoteAttribute.Finished = false)
    (hflag : (after[1]?).map (fun x => x.OnTheFlyData.test NoteAttribute.Finished)
      = some true) :
    ¬ finishedInOrder judged [b0, b1] after [b0, b1] := by
  intro h
  cases hafter : after[1]? with
  | none =>
    rw [hafter] at hflag
    cases hflag
  | some a =>
    rw [hafter] at hflag
    have ha : a.OnTheFlyData.test NoteAttribute.Finished = true := by
      simpa using hflag
    have hn : newlySet b1 a = 1 := by
      unfold newlySet
      rw [h1, ha]
      rfl
    have := h 1 0 (by decide) b1 a b0 b0 rfl hafter hn rfl rfl hj
    rw [h0] at this
    cases this

/-! ## Theorems -/

/-- C1 (as stated, refuted): two inputs. With `JusticeCritical = 5000` and
`AllNotes = 1` the formula gives 5,050,000,000, which is not a `uint32_t`; `GetScore`
returns 755,032,704. With `JusticeCritical = 11`, `Attack = 1` and `AllNotes = 96` the
formula over exact rationals is `round(120937.5) = 120938`; the `double` sum that
`GetScore` rounds is below 120937.5, and `GetScore` returns 120937. -/
theorem GetScore_formula_counterexample :
    0 < (PlayStatus.mk 5000 0 0 0 1 0 0 60000).AllNotes
      ∧ scoreFormula (PlayStatus.mk 5000 0 0 0 1 0 0 60000) = 5050000000
      ∧ (PlayStatus.mk 5000 0 0 0 1 0 0 60000).GetScore = 755032704
      ∧ 0 < (PlayStatus.mk 11 0 1 0 96 0 0 60000).AllNotes
      ∧ scoreExact (PlayStatus.mk 11 0 1 0 96 0 0 60000) = 241875 / 2
      ∧ scoreFormula (PlayStatus.mk 11 0 1 0 96 0 0 60000) = 120938
      ∧ (PlayStatus.mk 11 0 1 0 96 0 0 60000).scoreResult < 241875 / 2
      ∧ (PlayStatus.mk 11 0 1 0 96 0 0 60000).GetScore = 120937 := by
  decide!

/-- C1 (amended): for every PlayStatus with `AllNotes > 0` whose formula value
`round(1,000,000 × (JusticeCritical×1.01 + Justice×1.00 + Attack×0.50) / AllNotes)`,
over exact rationals, is below `2^32 − 1`: `GetScore` differs from that value by at
most 1; it is equal to it whenever the value of the formula before rounding, plus
one half, is at least `2^-16` away from every integer; and replacing `Miss` and
`Combo` by any other values does not change the result. -/
theorem GetScore_near_scoreFormula (s : PlayStatus) (hN : 0 < s.AllNotes)
    (hfit : scoreFormula s + 1 < 2 ^ 32) :
    |(s.GetScore : ℤ) - scoreFormula s| ≤ 1
    ∧ ((∀ m : ℤ, (2 : ℚ) ^ (-16 : ℤ) ≤ |scoreExact s + 1 / 2 - m|) →
        (s.GetScore : ℤ) = scoreFormula s)
    ∧ ∀ m c : ℕ, ({ s with Miss := m, Combo := c } : PlayStatus).GetScore = s.GetScore := by
  obtain ⟨h0, hclose, hlo, hhi⟩ := scoreResult_floor_near s hN hfit
  have hG := GetScore_eq_cround s (by omega) h0
  refine ⟨?_, ?_, fun m c => rfl⟩
  · rw [hG, abs_le]
    constructor <;> omega
  · intro hfar
    have hf : scoreFormula s = ⌊scoreExact s + 1 / 2⌋ := by
      unfold scoreFormula
      rw [round_eq]
    have hc : cround s.scoreResult = ⌊s.scoreResult + 1 / 2⌋ := by
      unfold cround
      rw [if_pos h0]
    rw [abs_lt] at hclose
    rw [hG, hc, hf]
    have hm0 := hfar ⌊scoreExact s + 1 / 2⌋
    have hm1 := hfar (⌊scoreExact s + 1 / 2⌋ + 1)
    have f1 := Int.floor_le (scoreExact s + 1 / 2)
    have f2 := Int.lt_floor_add_one (scoreExact s + 1 / 2)
    rw [abs_of_nonneg (by linarith)] at hm0
    rw [abs_of_nonpos (by push_cast; linarith)] at hm1
    push_cast at hm1
    rw [Int.floor_eq_iff]
    generalize (2 : ℚ) ^ (-16 : ℤ) = e at *
    constructor <;> linarith

/-- C1 witness: `JusticeCritical = 10`, `Justice = 0`, `Attack = 0`,
`AllNotes = 20` gives 505000. -/
theorem GetScore_near_scoreFormula_witness :
    (0 < (PlayStatus.mk 10 0 0 3 20 7 0 60000).AllNotes
      ∧ scoreFormula (PlayStatus.mk 10 0 0 3 20 7 0 60000) + 1 < 2 ^ 32
      ∧ ∀ m : ℤ, (2 : ℚ) ^ (-16 : ℤ)
          ≤ |scoreExact (PlayStatus.mk 10 0 0 3 20 7 0 60000) + 1 / 2 - m|)
    ∧ scoreFormula (PlayStatus.mk 10 0 0 3 20 7 0 60000) = 505000
    ∧ ((PlayStatus.mk 10 0 0 3 20 7 0 60000).GetScore : ℤ)
        = scoreFormula (PlayStatus.mk 10 0 0 3 20 7 0 60000) := by
  have hE : scoreExact (PlayStatus.mk 10 0 0 3 20 7 0 60000) = 505000 := by decide!
  have hm : ∀ m : ℤ, (2 : ℚ) ^ (-16 : ℤ)
      ≤ |scoreExact (PlayStatus.mk 10 0 0 3 20 7 0 60000) + 1 / 2 - m| := by
    intro m
    rw [hE]
    have h16 : (2 : ℚ) ^ (-16 : ℤ) ≤ 1 / 2 := by norm_num
    refine le_trans h16 ?_
    rcases le_or_lt m 505000 with h | h
    · have hq : (m : ℚ) ≤ 505000 := by exact_mod_cast h
      rw [abs_of_nonneg (by linarith)]
      linarith
    · have hq : (505001 : ℚ) ≤ (m : ℚ) := by exact_mod_cast (by omega : (505001 : ℤ) ≤ m)
      rw [abs_of_nonpos (by linarith)]
      linarith
  exact ⟨⟨by decide, by decide!, hm⟩, by decide!,
    (GetScore_near_scoreFormula (PlayStatus.mk 10 0 0 3 20 7 0 60000) (by decide)
      (by decide!)).2.1 hm⟩

/-- C2 (as stated, refuted): the raw gauge `2^57 + 26016` is a `double` and an
integer `r`; it lies in segment `k = 12004793`, with `r − S(k) = 1050309888`. The
second subtraction of the loop, `(2^57 + 14016) − 14000`, is not a `double` and is
rounded to `2^57`, so that the loop ends with `calc = 1050309872`: `GetGaugeValue`
returns `rest = 1050309872 / 24009598000` (rounded), which is below the quotient
`(r − S(k)) / (12000 + 2000·k)` and below its `double`. -/
theorem GetGaugeValue_segment_counterexample :
    0 ≤ bigGauge.CurrentGauge ∧ IsDouble bigGauge.CurrentGauge
    ∧ round bigGauge.CurrentGauge = 2 ^ 57 + 26016
    ∧ (segmentTotal 12004793 ≤ round bigGauge.CurrentGauge
        ∧ round bigGauge.CurrentGauge < segmentTotal (12004793 + 1))
    ∧ round bigGauge.CurrentGauge - segmentTotal 12004793 = 1050309888
    ∧ (12000 : ℤ) + 2000 * 12004793 = 24009598000
    ∧ bigGauge.GetGaugeValue 12004794 = some (12004793, ddiv 1050309872 24009598000)
    ∧ (∀ fuel x, bigGauge.GetGaugeValue fuel = some x →
        x = (12004793, ddiv 1050309872 24009598000))
    ∧ ddiv 1050309872 24009598000 < (1050309888 : ℚ) / 24009598000
    ∧ ddiv 1050309872 24009598000 < ddiv 1050309888 24009598000 := by
  have hc : cround bigGauge.CurrentGauge = 2 ^ 57 + 26016 := by decide!
  have hr : round bigGauge.CurrentGauge = 2 ^ 57 + 26016 := by
    rw [← cround_of_nonneg (by decide!), hc]
  have key : bigGauge.GetGaugeValue 12004794
      = some (12004793, ddiv 1050309872 24009598000) := by
    have h := GetGaugeValue_of_run bigGauge 3 12004790 3 (2 ^ 57 - 16000) 18000 4
      (by decide!) (le_refl _) (by decide) (by decide) (by decide) (by decide) (by decide)
      (by decide) (by decide) 12004794 (by decide)
    rw [h]
    have hw : wrapInt32 (3 + ((12004790 : ℕ) : ℤ)) = 12004793 := by decide
    rw [hw]
    norm_num
  refine ⟨by decide!, by decide!, hr, by rw [hr]; decide, by rw [hr]; decide, by norm_num,
    key, ?_, by decide!, by decide!⟩
  intro fuel x h
  have h1 := GetGaugeValue_fuel_mono _ fuel 12004794 _ h
  have h2 := GetGaugeValue_fuel_mono _ 12004794 fuel _ key
  rw [Nat.add_comm] at h2
  rw [h1] at h2
  exact Option.some.inj h2

/-- C2 (amended): for every raw gauge `g ≥ 0` that is a `double` and whose rounded
value `r` is below `2^57`, with `S(k) = 12000·k + 1000·k·(k−1)`, there is exactly one
`k` with `S(k) ≤ r < S(k+1)`; `GetGaugeValue` terminates (every fuel above `k`
suffices) and returns `fulfilled = k` and `rest` the `double` quotient of `r − S(k)`
by `12000 + 2000·k`: it is within the relative error `2^-53` of the exact quotient,
and `0 ≤ rest < 1`. -/
theorem GetGaugeValue_segment (s : PlayStatus) (hg : 0 ≤ s.CurrentGauge)
    (hd : IsDouble s.CurrentGauge) (hfit : round s.CurrentGauge < 2 ^ 57) :
    ∃ k : ℕ,
      (segmentTotal k ≤ round s.CurrentGauge ∧ round s.CurrentGauge < segmentTotal (k + 1))
      ∧ (∀ k2 : ℕ, segmentTotal k2 ≤ round s.CurrentGauge
            ∧ round s.CurrentGauge < segmentTotal (k2 + 1) → k2 = k)
      ∧ (∀ fuel, k < fuel →
          s.GetGaugeValue fuel
            = some ((k : ℤ),
                ddiv ((round s.CurrentGauge - segmentTotal k : ℤ) : ℚ)
                  (12000 + 2000 * (k : ℚ))))
      ∧ |ddiv ((round s.CurrentGauge - segmentTotal k : ℤ) : ℚ) (12000 + 2000 * (k : ℚ))
            - ((round s.CurrentGauge - segmentTotal k : ℤ) : ℚ) / (12000 + 2000 * (k : ℚ))|
          ≤ ((round s.CurrentGauge - segmentTotal k : ℤ) : ℚ) / (12000 + 2000 * (k : ℚ))
              * 2 ^ (-53 : ℤ)
      ∧ 0 ≤ ddiv ((round s.CurrentGauge - segmentTotal k : ℤ) : ℚ) (12000 + 2000 * (k : ℚ))
      ∧ ddiv ((round s.CurrentGauge - segmentTotal k : ℤ) : ℚ) (12000 + 2000 * (k : ℚ))
          < 1 := by
  have hcr := cround_of_nonneg hg
  have hr0 : 0 ≤ round s.CurrentGauge := hcr ▸ cround_nonneg hg
  obtain ⟨k, hk⟩ := exists_segment _ hr0
  have hk26 := segment_index_lt _ k hk.1 hfit
  have hkz : (k : ℤ) < 2 ^ 26 := by exact_mod_cast hk26
  have hk0 : (0 : ℤ) ≤ (k : ℤ) := Int.ofNat_nonneg k
  have hkq : (0 : ℚ) ≤ (k : ℚ) := Nat.cast_nonneg k
  have hden : (0 : ℚ) < 12000 + 2000 * (k : ℚ) := by linarith
  have hnum0 : 0 ≤ round s.CurrentGauge - segmentTotal k := sub_nonneg.mpr hk.1
  have hnum0q : (0 : ℚ) ≤ ((round s.CurrentGauge - segmentTotal k : ℤ) : ℚ) := by
    exact_mod_cast hnum0
  have hnum1 : round s.CurrentGauge - segmentTotal k < 12000 + 2000 * (k : ℤ) := by
    have h2 := hk.2
    rw [segmentTotal_succ] at h2
    linarith
  have ecast : (12000 : ℚ) + 2000 * (k : ℚ) = ((12000 + 2000 * (k : ℤ) : ℤ) : ℚ) := by
    push_cast
    ring
  have hlt := ddiv_lt_one _ _ hnum0 hnum1 (by omega)
  rw [← ecast] at hlt
  refine ⟨k, hk, fun k2 h2 => segment_unique hk h2, ?_, ?_, hlt.1, hlt.2⟩
  · intro fuel hfuel
    have := GetGaugeValue_eq s k hg hd.1 (hcr ▸ hfit) (hcr ▸ hk.1) (hcr ▸ hk.2) fuel hfuel
    rw [this, hcr]
  · have := roundDouble_err (((round s.CurrentGauge - segmentTotal k : ℤ) : ℚ)
      / (12000 + 2000 * (k : ℚ)))
    rw [abs_of_nonneg (div_nonneg hnum0q hden.le)] at this
    exact this

/-- C2 witness: the raw gauge 13500 gives `fulfilled = 1` and `rest` the `double`
nearest to `1500/14000`. -/
theorem GetGaugeValue_segment_witness :
    (0 ≤ (PlayStatus.mk 0 0 0 0 20 0 13500 60000).CurrentGauge
      ∧ IsDouble (PlayStatus.mk 0 0 0 0 20 0 13500 60000).CurrentGauge
      ∧ round (PlayStatus.mk 0 0 0 0 20 0 13500 60000).CurrentGauge < 2 ^ 57)
    ∧ (PlayStatus.mk 0 0 0 0 20 0 13500 60000).GetGaugeValue 2
        = some (1, roundDouble (1500 / 14000))
    ∧ ∃ k : ℕ,
      (segmentTotal k ≤ round (PlayStatus.mk 0 0 0 0 20 0 13500 60000).CurrentGauge
        ∧ round (PlayStatus.mk 0 0 0 0 20 0 13500 60000).CurrentGauge < segmentTotal (k + 1))
      ∧ ∀ fuel, k < fuel →
          (PlayStatus.mk 0 0 0 0 20 0 13500 60000).GetGaugeValue fuel
            = some ((k : ℤ),
                ddiv ((round (PlayStatus.mk 0 0 0 0 20 0 13500 60000).CurrentGauge
                    - segmentTotal k : ℤ) : ℚ) (12000 + 2000 * (k : ℚ))) := by
  refine ⟨⟨by decide!, by decide!, by decide!⟩, by decide!, ?_⟩
  obtain ⟨k, h1, _, h3, _⟩ :=
    GetGaugeValue_segment (PlayStatus.mk 0 0 0 0 20 0 13500 60000) (by decide!) (by decide!)
      (by decide!)
  exact ⟨k, h1, h3⟩

/-- C4 (as stated, refuted): the clock at the `double` 1.02 and the tap at time 1,
with a trigger on lane 2, give a near-tier hit; with `GaugeDefaultMax = 60000` and
`AllNotes = 20` the gauge does not grow by `(60000 / 20) × (1 / 1.01)`, which is not
a `double`. -/
theorem CheckJudgement_gauge_counterexample :
    0 < (samplePlayable (roundDouble 1.02) sampleControl).Status.AllNotes
    ∧ ((samplePlayable (roundDouble 1.02) sampleControl).CheckJudgement sampleTap).1 = true
    ∧ ((samplePlayable (roundDouble 1.02) sampleControl).CheckJudgement
        sampleTap).2.2.Status.Justice
        = (samplePlayable (roundDouble 1.02) sampleControl).Status.Justice + 1
    ∧ ((samplePlayable (roundDouble 1.02) sampleControl).CheckJudgement
          sampleTap).2.2.Status.CurrentGauge
        - (samplePlayable (roundDouble 1.02) sampleControl).Status.CurrentGauge
      ≠ (samplePlayable (roundDouble 1.02) sampleControl).Status.GaugeDefaultMax
          / (samplePlayable (roundDouble 1.02) sampleControl).Status.AllNotes * (1 / 1.01) := by
  decide!

/-- C4 (amended): with `AllNotes > 0`, a call of `CheckJudgement` that returns true
replaces the gauge by the `double` sum of the gauge and an amount computed on
doubles: `GaugeDefaultMax / AllNotes` when `|reltime| ≤ 0.033`,
`(GaugeDefaultMax / AllNotes) / 1.01` when `0.033 < |reltime| ≤ 0.048`, and
`(GaugeDefaultMax / AllNotes) / 1.01 × 0.5` otherwise; a call that returns false, and
any call that changes Miss, leaves the gauge as it was. For `GaugeDefaultMax ≥ 0` the
three amounts are `(GaugeDefaultMax / AllNotes) × w`, with `w = 1`, `1/1.01` and
`(1/1.01) × 0.5`, up to the rounding of two, four and five operations. -/
theorem CheckJudgement_gauge (p : PlayableProcessor) (note : SusDrawableNoteData)
    (hN : 0 < p.Status.AllNotes) :
    ((p.CheckJudgement note).1 = true →
      (|p.reltime note| ≤ jthJC →
        (p.CheckJudgement note).2.2.Status.CurrentGauge
          = dadd p.Status.CurrentGauge
              (ddiv p.Status.GaugeDefaultMax (toDouble p.Status.AllNotes)))
      ∧ (jthJC < |p.reltime note| → |p.reltime note| ≤ jthJ →
        (p.CheckJudgement note).2.2.Status.CurrentGauge
          = dadd p.Status.CurrentGauge
              (ddiv (ddiv p.Status.GaugeDefaultMax (toDouble p.Status.AllNotes))
                (roundDouble 1.01)))
      ∧ (jthJ < |p.reltime note| →
        (p.CheckJudgement note).2.2.Status.CurrentGauge
          = dadd p.Status.CurrentGauge
              (dmul (ddiv (ddiv p.Status.GaugeDefaultMax (toDouble p.Status.AllNotes))
                (roundDouble 1.01)) (1 / 2))))
    ∧ ((p.CheckJudgement note).1 = false →
        (p.CheckJudgement note).2.2.Status.CurrentGauge = p.Status.CurrentGauge)
    ∧ ((p.CheckJudgement note).2.2.Status.Miss ≠ p.Status.Miss →
        (p.CheckJudgement note).2.2.Status.CurrentGauge = p.Status.CurrentGauge)
    ∧ (0 ≤ p.Status.GaugeDefaultMax →
        near 2 (ddiv p.Status.GaugeDefaultMax (toDouble p.Status.AllNotes))
          (p.Status.GaugeDefaultMax / p.Status.AllNotes * 1)
        ∧ near 4 (ddiv (ddiv p.Status.GaugeDefaultMax (toDouble p.Status.AllNotes))
            (roundDouble 1.01))
          (p.Status.GaugeDefaultMax / p.Status.AllNotes * (1 / 1.01))
        ∧ near 5 (dmul (ddiv (ddiv p.Status.GaugeDefaultMax (toDouble p.Status.AllNotes))
            (roundDouble 1.01)) (1 / 2))
          (p.Status.GaugeDefaultMax / p.Status.AllNotes * (1 / 1.01 * 0.5))) := by
  obtain ⟨_, _, hmiss, _, h5, h6, h7⟩ := judgeHit_spec (p.reltime note) p.Status note
  have hnear : 0 ≤ p.Status.GaugeDefaultMax →
      near 2 (ddiv p.Status.GaugeDefaultMax (toDouble p.Status.AllNotes))
        (p.Status.GaugeDefaultMax / p.Status.AllNotes * 1)
      ∧ near 4 (ddiv (ddiv p.Status.GaugeDefaultMax (toDouble p.Status.AllNotes))
          (roundDouble 1.01))
        (p.Status.GaugeDefaultMax / p.Status.AllNotes * (1 / 1.01))
      ∧ near 5 (dmul (ddiv (ddiv p.Status.GaugeDefaultMax (toDouble p.Status.AllNotes))
          (roundDouble 1.01)) (1 / 2))
        (p.Status.GaugeDefaultMax / p.Status.AllNotes * (1 / 1.01 * 0.5)) := by
    intro hG
    rw [mul_one]
    exact gaugeAmount_near _ _ hG hN
  rcases CheckJudgement_cases p note with h | h | h
  · rw [h]
    exact ⟨fun hf => Bool.noConfusion hf, fun _ => rfl, fun _ => rfl, hnear⟩
  · rw [h]
    exact ⟨fun hf => Bool.noConfusion hf, fun _ => rfl, fun _ => rfl, hnear⟩
  · rw [h]
    refine ⟨fun _ => ⟨?_, ?_, ?_⟩, fun hf => Bool.noConfusion hf, fun hm => absurd hmiss hm,
      hnear⟩
    · intro ht
      exact (h5 ht).2.2.2
    · intro ht ht'
      exact (h6 ht ht').2.2.2
    · intro ht
      exact (h7 ht).2.2.2

/-- C4 witness: the clock at the `double` 1.04 and the tap at time 1 (`reltime` is
0.06 up to rounding), with a trigger, give an edge-tier hit; with
`GaugeDefaultMax = 60000` and `AllNotes = 20` the gauge goes from 9000 to the `double`
nearest to `9000 + 3000 / 1.01 × 0.5`, which differs from that number by less than
`2^-40`. -/
theorem CheckJudgement_gauge_witness :
    (0 < (samplePlayable (roundDouble 1.04) sampleControl).Status.AllNotes
      ∧ jthJ < |(samplePlayable (roundDouble 1.04) sampleControl).reltime sampleTap|)
    ∧ ((samplePlayable (roundDouble 1.04) sampleControl).CheckJudgement sampleTap).1 = true
    ∧ ((samplePlayable (roundDouble 1.04) sampleControl).CheckJudgement
        sampleTap).2.2.Status.CurrentGauge
        = dadd 9000 (dmul (ddiv (ddiv 60000 (toDouble 20)) (roundDouble 1.01)) (1 / 2))
    ∧ |dadd 9000 (dmul (ddiv (ddiv 60000 (toDouble 20)) (roundDouble 1.01)) (1 / 2))
        - (9000 + 3000 / 1.01 * 0.5)| < 2 ^ (-40 : ℤ) := by
  have hret : ((samplePlayable (roundDouble 1.04) sampleControl).CheckJudgement
      sampleTap).1 = true := by
    decide!
  have ht : jthJ < |(samplePlayable (roundDouble 1.04) sampleControl).reltime sampleTap| := by
    decide!
  exact ⟨⟨by decide, ht⟩, hret,
    ((CheckJudgement_gauge (samplePlayable (roundDouble 1.04) sampleControl) sampleTap
      (by decide)).1 hret).2.2 ht, by decide!⟩

/-- C7 (evaluation at the failing input): a finished hold that starts at time 10 and
has no child events stays Finished when either processor seeks from time 12 back to
time 7, although its start time is then in the future. -/
theorem MovePosition_backward_bare_hold :
    (12 : ℚ) + (-5) = 7 ∧ bareHold.StartTime ≥ 7
    ∧ finishedFlags (sampleAuto 12 [bareHold]).data = [true]
    ∧ finishedFlags ((sampleAuto 12 [bareHold]).MovePosition (-5)).data = [true]
    ∧ finishedFlags ((samplePlayableOn 12 [bareHold]).MovePosition (-5)).data = [true] := by
  decide!

/-- C8 (evaluation at the failing input): seeking forward from time 0 to time 20 leaves
the End child (time 15) of a hold unfinished, and seeking back from time 20 to time 5
leaves a finished End child finished: the seek writes the flag of the parent note
instead. -/
theorem MovePosition_child_flag_untouched :
    childFinishedFlags (sampleAuto 0 [sampleHold]).data = [[false]]
    ∧ childFinishedFlags ((sampleAuto 0 [sampleHold]).MovePosition 20).data = [[false]]
    ∧ childFinishedFlags ((samplePlayableOn 0 [sampleHold]).MovePosition 20).data = [[false]]
    ∧ childFinishedFlags (sampleAuto 20 [playedHold]).data = [[true]]
    ∧ childFinishedFlags ((sampleAuto 20 [playedHold]).MovePosition (-15)).data = [[true]]
    ∧ childFinishedFlags ((samplePlayableOn 20 [playedHold]).MovePosition (-15)).data
        = [[true]] := by
  decide!

/-- C9: for every note list and every signed offset, `MovePosition` (of either
processor) leaves the Finished flag of every tap, exact-tap and control-point child
event as it was: the note at each position keeps a child at each position, with the
same flag. -/
theorem MovePosition_tap_children_unchanged (relative : ℚ) (i j : ℕ)
    (note extra : SusDrawableNoteData)
    (hextra : note.ExtraData[j]? = some extra)
    (htype : extra.NoteType.test SusNoteType.Tap = true
      ∨ extra.NoteType.test SusNoteType.ExTap = true
      ∨ extra.NoteType.test SusNoteType.Control = true) :
    (∀ p : AutoPlayerProcessor, p.data[i]? = some note →
      ∃ note2 extra2, (p.MovePosition relative).data[i]? = some note2
        ∧ note2.ExtraData[j]? = some extra2
        ∧ extra2.OnTheFlyData.test NoteAttribute.Finished
            = extra.OnTheFlyData.test NoteAttribute.Finished)
    ∧ (∀ p : PlayableProcessor, p.data[i]? = some note →
      ∃ note2 extra2, (p.MovePosition relative).data[i]? = some note2
        ∧ note2.ExtraData[j]? = some extra2
        ∧ extra2.OnTheFlyData.test NoteAttribute.Finished
            = extra.OnTheFlyData.test NoteAttribute.Finished) := by
  constructor
  · intro p hnote
    refine ⟨seekNote (dadd p.Player.CurrentSoundTime relative) relative note, extra,
      getElem?_map_seekNote _ _ _ _ _ hnote, ?_, rfl⟩
    rw [seekNote_ExtraData]
    exact hextra
  · intro p hnote
    refine ⟨seekNote (dadd p.Player.CurrentSoundTime relative) relative note, extra,
      getElem?_map_seekNote _ _ _ _ _ hnote, ?_, rfl⟩
    rw [seekNote_ExtraData]
    exact hextra

/-- C9 witness: the finished tap child of a slide stays finished when the
human-input processor seeks from time 20 back to time 5. -/
theorem MovePosition_tap_children_unchanged_witness :
    (tapSlide.ExtraData[0]? = some tapChild
      ∧ tapChild.NoteType.test SusNoteType.Tap = true
      ∧ (samplePlayableOn 20 [tapSlide]).data[0]? = some tapSlide)
    ∧ ∃ note2 extra2,
        ((samplePlayableOn 20 [tapSlide]).MovePosition (-15)).data[0]? = some note2
        ∧ note2.ExtraData[0]? = some extra2
        ∧ extra2.OnTheFlyData.test NoteAttribute.Finished
            = tapChild.OnTheFlyData.test NoteAttribute.Finished :=
  ⟨⟨rfl, by decide, rfl⟩,
   (MovePosition_tap_children_unchanged (-15) 0 0 tapSlide tapChild rfl
      (Or.inl (by decide))).2 (samplePlayableOn 20 [tapSlide]) rfl⟩

/-- C10: for every prior state and every signed offset, after `MovePosition` (of
either processor) JusticeCritical, Justice, Attack, Miss, Combo and CurrentGauge are
0, isInHold, wasInHold, isInSlide and wasInSlide are false, and AllNotes is what it
was. -/
theorem MovePosition_resets_counters (relative : ℚ) :
    (∀ p : AutoPlayerProcessor,
      (p.MovePosition relative).Status.JusticeCritical = 0
      ∧ (p.MovePosition relative).Status.Justice = 0
      ∧ (p.MovePosition relative).Status.Attack = 0
      ∧ (p.MovePosition relative).Status.Miss = 0
      ∧ (p.MovePosition relative).Status.Combo = 0
      ∧ (p.MovePosition relative).Status.CurrentGauge = 0
      ∧ (p.MovePosition relative).isInHold = false
      ∧ (p.MovePosition relative).wasInHold = false
      ∧ (p.MovePosition relative).isInSlide = false
      ∧ (p.MovePosition relative).wasInSlide = false
      ∧ (p.MovePosition relative).Status.AllNotes = p.Status.AllNotes)
    ∧ (∀ p : PlayableProcessor,
      (p.MovePosition relative).Status.JusticeCritical = 0
      ∧ (p.MovePosition relative).Status.Justice = 0
      ∧ (p.MovePosition relative).Status.Attack = 0
      ∧ (p.MovePosition relative).Status.Miss = 0
      ∧ (p.MovePosition relative).Status.Combo = 0
      ∧ (p.MovePosition relative).Status.CurrentGauge = 0
      ∧ (p.MovePosition relative).isInHold = false
      ∧ (p.MovePosition relative).wasInHold = false
      ∧ (p.MovePosition relative).isInSlide = false
      ∧ (p.MovePosition relative).wasInSlide = false
      ∧ (p.MovePosition relative).Status.AllNotes = p.Status.AllNotes) :=
  ⟨fun _ => ⟨rfl, rfl, rfl, rfl, rfl, rfl, rfl, rfl, rfl, rfl, rfl⟩,
   fun _ => ⟨rfl, rfl, rfl, rfl, rfl, rfl, rfl, rfl, rfl, rfl, rfl⟩⟩

/-- C11: for every note list (the list `Player->data` that `Reset` walks), after
`Reset` of either processor JusticeCritical, Justice, Attack, Miss, Combo and the
gauge are 0, and AllNotes is the sum over the notes of: for a long-type note, 1
(unless it is an air-action) plus the number of its child events whose type
includes end, step or exact-tap; for a note that is not long-type but short-type,
1; otherwise 0. The two processors compute the same AllNotes for the same list. -/
theorem Reset_counts_notes (m : NoteMasks) (pa : AutoPlayerProcessor)
    (pp : PlayableProcessor) :
    ((pa.Reset m).Status.JusticeCritical = 0 ∧ (pa.Reset m).Status.Justice = 0
      ∧ (pa.Reset m).Status.Attack = 0 ∧ (pa.Reset m).Status.Miss = 0
      ∧ (pa.Reset m).Status.Combo = 0 ∧ (pa.Reset m).Status.CurrentGauge = 0
      ∧ (pa.Reset m).Status.AllNotes = totalUnits m pa.Player.data)
    ∧ ((pp.Reset m).Status.JusticeCritical = 0 ∧ (pp.Reset m).Status.Justice = 0
      ∧ (pp.Reset m).Status.Attack = 0 ∧ (pp.Reset m).Status.Miss = 0
      ∧ (pp.Reset m).Status.Combo = 0 ∧ (pp.Reset m).Status.CurrentGauge = 0
      ∧ (pp.Reset m).Status.AllNotes = totalUnits m pp.Player.data)
    ∧ ∀ pl : ScenePlayer,
        (({ pa with Player := pl } : AutoPlayerProcessor).Reset m).Status.AllNotes
          = (({ pp with Player := pl } : PlayableProcessor).Reset m).Status.AllNotes := by
  have ha : ∀ p : AutoPlayerProcessor,
      (p.Reset m).Status.AllNotes = totalUnits m p.Player.data := by
    intro p
    show resetNotes m p.Player.data 0 = _
    rw [resetNotes_eq, Nat.zero_add]
  have hp : ∀ p : PlayableProcessor,
      (p.Reset m).Status.AllNotes = totalUnits m p.Player.data := by
    intro p
    show resetNotes m p.Player.data 0 = _
    rw [resetNotes_eq, Nat.zero_add]
  refine ⟨⟨rfl, rfl, rfl, rfl, rfl, rfl, ha pa⟩, ⟨rfl, rfl, rfl, rfl, rfl, rfl, hp pp⟩, ?_⟩
  intro pl
  rw [ha, hp]

/-- C12: forward playback never clears Finished. For every note list, clock and
input state, after `Update` of either processor each note and each child event
that was Finished is still Finished, and the same holds for the processor's note
list after `MovePosition` with an offset `≥ 0`. -/
theorem Finished_kept_by_forward_playback (notes : List SusDrawableNoteData)
    (relative : ℚ) (hrel : relative ≥ 0) :
    (∀ p : AutoPlayerProcessor,
      List.Forall₂ keepsFinished notes (p.Update notes).2
      ∧ List.Forall₂ keepsFinished p.data (p.MovePosition relative).data)
    ∧ (∀ p : PlayableProcessor,
      List.Forall₂ keepsFinished notes (p.Update notes).2
      ∧ List.Forall₂ keepsFinished p.data (p.MovePosition relative).data) :=
  ⟨fun p => ⟨autoUpdateLoop_keepsFinished notes p false false,
      map_seekNote_forward_keepsFinished _ relative hrel p.data⟩,
   fun p => ⟨playableUpdateLoop_keepsFinished notes p false false,
      map_seekNote_forward_keepsFinished _ relative hrel p.data⟩⟩

/-- C12 witness: a finished hold with a finished End child, updated and then moved
forward by 5 under the human-input policy, keeps both flags. -/
theorem Finished_kept_by_forward_playback_witness :
    (5 : ℚ) ≥ 0
    ∧ List.Forall₂ keepsFinished [playedHold]
        ((samplePlayableOn 20 [playedHold]).Update [playedHold]).2
    ∧ List.Forall₂ keepsFinished (samplePlayableOn 20 [playedHold]).data
        ((samplePlayableOn 20 [playedHold]).MovePosition 5).data :=
  ⟨by norm_num,
   ((Finished_kept_by_forward_playback [playedHold] 5 (by norm_num)).2
      (samplePlayableOn 20 [playedHold])).1,
   ((Finished_kept_by_forward_playback [playedHold] 5 (by norm_num)).2
      (samplePlayableOn 20 [playedHold])).2⟩

/-- C14 (evaluation at the failing input): the active list holds one sub-coroutine
(context 7) that waits 3 frames. Three ticks, and three more, resume only the main
routine (context 0); the entry is still in the list and still waits 3 frames. With
a wait of 3 seconds, two ticks of 2 seconds do not resume it either; a single tick
of 3 seconds does. -/
theorem Tick_sub_coroutine_wait_not_counted :
    resumedContexts
        ((sampleScene (CoroutineWait.Time 0) [sampleCoroutine (CoroutineWait.Frame 3)]).ticks
          [(1, finishingScript), (1, finishingScript), (1, finishingScript)]).calls
      = [0, 0, 0]
    ∧ ((sampleScene (CoroutineWait.Time 0) [sampleCoroutine (CoroutineWait.Frame 3)]).ticks
          [(1, finishingScript), (1, finishingScript), (1, finishingScript)]).coroutines
      = [sampleCoroutine (CoroutineWait.Frame 3)]
    ∧ resumedContexts
        ((sampleScene (CoroutineWait.Time 0) [sampleCoroutine (CoroutineWait.Frame 3)]).ticks
          [(1, finishingScript), (1, finishingScript), (1, finishingScript),
           (1, finishingScript), (1, finishingScript), (1, finishingScript)]).calls
      = [0, 0, 0, 0, 0, 0]
    ∧ resumedContexts
        ((sampleScene (CoroutineWait.Time 0) [sampleCoroutine (CoroutineWait.Time 3)]).ticks
          [(2, finishingScript), (2, finishingScript)]).calls
      = [0, 0]
    ∧ ((sampleScene (CoroutineWait.Time 0) [sampleCoroutine (CoroutineWait.Time 3)]).ticks
          [(2, finishingScript), (2, finishingScript)]).coroutines
      = [sampleCoroutine (CoroutineWait.Time 3)]
    ∧ resumedContexts
        ((sampleScene (CoroutineWait.Time 0) [sampleCoroutine (CoroutineWait.Time 3)]).ticks
          [(3, finishingScript)]).calls
      = [7, 0] := by
  decide!

/-- C15: the main routine. With wait descriptor `Frame N`, `N ≥ 1`: after any `k < N`
ticks the stored count is `N − k`; the next tick skips the main routine and stores
`N − k − 1` when `k + 1 < N`, and resumes it when `k + 1 = N`. With wait descriptor
`Time T`: each tick replaces the stored time by the `double` difference
`time − delta`, so that, as long as the time stored after each tick so far is
positive, the stored time is `storedTime T` of the deltas so far; the next tick skips
the main routine, storing `time − delta`, when that difference is still positive, and
resumes it when it is `≤ 0`. A descriptor that is due (count `≤ 1`, or time
`≤ delta`) is resumed by the very next tick. -/
theorem Tick_main_routine_wait (s : ScriptCoroutineScene) :
    (∀ N : ℤ, 1 ≤ N → s.wait = CoroutineWait.Frame N →
      ∀ ts : List (ℚ × TickScript), (ts.length : ℤ) < N →
        (s.ticks ts).wait = CoroutineWait.Frame (N - ts.length)
        ∧ ∀ (delta : ℚ) (script : TickScript),
            ((ts.length : ℤ) + 1 < N →
              (s.ticks ts).mainSkipped delta script
              ∧ ((s.ticks ts).Tick delta script).wait
                  = CoroutineWait.Frame (N - ts.length - 1))
            ∧ ((ts.length : ℤ) + 1 = N → (s.ticks ts).mainResumed delta script))
    ∧ (∀ T : ℚ, s.wait = CoroutineWait.Time T →
      ∀ ts : List (ℚ × TickScript),
        (∀ k, 0 < k → k ≤ ts.length → 0 < storedTime T ((ts.take k).map Prod.fst)) →
        (s.ticks ts).wait = CoroutineWait.Time (storedTime T (ts.map Prod.fst))
        ∧ ∀ (delta : ℚ) (script : TickScript),
            (0 < dsub (storedTime T (ts.map Prod.fst)) delta →
              (s.ticks ts).mainSkipped delta script
              ∧ ((s.ticks ts).Tick delta script).wait
                  = CoroutineWait.Time (dsub (storedTime T (ts.map Prod.fst)) delta))
            ∧ (dsub (storedTime T (ts.map Prod.fst)) delta ≤ 0 →
                (s.ticks ts).mainResumed delta script))
    ∧ (∀ (delta : ℚ) (script : TickScript), s.wait.due delta = true →
        s.mainResumed delta script) := by
  refine ⟨?_, ?_, ?_⟩
  · intro N _ hw ts hlen
    have hwait := ticks_wait_frames ts s N hw hlen
    refine ⟨hwait, fun delta script => ⟨fun h => ?_, fun h => ?_⟩⟩
    · have hd : (s.ticks ts).wait.due delta = false := by
        rw [hwait]
        simp only [CoroutineWait.due, decide_eq_false_iff_not]
        omega
      refine ⟨(mainSkipped_iff _ _ _).mpr hd, ?_⟩
      rw [Tick_of_not_due _ _ _ hd, hwait]
      rfl
    · apply (mainResumed_iff _ _ _).mpr
      rw [hwait]
      simp only [CoroutineWait.due, decide_eq_true_eq]
      omega
  · intro T hw ts hpos
    have hwait := ticks_wait_time ts s T hw hpos
    refine ⟨hwait, fun delta script => ⟨fun h => ?_, fun h => ?_⟩⟩
    · have hd : (s.ticks ts).wait.due delta = false := by
        rw [hwait]
        simp only [CoroutineWait.due, decide_eq_false_iff_not]
        exact not_le.mpr ((dsub_pos_iff _ _).mp h)
      refine ⟨(mainSkipped_iff _ _ _).mpr hd, ?_⟩
      rw [Tick_of_not_due _ _ _ hd, hwait]
      rfl
    · apply (mainResumed_iff _ _ _).mpr
      rw [hwait]
      simp only [CoroutineWait.due, decide_eq_true_eq]
      by_contra hcon
      exact absurd ((dsub_pos_iff _ _).mpr (not_le.mp hcon)) (not_lt.mpr h)
  · intro delta script h
    exact (mainResumed_iff _ _ _).mpr h

/-- C15 witness: a main routine that waits 3 frames is skipped by two ticks, after
which its stored count is 1, and is resumed by the third. A main routine that waits
1 second and is ticked with the `double` 0.1: after nine ticks the stored time is
positive and the tenth tick skips the routine, storing `5 / 2^55`, although ten
times the double 0.1 is more than 1; the eleventh tick resumes it. -/
theorem Tick_main_routine_wait_witness :
    ((1 : ℤ) ≤ 3
      ∧ (sampleScene (CoroutineWait.Frame 3) []).wait = CoroutineWait.Frame 3
      ∧ (([(1, idleScript), (2, idleScript)] : List (ℚ × TickScript)).length : ℤ) < 3
      ∧ (([(1, idleScript), (2, idleScript)] : List (ℚ × TickScript)).length : ℤ) + 1 = 3)
    ∧ ((sampleScene (CoroutineWait.Frame 3) []).ticks [(1, idleScript), (2, idleScript)]).wait
        = CoroutineWait.Frame (3 - 2)
    ∧ ((sampleScene (CoroutineWait.Frame 3) []).ticks
          [(1, idleScript), (2, idleScript)]).mainResumed 1 idleScript
    ∧ ((sampleScene (CoroutineWait.Time 1) []).wait = CoroutineWait.Time 1
      ∧ (∀ k, 0 < k → k ≤ (tenthTicks 9).length →
          0 < storedTime 1 (((tenthTicks 9).take k).map Prod.fst))
      ∧ 0 < dsub (storedTime 1 ((tenthTicks 9).map Prod.fst)) (roundDouble 0.1)
      ∧ (∀ k, 0 < k → k ≤ (tenthTicks 10).length →
          0 < storedTime 1 (((tenthTicks 10).take k).map Prod.fst))
      ∧ dsub (storedTime 1 ((tenthTicks 10).map Prod.fst)) (roundDouble 0.1) ≤ 0
      ∧ (1 : ℚ) - 10 * roundDouble 0.1 < 0)
    ∧ ((sampleScene (CoroutineWait.Time 1) []).ticks (tenthTicks 9)).mainSkipped
        (roundDouble 0.1) idleScript
    ∧ ((sampleScene (CoroutineWait.Time 1) []).ticks (tenthTicks 10)).wait
        = CoroutineWait.Time (5 / 2 ^ 55)
    ∧ ((sampleScene (CoroutineWait.Time 1) []).ticks (tenthTicks 10)).mainResumed
        (roundDouble 0.1) idleScript := by
  have h := (Tick_main_routine_wait (sampleScene (CoroutineWait.Frame 3) [])).1 3
    (by norm_num) rfl [(1, idleScript), (2, idleScript)] (by decide)
  have h9 : ∀ k, 0 < k → k ≤ (tenthTicks 9).length →
      0 < storedTime 1 (((tenthTicks 9).take k).map Prod.fst) := by
    intro k hk hle
    have hle9 : k ≤ 9 := hle
    interval_cases k <;> decide!
  have h10 : ∀ k, 0 < k → k ≤ (tenthTicks 10).length →
      0 < storedTime 1 (((tenthTicks 10).take k).map Prod.fst) := by
    intro k hk hle
    have hle10 : k ≤ 10 := hle
    interval_cases k <;> decide!
  have hs9 : 0 < dsub (storedTime 1 ((tenthTicks 9).map Prod.fst)) (roundDouble 0.1) := by
    decide!
  have hs10 : dsub (storedTime 1 ((tenthTicks 10).map Prod.fst)) (roundDouble 0.1) ≤ 0 := by
    decide!
  have t9 := (Tick_main_routine_wait (sampleScene (CoroutineWait.Time 1) [])).2.1 1 rfl
    (tenthTicks 9) h9
  have t10 := (Tick_main_routine_wait (sampleScene (CoroutineWait.Time 1) [])).2.1 1 rfl
    (tenthTicks 10) h10
  refine ⟨⟨by norm_num, rfl, by decide, by decide⟩, h.1, (h.2 1 idleScript).2 (by decide),
    ⟨rfl, h9, hs9, h10, hs10, by decide!⟩,
    ((t9.2 (roundDouble 0.1) idleScript).1 hs9).1, ?_,
    (t10.2 (roundDouble 0.1) idleScript).2 hs10⟩
  rw [t10.1]
  decide!

/-- C16: after a `Tick`, `ScriptCoroutineScene::IsDead` is true exactly when it was
true before or the tick resumed the main routine and that execution did not end
suspended; a tick that skips the main routine, or resumes it into a new suspension,
leaves `IsDead` as it was; once true it stays true through any further ticks; and
`ScriptScene::IsDead` is false in every state. -/
theorem IsDead_after_Tick (s : ScriptCoroutineScene) (delta : ℚ) (script : TickScript) :
    ((s.Tick delta script).IsDead = true ↔
      s.IsDead = true
        ∨ (s.mainResumed delta script
            ∧ script.mainResult ≠ ExecutionResult.asEXECUTION_SUSPENDED))
    ∧ (s.mainSkipped delta script → (s.Tick delta script).IsDead = s.IsDead)
    ∧ (s.mainResumed delta script →
        script.mainResult = ExecutionResult.asEXECUTION_SUSPENDED →
        (s.Tick delta script).IsDead = s.IsDead)
    ∧ (∀ ts : List (ℚ × TickScript), s.IsDead = true → (s.ticks ts).IsDead = true)
    ∧ (∀ sc : ScriptScene, sc.IsDead = false) := by
  refine ⟨?_, ?_, ?_, fun ts h => ticks_finished ts s h, fun _ => rfl⟩
  · rw [mainResumed_iff]
    unfold ScriptCoroutineScene.IsDead
    cases hd : s.wait.due delta
    · rw [Tick_of_not_due _ _ _ hd]
      simp
    · rw [Tick_of_due _ _ _ hd]
      by_cases hr : script.mainResult = ExecutionResult.asEXECUTION_SUSPENDED
      · simp [hr]
      · simp [hr]
  · intro h
    rw [mainSkipped_iff] at h
    rw [Tick_of_not_due _ _ _ h]
    rfl
  · intro h hr
    rw [mainResumed_iff] at h
    rw [Tick_of_due _ _ _ h]
    unfold ScriptCoroutineScene.IsDead
    simp [hr]

/-- C16 witness: a main routine that is due and whose execution ends with an
exception makes the scene dead; one that is due and suspends again does not. -/
theorem IsDead_after_Tick_witness :
    ((sampleScene (CoroutineWait.Time 0) []).mainResumed 1 idleScript
      ∧ idleScript.mainResult = ExecutionResult.asEXECUTION_SUSPENDED)
    ∧ ((sampleScene (CoroutineWait.Time 0) []).Tick 1 idleScript).IsDead
        = (sampleScene (CoroutineWait.Time 0) []).IsDead
    ∧ (sampleScene (CoroutineWait.Time 0) []).IsDead = false
    ∧ ((sampleScene (CoroutineWait.Time 0) []).Tick 1
        ⟨fun _ => ExecutionResult.asEXECUTION_SUSPENDED,
         ExecutionResult.asEXECUTION_EXCEPTION, none, []⟩).IsDead = true := by
  have hres : (sampleScene (CoroutineWait.Time 0) []).mainResumed 1 idleScript := by
    unfold ScriptCoroutineScene.mainResumed
    decide!
  exact ⟨⟨hres, rfl⟩,
    (IsDead_after_Tick (sampleScene (CoroutineWait.Time 0) []) 1 idleScript).2.2.1 hres rfl,
    rfl, by decide!⟩

/-- C17: within one `Tick` the contexts are resumed in this order: the sub-coroutines
that are due, in the order of the active list, each entry once, and then, if it is
due, the main routine. -/
theorem Tick_resume_order (s : ScriptCoroutineScene) (delta : ℚ) (script : TickScript) :
    resumedContexts (s.Tick delta script).calls
      = resumedContexts s.calls
        ++ (s.coroutines.filter (fun c => c.wait.due delta)).map (fun c => c.context)
        ++ (if s.wait.due delta then [s.runningContext] else []) := by
  cases hd : s.wait.due delta
  · rw [Tick_of_not_due _ _ _ hd]
    simp [ScriptCoroutineScene.callsBeforeMain, resumedContexts_append,
      tickCoroutines_resumed, resumedContexts]
  · rw [Tick_of_due _ _ _ hd]
    simp [ScriptCoroutineScene.callsBeforeMain, resumedContexts_append,
      tickCoroutines_resumed, resumedContexts]

/-- C18 (as stated, refuted): the active list is empty and the main routine, which is
due, starts a coroutine during the tick; after the tick the active list holds that
coroutine, so it is not the prior list with the completed entries removed. -/
theorem Tick_active_list_counterexample :
    (sampleScene (CoroutineWait.Time 0) []).coroutines = []
    ∧ (sampleScene (CoroutineWait.Time 0) []).coroutines.filter
        (fun c => !c.completes spawningScript 1) = []
    ∧ ((sampleScene (CoroutineWait.Time 0) []).Tick 1 spawningScript).coroutines
        = [sampleCoroutine (CoroutineWait.Frame 0)]
    ∧ ((sampleScene (CoroutineWait.Time 0) []).Tick 1 spawningScript).coroutines
        ≠ (sampleScene (CoroutineWait.Time 0) []).coroutines.filter
            (fun c => !c.completes spawningScript 1) := by
  decide!

/-- C18 (amended): for every active list and every tick, the active list after `Tick`
is the prior list without the entries that were resumed in this tick and whose
execution did not end suspended, in the original order, followed by the coroutines
that the main routine started if it was resumed in this tick; and the releases made
in this tick are, for each removed entry in order, one release of its context, one
of its function and one of its object. -/
theorem Tick_active_list (s : ScriptCoroutineScene) (delta : ℚ) (script : TickScript) :
    (s.Tick delta script).coroutines
      = s.coroutines.filter (fun c => !c.completes script delta)
        ++ (if s.wait.due delta then script.mainSpawned else [])
    ∧ releaseCalls (s.Tick delta script).calls
      = releaseCalls s.calls
        ++ ((s.coroutines.filter (fun c => c.completes script delta)).map
              Coroutine.releases).flatten := by
  cases hd : s.wait.due delta
  · rw [Tick_of_not_due _ _ _ hd]
    simp [ScriptCoroutineScene.callsBeforeMain, releaseCalls_append, tickCoroutines_kept,
      tickCoroutines_releases, releaseCalls]
  · rw [Tick_of_due _ _ _ hd]
    simp [ScriptCoroutineScene.callsBeforeMain, releaseCalls_append, tickCoroutines_kept,
      tickCoroutines_releases, releaseCalls]

/-- C20: for every note list, clock and input state, `AutoPlayerProcessor::Update`
leaves Miss unchanged and does not decrease Combo; `PlayableProcessor::ProcessScore`
leaves Miss unchanged and does not decrease Combo when the note's type includes
hold, slide, air-action or air, and in every case raises Miss by at most 1. -/
theorem Miss_only_from_short_notes (notes : List SusDrawableNoteData)
    (note : SusDrawableNoteData) :
    (∀ p : AutoPlayerProcessor,
      (p.Update notes).1.Status.Miss = p.Status.Miss
      ∧ p.Status.Combo ≤ (p.Update notes).1.Status.Combo)
    ∧ (∀ p : PlayableProcessor,
      ((note.NoteType.test SusNoteType.Hold = true
          ∨ note.NoteType.test SusNoteType.Slide = true
          ∨ note.NoteType.test SusNoteType.AirAction = true
          ∨ note.NoteType.test SusNoteType.Air = true) →
        (p.ProcessScore note).1.Status.Miss = p.Status.Miss
        ∧ p.Status.Combo ≤ (p.ProcessScore note).1.Status.Combo)
      ∧ p.Status.Miss ≤ (p.ProcessScore note).1.Status.Miss
      ∧ (p.ProcessScore note).1.Status.Miss ≤ p.Status.Miss + 1) :=
  ⟨fun p => AutoPlayerProcessor.updateLoop_comboGrows notes p false false,
   fun p => ⟨fun h => PlayableProcessor.ProcessScore_long_comboGrows p note h,
     PlayableProcessor.ProcessScore_miss_le p note⟩⟩

/-- C20 witness: a hold that has started, processed under the human-input policy,
keeps Miss at 1 and raises Combo from 5 to 6. -/
theorem Miss_only_from_short_notes_witness :
    sampleHold.NoteType.test SusNoteType.Hold = true
    ∧ (samplePlayableOn 20 [sampleHold]).Status.Miss = 1
    ∧ ((samplePlayableOn 20 [sampleHold]).ProcessScore sampleHold).1.Status.Miss
        = (samplePlayableOn 20 [sampleHold]).Status.Miss
    ∧ (samplePlayableOn 20 [sampleHold]).Status.Combo
        ≤ ((samplePlayableOn 20 [sampleHold]).ProcessScore sampleHold).1.Status.Combo :=
  ⟨by decide, by decide,
   (((Miss_only_from_short_notes [] sampleHold).2 (samplePlayableOn 20 [sampleHold])).1
      (Or.inl (by decide))).1,
   (((Miss_only_from_short_notes [] sampleHold).2 (samplePlayableOn 20 [sampleHold])).1
      (Or.inl (by decide))).2⟩

/-- C22 (as stated, refuted): with a negative `SeenDuration` the sign of
`(StartTime − CurrentSoundTime) / SeenDuration` is reversed, and a later child is
finished while an earlier one is not. The hold `lateHold` has its children sorted by
time (Step at 12, End at 15), both unfinished. With the clock at 13 and
`SeenDuration = −1`, one `ProcessScore` call, and one `Update` call, of either policy
skip the Step child and set the Finished flag of the End child: the flags of the
children are `[false, true]`, and `childrenInOrder` fails. -/
theorem children_finished_in_order_counterexample :
    sortedChildren lateHold
    ∧ finishedFlags lateHold.ExtraData = [false, false]
    ∧ finishedFlags ((restingAuto 13 (-1) [lateHold]).ProcessScore lateHold).2.ExtraData
        = [false, true]
    ∧ finishedFlags ((restingPlayable 13 (-1) [lateHold]).ProcessScore lateHold).2.ExtraData
        = [false, true]
    ∧ childFinishedFlags ((restingAuto 13 (-1) [lateHold]).Update [lateHold]).2
        = [[false, true]]
    ∧ childFinishedFlags ((restingPlayable 13 (-1) [lateHold]).Update [lateHold]).2
        = [[false, true]]
    ∧ ¬ childrenInOrder lateHold ((restingAuto 13 (-1) [lateHold]).ProcessScore lateHold).2
    ∧ ¬ childrenInOrder lateHold
        ((restingPlayable 13 (-1) [lateHold]).ProcessScore lateHold).2 := by
  refine ⟨by decide!, by decide!, by decide!, by decide!, by decide!, by decide!, ?_, ?_⟩
  · intro h
    exact not_finishedInOrder_of_flags (fun _ => true) lateStep lateEnd _ rfl
      (by decide!) (by decide!) (by decide!) (h.1 (by decide!)).1
  · intro h
    exact not_finishedInOrder_of_flags (fun _ => true) lateStep lateEnd _ rfl
      (by decide!) (by decide!) (by decide!) (h.1 (by decide!)).1

/-- C22 (amended): with `SeenDuration > 0`, for every note whose child list is sorted
by non-decreasing `StartTime`, one `ProcessScore` call of either policy finishes the
children in order (`childrenInOrder`): whenever the Finished flag of a child is newly
set, every child before it in the list that the branch judges (hold: every child;
slide: every child that is not a control point; air-action: every child that is
neither a control point nor a tap) is Finished, and a hold or a slide finishes at
most one child in the call. The same holds, note by note, for one `Update` call of
either policy from any state with `SeenDuration > 0`, hence for every sequence of
such calls. -/
theorem children_finished_in_order :
    (∀ (p : AutoPlayerProcessor) (note : SusDrawableNoteData),
      0 < p.Player.SeenDuration → sortedChildren note →
      childrenInOrder note (p.ProcessScore note).2)
    ∧ (∀ (p : PlayableProcessor) (note : SusDrawableNoteData),
      0 < p.Player.SeenDuration → sortedChildren note →
      childrenInOrder note (p.ProcessScore note).2)
    ∧ (∀ (p : AutoPlayerProcessor) (notes : List SusDrawableNoteData),
      0 < p.Player.SeenDuration → (∀ n ∈ notes, sortedChildren n) →
      List.Forall₂ childrenInOrder notes (p.Update notes).2)
    ∧ (∀ (p : PlayableProcessor) (notes : List SusDrawableNoteData),
      0 < p.Player.SeenDuration → (∀ n ∈ notes, sortedChildren n) →
      List.Forall₂ childrenInOrder notes (p.Update notes).2) :=
  ⟨fun p note hseen hs => autoProcessScore_childrenInOrder p note hseen hs,
   fun p note hseen hs => playableProcessScore_childrenInOrder p note hseen hs,
   fun p notes hseen hs => autoUpdateLoop_childrenInOrder notes p false false hseen hs,
   fun p notes hseen hs => playableUpdateLoop_childrenInOrder notes p false false hseen hs⟩

/-- C22 witness: the amended claim at the hold `steppedHold` (children Step at 12 and
End at 15, both unfinished) with the autoplay clock at 20 and `SeenDuration = 1`: the
hypotheses hold and the call finishes the children in order. -/
theorem children_finished_in_order_witness :
    (0 < (sampleAuto 20 [steppedHold]).Player.SeenDuration ∧ sortedChildren steppedHold)
    ∧ childrenInOrder steppedHold ((sampleAuto 20 [steppedHold]).ProcessScore steppedHold).2 :=
  ⟨⟨by decide!, by decide!⟩,
   children_finished_in_order.1 (sampleAuto 20 [steppedHold]) steppedHold
     (by decide!) (by decide!)⟩

/-- C23: for every note that has no child events or whose type includes hold, slide
or air-action, and every clock and input state, one call of `ProcessScore` of either
policy raises `JusticeCritical + Justice + Attack + Miss` by exactly the number of
Finished flags, of the note and of its child events, that the call changes from clear
to set; and on a note that is Finished together with all its child events the call
changes none of the four counters. -/
theorem judgment_consumes_one_flag (note : SusDrawableNoteData)
    (hk : note.ExtraData = [] ∨ note.NoteType.test SusNoteType.Hold = true
      ∨ note.NoteType.test SusNoteType.Slide = true
      ∨ note.NoteType.test SusNoteType.AirAction = true) :
    (∀ p : AutoPlayerProcessor,
      hitCount (p.ProcessScore note).1.Status
        = hitCount p.Status + flagsSet note (p.ProcessScore note).2
      ∧ ((note.OnTheFlyData.test NoteAttribute.Finished = true
          ∧ ∀ e ∈ note.ExtraData, e.OnTheFlyData.test NoteAttribute.Finished = true) →
        (p.ProcessScore note).1.Status.JusticeCritical = p.Status.JusticeCritical
        ∧ (p.ProcessScore note).1.Status.Justice = p.Status.Justice
        ∧ (p.ProcessScore note).1.Status.Attack = p.Status.Attack
        ∧ (p.ProcessScore note).1.Status.Miss = p.Status.Miss))
    ∧ (∀ p : PlayableProcessor,
      hitCount (p.ProcessScore note).1.Status
        = hitCount p.Status + flagsSet note (p.ProcessScore note).2
      ∧ ((note.OnTheFlyData.test NoteAttribute.Finished = true
          ∧ ∀ e ∈ note.ExtraData, e.OnTheFlyData.test NoteAttribute.Finished = true) →
        (p.ProcessScore note).1.Status.JusticeCritical = p.Status.JusticeCritical
        ∧ (p.ProcessScore note).1.Status.Justice = p.Status.Justice
        ∧ (p.ProcessScore note).1.Status.Attack = p.Status.Attack
        ∧ (p.ProcessScore note).1.Status.Miss = p.Status.Miss)) := by
  constructor
  · intro p
    obtain ⟨h1, h2, h3, h4, h5⟩ := autoProcessScore_scoresBy p note hk
    refine ⟨h5, fun hall => ?_⟩
    rw [flagsSet_of_finished note _ hall.1 hall.2] at h5
    simp only [hitCount] at h5
    refine ⟨?_, ?_, ?_, ?_⟩ <;> omega
  · intro p
    obtain ⟨h1, h2, h3, h4, h5⟩ := playableProcessScore_scoresBy p note hk
    refine ⟨h5, fun hall => ?_⟩
    rw [flagsSet_of_finished note _ hall.1 hall.2] at h5
    simp only [hitCount] at h5
    refine ⟨?_, ?_, ?_, ?_⟩ <;> omega

/-- C23 witness: the unfinished hold with an unfinished End child, processed at time
20 under the human-input policy, gets two flags set and two judgments counted. -/
theorem judgment_consumes_one_flag_witness :
    sampleHold.NoteType.test SusNoteType.Hold = true
    ∧ flagsSet sampleHold ((samplePlayableOn 20 [sampleHold]).ProcessScore sampleHold).2 = 2
    ∧ hitCount ((samplePlayableOn 20 [sampleHold]).ProcessScore sampleHold).1.Status
        = hitCount (samplePlayableOn 20 [sampleHold]).Status
          + flagsSet sampleHold ((samplePlayableOn 20 [sampleHold]).ProcessScore sampleHold).2 :=
  ⟨by decide, by decide!,
   ((judgment_consumes_one_flag sampleHold (Or.inr (Or.inl (by decide)))).2
      (samplePlayableOn 20 [sampleHold])).1⟩

/-- C24 (as stated, refuted): the status with `JusticeCritical = 1`, `AllNotes = 1`
satisfies the hypotheses and has the perfect score 1,010,000; raising
`JusticeCritical` by 4252 with everything else fixed makes the formula
4,295,530,000, which is not a `uint32_t`, and `GetScore` returns less than before.
A formula value below `2^32` does not suffice either: the status with `Justice = 27`,
`Attack = 1` and `AllNotes = 744511` satisfies the hypotheses and has the score 37;
raising `JusticeCritical` from 0 to 3165990464 makes the formula `2^32 − 1`, the
`double` sum is rounded to `2^32`, and `GetScore` returns 0. -/
theorem GetScore_monotone_counterexample :
    0 < (PlayStatus.mk 1 0 0 0 1 0 0 60000).AllNotes
    ∧ (PlayStatus.mk 1 0 0 0 1 0 0 60000).JusticeCritical
        + (PlayStatus.mk 1 0 0 0 1 0 0 60000).Justice
        + (PlayStatus.mk 1 0 0 0 1 0 0 60000).Attack
        ≤ (PlayStatus.mk 1 0 0 0 1 0 0 60000).AllNotes
    ∧ (PlayStatus.mk 1 0 0 0 1 0 0 60000).GetScore = 1010000
    ∧ scoreFormula ({ PlayStatus.mk 1 0 0 0 1 0 0 60000 with
        JusticeCritical := 1 + 4252 } : PlayStatus) = 4295530000
    ∧ ({ PlayStatus.mk 1 0 0 0 1 0 0 60000 with
        JusticeCritical := 1 + 4252 } : PlayStatus).GetScore
      < (PlayStatus.mk 1 0 0 0 1 0 0 60000).GetScore
    ∧ 0 < (PlayStatus.mk 0 27 1 0 744511 0 0 60000).AllNotes
    ∧ (PlayStatus.mk 0 27 1 0 744511 0 0 60000).JusticeCritical
        + (PlayStatus.mk 0 27 1 0 744511 0 0 60000).Justice
        + (PlayStatus.mk 0 27 1 0 744511 0 0 60000).Attack
        ≤ (PlayStatus.mk 0 27 1 0 744511 0 0 60000).AllNotes
    ∧ (PlayStatus.mk 0 27 1 0 744511 0 0 60000).GetScore = 37
    ∧ scoreFormula ({ PlayStatus.mk 0 27 1 0 744511 0 0 60000 with
        JusticeCritical := 0 + 3165990464 } : PlayStatus) = 2 ^ 32 - 1
    ∧ cround ({ PlayStatus.mk 0 27 1 0 744511 0 0 60000 with
        JusticeCritical := 0 + 3165990464 } : PlayStatus).scoreResult = 2 ^ 32
    ∧ ({ PlayStatus.mk 0 27 1 0 744511 0 0 60000 with
        JusticeCritical := 0 + 3165990464 } : PlayStatus).GetScore = 0 := by
  decide!

/-- C24 (amended): for every PlayStatus with `AllNotes > 0` and
`JusticeCritical + Justice + Attack ≤ AllNotes`, `GetScore ≤ 1,010,000`, with
`GetScore = 1,010,000` when `JusticeCritical = AllNotes`; and `GetScore` does not
decrease when one of the three hit counters is increased, the others and AllNotes
held fixed, provided the `double` sum of the increased status, rounded, is below
`2^32`. That is the case whenever the counters of the increased status still sum to
at most AllNotes (its score formula is then at most 1,010,000 as well), and whenever
its score formula is below `2^32 − 1`. -/
theorem GetScore_bounded_by_perfect (s : PlayStatus) (hN : 0 < s.AllNotes)
    (hsum : s.JusticeCritical + s.Justice + s.Attack ≤ s.AllNotes) :
    s.GetScore ≤ 1010000
    ∧ (s.JusticeCritical = s.AllNotes → s.GetScore = 1010000)
    ∧ (∀ k : ℕ,
        (cround ({ s with JusticeCritical := s.JusticeCritical + k } : PlayStatus).scoreResult
            < 2 ^ 32 →
          s.GetScore
            ≤ ({ s with JusticeCritical := s.JusticeCritical + k } : PlayStatus).GetScore)
        ∧ (cround ({ s with Justice := s.Justice + k } : PlayStatus).scoreResult < 2 ^ 32 →
          s.GetScore ≤ ({ s with Justice := s.Justice + k } : PlayStatus).GetScore)
        ∧ (cround ({ s with Attack := s.Attack + k } : PlayStatus).scoreResult < 2 ^ 32 →
          s.GetScore ≤ ({ s with Attack := s.Attack + k } : PlayStatus).GetScore))
    ∧ (∀ t : PlayStatus, t.AllNotes = s.AllNotes →
        (t.JusticeCritical + t.Justice + t.Attack ≤ t.AllNotes →
          scoreFormula t ≤ 1010000 ∧ cround t.scoreResult < 2 ^ 32)
        ∧ (scoreFormula t + 1 < 2 ^ 32 → cround t.scoreResult < 2 ^ 32)) := by
  obtain ⟨h0, h1, _⟩ := scoreResult_bounds s hN
  have hle := cround_scoreResult_le s hN hsum
  have hG := GetScore_eq_cround s (by omega) h0
  have mono : ∀ t : PlayStatus, s.AllNotes = t.AllNotes →
      s.JusticeCritical ≤ t.JusticeCritical → s.Justice ≤ t.Justice → s.Attack ≤ t.Attack →
      cround t.scoreResult < 2 ^ 32 → s.GetScore ≤ t.GetScore := by
    intro t hNt a1 a2 a3 hfit
    have hm := scoreResult_mono s t hNt a1 a2 a3
    have hc := cround_mono h0 hm
    have hGs := GetScore_eq_cround s (by omega) h0
    have hGt := GetScore_eq_cround t hfit (le_trans h0 hm)
    have : (s.GetScore : ℤ) ≤ t.GetScore := by rw [hGs, hGt]; exact hc
    exact_mod_cast this
  refine ⟨?_, ?_, ?_, ?_⟩
  · have : (s.GetScore : ℤ) ≤ 1010000 := by rw [hG]; exact hle
    exact_mod_cast this
  · intro hall
    have hE := scoreExact_perfect s hN hsum hall
    rw [hE] at h1
    have hlow : (1010000 : ℤ) ≤ cround s.scoreResult := by
      unfold cround
      rw [if_pos h0, Int.le_floor]
      have hn : (1010000 : ℚ) * (1 - 2 ^ (-49 : ℤ)) ≥ 1010000 - 1 / 2 := by norm_num
      push_cast
      generalize (1010000 : ℚ) * (1 - 2 ^ (-49 : ℤ)) = w at *
      linarith
    have : (s.GetScore : ℤ) = 1010000 := by rw [hG]; omega
    exact_mod_cast this
  · intro k
    refine ⟨fun hfit => ?_, fun hfit => ?_, fun hfit => ?_⟩
    · exact mono _ rfl (Nat.le_add_right _ _) (le_refl _) (le_refl _) hfit
    · exact mono _ rfl (le_refl _) (Nat.le_add_right _ _) (le_refl _) hfit
    · exact mono _ rfl (le_refl _) (le_refl _) (Nat.le_add_right _ _) hfit
  · intro t ht
    refine ⟨fun htsum => ?_, fun hfit => ?_⟩
    · have := cround_scoreResult_le t (by omega) htsum
      exact ⟨scoreFormula_le_perfect t (by omega) htsum, by omega⟩
    · have := (scoreResult_floor_near t (by omega) hfit).2.2.2
      omega

/-- C24 witness: 10 critical hits, 5 hits and 2 near hits out of 20 notes score at
most 1,010,000, and one more critical hit does not lower the score. -/
theorem GetScore_bounded_by_perfect_witness :
    (0 < (PlayStatus.mk 10 5 2 3 20 7 0 60000).AllNotes
      ∧ (PlayStatus.mk 10 5 2 3 20 7 0 60000).JusticeCritical
          + (PlayStatus.mk 10 5 2 3 20 7 0 60000).Justice
          + (PlayStatus.mk 10 5 2 3 20 7 0 60000).Attack
          ≤ (PlayStatus.mk 10 5 2 3 20 7 0 60000).AllNotes
      ∧ cround ({ PlayStatus.mk 10 5 2 3 20 7 0 60000 with
          JusticeCritical := (PlayStatus.mk 10 5 2 3 20 7 0 60000).JusticeCritical + 1 }
            : PlayStatus).scoreResult < 2 ^ 32)
    ∧ (PlayStatus.mk 10 5 2 3 20 7 0 60000).GetScore ≤ 1010000
    ∧ (PlayStatus.mk 10 5 2 3 20 7 0 60000).GetScore
        ≤ ({ PlayStatus.mk 10 5 2 3 20 7 0 60000 with
            JusticeCritical := (PlayStatus.mk 10 5 2 3 20 7 0 60000).JusticeCritical + 1 }
              : PlayStatus).GetScore := by
  have h := GetScore_bounded_by_perfect (PlayStatus.mk 10 5 2 3 20 7 0 60000)
    (by decide) (by decide)
  have hfit : cround ({ PlayStatus.mk 10 5 2 3 20 7 0 60000 with
      JusticeCritical := (PlayStatus.mk 10 5 2 3 20 7 0 60000).JusticeCritical + 1 }
        : PlayStatus).scoreResult < 2 ^ 32 := by decide!
  exact ⟨⟨by decide, by decide, hfit⟩, h.1, (h.2.2.1 1).1 hfit⟩

end Seaurchin
